import Mathlib

/-!
# Verification of the AWaveViewer core against its specification

This file gives a shallow embedding in Lean 4 of the algorithmic core of
`src/AWaveViewer.py` — the Verilog syntax checker, the module-metadata
extractor, the testbench generator, the VCD trace parser, the point-in-time
signal query and the combinational-logic inference — and proves or refutes
the frozen specification claims about them.

Text is modelled as `List Char`.  Python `re` calls are embedded as
deterministic scanners that implement the semantics of the concrete regular
expressions appearing in the source (greedy/lazy quantifiers, ordered
alternation, `\b` word boundaries); every such embedding is documented at
its definition.  Machine integers are `Int`/`Nat` (Python integers are
unbounded, so no modular wrap-around is needed).
-/

namespace AWave

/-- Text is a list of characters. -/
abbrev Str := List Char

/-! ## Basic character classes and string helpers -/

/-- Python `\w` (ASCII): letters, digits and underscore. -/
def wordChar (c : Char) : Bool := c.isAlphanum || c = '_'

/-- Python `\s` (ASCII): space, tab, newline, carriage return, vertical tab,
form feed. -/
def spaceChar (c : Char) : Bool :=
  c = ' ' || c = '\t' || c = '\n' || c = '\r' || c = '\x0b' || c = '\x0c'

/-- `leads p s` : `p` is an initial segment of `s` (Python `s.startswith(p)`
restricted to the whole string). -/
def leads : Str → Str → Bool
  | [], _ => true
  | _ :: _, [] => false
  | p :: ps, s :: ss => p = s && leads ps ss

/-- `occursInB n h` : the string `n` occurs contiguously inside `h`
(Python `n in h`). -/
def occursInB (n : Str) : Str → Bool
  | [] => leads n []
  | c :: rest => leads n (c :: rest) || occursInB n rest

/-- Propositional form of contiguous occurrence. -/
def OccursIn (n h : Str) : Prop := ∃ l r, h = l ++ n ++ r

theorem leads_iff (p s : Str) : leads p s = true ↔ ∃ r, s = p ++ r := by
  induction p generalizing s with
  | nil => simp [leads]
  | cons c cs ih =>
    cases s with
    | nil => simp [leads]
    | cons d ds =>
      simp only [leads, Bool.and_eq_true, decide_eq_true_eq, ih, List.cons_append,
        List.cons.injEq]
      constructor
      · rintro ⟨rfl, r, rfl⟩; exact ⟨r, rfl, rfl⟩
      · rintro ⟨r, rfl, rfl⟩; exact ⟨rfl, r, rfl⟩

theorem occursInB_iff (n h : Str) : occursInB n h = true ↔ OccursIn n h := by
  induction h with
  | nil =>
    simp only [occursInB, leads_iff, OccursIn]
    constructor
    · rintro ⟨r, hr⟩
      exact ⟨[], r, by simpa using hr⟩
    · rintro ⟨l, r, hr⟩
      cases l with
      | nil => exact ⟨r, by simpa using hr⟩
      | cons x xs => simp at hr
  | cons c rest ih =>
    simp only [occursInB, Bool.or_eq_true, leads_iff, ih, OccursIn]
    constructor
    · rintro (⟨r, hr⟩ | ⟨l, r, hr⟩)
      · exact ⟨[], r, by simpa using hr⟩
      · exact ⟨c :: l, r, by simp [hr]⟩
    · rintro ⟨l, r, hr⟩
      cases l with
      | nil => exact Or.inl ⟨r, by simpa using hr⟩
      | cons x xs =>
        right
        simp only [List.cons_append, List.cons.injEq] at hr
        exact ⟨xs, r, hr.2⟩

theorem occursIn_of_parts {n h : Str} (l r : Str) (hh : h = l ++ n ++ r) :
    OccursIn n h := ⟨l, r, hh⟩

instance (n h : Str) : Decidable (OccursIn n h) :=
  decidable_of_iff (occursInB n h = true) (occursInB_iff n h)

/-- Python `str.strip()` from the left. -/
def stripLeft (s : Str) : Str := s.dropWhile (fun c => spaceChar c)

theorem stripLeft_length_le (s : Str) : (stripLeft s).length ≤ s.length := by
  induction s with
  | nil => simp [stripLeft]
  | cons c rest ih =>
    simp only [stripLeft, List.dropWhile_cons]
    split
    · simp only [stripLeft] at ih
      simp only [List.length_cons]
      omega
    · simp

/-- Python `str.strip()`: drop whitespace at both ends. -/
def pyStrip (s : Str) : Str := ((stripLeft s).reverse.dropWhile (fun c => spaceChar c)).reverse

/-- Python `s.split('\n')`: split at every newline (yields `n+1` parts for
`n` newlines). -/
def splitOnNl : Str → List Str
  | [] => [[]]
  | c :: rest =>
    if c = '\n' then [] :: splitOnNl rest
    else
      match splitOnNl rest with
      | [] => [[c]]
      | l :: ls => (c :: l) :: ls

/-- Python `s.split()` (no argument): split on whitespace runs, dropping
empty fields.  `acc` holds the characters of the current field in reverse;
`none` means no field is open. -/
def pySplitWsGo (acc : Option Str) : Str → List Str
  | [] => match acc with | none => [] | some a => [a.reverse]
  | c :: rest =>
    if spaceChar c then
      match acc with
      | none => pySplitWsGo none rest
      | some a => a.reverse :: pySplitWsGo none rest
    else
      match acc with
      | none => pySplitWsGo (some [c]) rest
      | some a => pySplitWsGo (some (c :: a)) rest

/-- Python `s.split()` (no argument). -/
def pySplitWs (s : Str) : List Str := pySplitWsGo none s

/-- Decimal digits, fuel-guided so that the kernel can evaluate it; the
fuel `n + 1` always exceeds the number of digits of `n`. -/
def natStrAux : Nat → Nat → Str
  | 0, _ => []
  | fuel + 1, n =>
    if n < 10 then [Char.ofNat (48 + n)]
    else natStrAux fuel (n / 10) ++ [Char.ofNat (48 + n % 10)]

/-- Decimal digits of a natural number, as produced by Python `str(n)`. -/
def natStr (n : Nat) : Str := natStrAux (n + 1) n

/-- Python `str(i)` for an integer. -/
def intStr (i : Int) : Str :=
  if i < 0 then '-' :: natStr i.natAbs else natStr i.natAbs

/-- Python `int(s)`: optional surrounding whitespace, optional sign, at
least one digit.  Returns `none` where Python raises `ValueError`
(digit-grouping underscores are not modelled). -/
def pyInt (s : Str) : Option Int :=
  match pyStrip s with
  | '-' :: ds => (digitsVal ds).map (fun n => -(n : Int))
  | '+' :: ds => (digitsVal ds).map (fun n => (n : Int))
  | ds => (digitsVal ds).map (fun n => (n : Int))
where
  /-- Value of a nonempty all-digit string. -/
  digitsVal (ds : Str) : Option Nat :=
    if ds = [] then none
    else ds.foldlM (fun acc c => if c.isDigit then some (acc * 10 + (c.toNat - 48)) else none) 0

/-! ## TraceQuery: `AWaveViewer.get_signal_value_at_time`
(src/AWaveViewer.py lines 5673-5686) -/

/-- A parsed VCD signal record, as built by `VCDParser.parse`
(the Python dict `{'name', 'full_name', 'width', 'type', 'values'}`). -/
structure SignalRec where
  name : Str
  full_name : Str
  width : Int
  varType : Str
  values : List (Int × Str)
  deriving Repr, DecidableEq

/-- The `for t, v in signal['values']` loop of `get_signal_value_at_time`:
starting from `value`, take each change with timestamp `≤ time`, stop at the
first later change. -/
def valueLoop (value : Str) : List (Int × Str) → Int → Str
  | [], _ => value
  | (t, v) :: rest, time => if t ≤ time then valueLoop v rest time else value

/-- `AWaveViewer.get_signal_value_at_time` (lines 5673-5686): `'X'` for an
empty change list, otherwise the loop above seeded with the first value. -/
def get_signal_value_at_time (sig : SignalRec) (time : Int) : Str :=
  match sig.values with
  | [] => ['X']
  | (_, v0) :: _ => valueLoop v0 sig.values time

/-- The data-model invariant: timestamps are non-decreasing. -/
def timesSorted (vs : List (Int × Str)) : Prop :=
  List.Pairwise (fun a b => a.1 ≤ b.1) vs

instance (vs : List (Int × Str)) : Decidable (timesSorted vs) := by
  unfold timesSorted; exact List.instDecidablePairwise vs

theorem valueLoop_spec (v : Str) (vs : List (Int × Str)) (t : Int)
    (hs : timesSorted vs) :
    valueLoop v vs t = ((vs.filter (fun c => c.1 ≤ t)).map Prod.snd).getLastD v := by
  induction vs generalizing v with
  | nil => simp [valueLoop]
  | cons a rest ih =>
    by_cases ha : a.1 ≤ t
    · have hstep : valueLoop v (a :: rest) t = valueLoop a.2 rest t := by
        obtain ⟨t0, v0⟩ := a
        simp only [valueLoop]
        simp only at ha
        rw [if_pos ha]
      have hfil : (a :: rest).filter (fun c => c.1 ≤ t) =
          a :: rest.filter (fun c => c.1 ≤ t) := by
        simp [List.filter_cons, ha]
      rw [hstep, ih a.2 hs.tail, hfil, List.map_cons, List.getLastD_cons]
    · have hrest : rest.filter (fun c => c.1 ≤ t) = [] := by
        rw [List.filter_eq_nil_iff]
        intro b hb
        have hab : a.1 ≤ b.1 := (List.pairwise_cons.mp hs).1 b hb
        simp only [decide_eq_true_eq]
        omega
      have hfil : (a :: rest).filter (fun c => c.1 ≤ t) = [] := by
        simp [List.filter_cons, ha, hrest]
      obtain ⟨t0, v0⟩ := a
      simp only at ha
      simp [valueLoop, ha, hfil]

/-- The width-1 record of the spec's worked example: changes
`[(0,"0"), (10,"1")]`. -/
def c1Demo : SignalRec :=
  { name := ['s'], full_name := ['t', 'o', 'p', '.', 's'], width := 1,
    varType := ['w', 'i', 'r', 'e'], values := [(0, ['0']), (10, ['1'])] }

/-- C1, counterexample to the claim as stated: for the spec's own example
record with changes `[(0,"0"), (10,"1")]`, at `t = -1` no change has
timestamp `≤ t`, yet `get_signal_value_at_time` returns `"0"` (the first
recorded value), not the unknown value `"x"`. -/
theorem c1_refutes :
    get_signal_value_at_time c1Demo (-1) = ['0'] ∧
    get_signal_value_at_time c1Demo (-1) ≠ ['x'] := by
  constructor
  · rfl
  · decide

/-- C1 (amended): for a record with non-decreasing timestamps,
`get_signal_value_at_time` returns the value of the last change with
`timestamp ≤ t` when one exists; when the record has changes but all of
them are later than `t` it returns the value of the first recorded change
(not `"x"`); and only for a record with no changes at all does it return
the unknown value, which is spelled `"X"` (upper case). -/
theorem c1_spec (sig : SignalRec) (t : Int) (hs : timesSorted sig.values) :
    get_signal_value_at_time sig t =
      match sig.values with
      | [] => ['X']
      | c0 :: _ => ((sig.values.filter (fun c => c.1 ≤ t)).map Prod.snd).getLastD c0.2 := by
  cases hv : sig.values with
  | nil => simp [get_signal_value_at_time, hv]
  | cons c0 rest =>
    obtain ⟨t0, v0⟩ := c0
    have : get_signal_value_at_time sig t = valueLoop v0 sig.values t := by
      simp [get_signal_value_at_time, hv]
    rw [this, valueLoop_spec v0 sig.values t hs, hv]

/-- Witness for `c1_spec`: instantiation at the spec's example record and
`t = 20`, where the result is `"1"` as the claim predicts. -/
theorem c1_witness :
    timesSorted c1Demo.values ∧ get_signal_value_at_time c1Demo 20 = ['1'] :=
  ⟨by decide, (c1_spec c1Demo 20 (by decide)).trans (by decide)⟩

/-! ## LogicInferenceEngine: truth-table construction
(`AWaveViewer.analyze_combinational_logic`, src/AWaveViewer.py lines
5564-5611) and gate classification/verification (lines 5688-5932) -/

/-- `value in ['0', '1']`. -/
def validBit (v : Str) : Bool := v = ['0'] || v = ['1']

/-- Insert into an ascending list (kernel-computable sorting helper). -/
def insertSorted (x : Int) : List Int → List Int
  | [] => [x]
  | y :: ys => if x ≤ y then x :: y :: ys else y :: insertSorted x ys

/-- Ascending insertion sort, embedding Python `sorted`. -/
def sortInts (l : List Int) : List Int := l.foldr insertSorted []

/-- Lines 5564-5570: the set of all timestamps appearing in any change
list, sorted ascending (`sorted(set(...))`; one representative per
distinct timestamp). -/
def timePoints (sigs : List SignalRec) : List Int :=
  sortInts ((sigs.flatMap (fun s => s.values.map Prod.fst)).dedup)

/-- Lines 5572-5588: sample every time point, keeping only samples whose
input values and output value all lie in `{"0","1"}`. -/
def logicSamples (inputs : List SignalRec) (output : SignalRec) : List (List Str × Str) :=
  (timePoints (inputs ++ [output])).filterMap (fun t =>
    let ins := inputs.map (fun s => get_signal_value_at_time s t)
    let ov := get_signal_value_at_time output t
    if ins.all validBit && validBit ov then some (ins, ov) else none)

/-- Lines 5602-5604: append one observed output to the group of its input
combination, creating the group at the end on first sight (Python dict
insertion order). -/
def addSample (tbl : List (List Str × List Str)) (key : List Str) (v : Str) :
    List (List Str × List Str) :=
  if tbl.any (fun e => e.1 = key) then
    tbl.map (fun e => if e.1 = key then (e.1, e.2 ++ [v]) else e)
  else tbl ++ [(key, [v])]

/-- Lines 5596-5604: group the surviving samples by input tuple. -/
def truthTableData (inputs : List SignalRec) (output : SignalRec) :
    List (List Str × List Str) :=
  (logicSamples inputs output).foldl (fun tbl s => addSample tbl s.1 s.2) []

/-- Line 5610, `max(set(outputs), key=outputs.count)`: an element of
maximal multiplicity.  Python iterates a hash set in an unspecified order
(the spec flags this tie-break as implementation-accidental); this
embedding fixes first-occurrence order and keeps the earlier candidate on
ties, which agrees with Python whenever there is no tie. -/
def mostCommon (vs : List Str) : Str :=
  match vs.dedup with
  | [] => []
  | c :: cs => cs.foldl (fun best x => if vs.count best < vs.count x then x else best) c

/-- Lines 5606-5611: consolidate each group to its most common output. -/
def truthTable (inputs : List SignalRec) (output : SignalRec) : List (List Str × Str) :=
  (truthTableData inputs output).map (fun e => (e.1, mostCommon e.2))

theorem foldl_best_mem (vs : List Str) (cs : List Str) (b : Str)
    (hb : b ∈ vs) (hcs : ∀ x ∈ cs, x ∈ vs) :
    cs.foldl (fun best x => if vs.count best < vs.count x then x else best) b ∈ vs := by
  induction cs generalizing b with
  | nil => simpa using hb
  | cons d ds ih =>
    simp only [List.foldl_cons]
    apply ih
    · by_cases hlt : vs.count b < vs.count d
      · simpa [hlt] using hcs d (by simp)
      · simpa [hlt] using hb
    · intro x hx; exact hcs x (by simp [hx])

theorem mostCommon_mem {vs : List Str} (h : vs ≠ []) : mostCommon vs ∈ vs := by
  unfold mostCommon
  cases hde : vs.dedup with
  | nil =>
    exact absurd (by simpa [List.dedup_eq_nil] using hde) h
  | cons c cs =>
    apply foldl_best_mem
    · have : c ∈ vs.dedup := by simp [hde]
      exact List.mem_dedup.mp this
    · intro x hx
      have : x ∈ vs.dedup := by simp [hde, hx]
      exact List.mem_dedup.mp this

/-- Entry invariant for the grouped table: all key bits valid, group
nonempty, all group members valid. -/
def GoodEntry (e : List Str × List Str) : Prop :=
  (∀ v ∈ e.1, validBit v = true) ∧ e.2 ≠ [] ∧ ∀ v ∈ e.2, validBit v = true

theorem addSample_good {tbl : List (List Str × List Str)} {key : List Str} {v : Str}
    (htbl : ∀ e ∈ tbl, GoodEntry e) (hkey : ∀ w ∈ key, validBit w = true)
    (hv : validBit v = true) :
    ∀ e ∈ addSample tbl key v, GoodEntry e := by
  unfold addSample
  split
  · intro e he
    rw [List.mem_map] at he
    obtain ⟨d, hd, hde⟩ := he
    obtain ⟨h1, h2, h3⟩ := htbl d hd
    by_cases hk : d.1 = key
    · rw [if_pos hk] at hde
      subst hde
      refine ⟨?_, ?_, ?_⟩
      · intro w hw
        have hw2 : w ∈ d.1 := hw
        rw [hk] at hw2
        exact hkey w hw2
      · simp
      · intro w hw
        have hw2 : w ∈ d.2 ++ [v] := hw
        rcases List.mem_append.mp hw2 with h | h
        · exact h3 w h
        · rw [List.mem_singleton] at h
          subst h
          exact hv
    · rw [if_neg (by simpa using hk)] at hde
      rw [← hde]; exact ⟨h1, h2, h3⟩
  · intro e he
    rw [List.mem_append] at he
    rcases he with he | he
    · exact htbl e he
    · rw [List.mem_singleton] at he
      subst he
      exact ⟨hkey, by simp, by intro w hw; simp only [List.mem_singleton] at hw; subst hw; exact hv⟩

theorem logicSamples_valid (inputs : List SignalRec) (output : SignalRec) :
    ∀ s ∈ logicSamples inputs output,
      (∀ v ∈ s.1, validBit v = true) ∧ validBit s.2 = true := by
  intro s hs
  unfold logicSamples at hs
  rw [List.mem_filterMap] at hs
  obtain ⟨t, _, hft⟩ := hs
  simp only at hft
  split at hft
  · rename_i hcond
    rw [Option.some.injEq] at hft
    subst hft
    rw [Bool.and_eq_true] at hcond
    exact ⟨by simpa [List.all_eq_true] using hcond.1, hcond.2⟩
  · exact absurd hft (by simp)

theorem truthTableData_good (inputs : List SignalRec) (output : SignalRec) :
    ∀ e ∈ truthTableData inputs output, GoodEntry e := by
  unfold truthTableData
  have hgen : ∀ (ss : List (List Str × Str)) (tbl : List (List Str × List Str)),
      (∀ s ∈ ss, (∀ v ∈ s.1, validBit v = true) ∧ validBit s.2 = true) →
      (∀ e ∈ tbl, GoodEntry e) →
      ∀ e ∈ ss.foldl (fun tbl s => addSample tbl s.1 s.2) tbl, GoodEntry e := by
    intro ss
    induction ss with
    | nil => intro tbl _ htbl; simpa using htbl
    | cons s rest ih =>
      intro tbl hss htbl
      simp only [List.foldl_cons]
      apply ih
      · intro x hx; exact hss x (by simp [hx])
      · exact addSample_good htbl (hss s (by simp)).1 (hss s (by simp)).2
  exact hgen _ _ (logicSamples_valid inputs output) (by simp)

/-- C8: every entry of the consolidated truth table has all key elements
in `{"0","1"}` and its output value in `{"0","1"}` — samples containing
any other value were discarded before aggregation. -/
theorem c8_truth_table_binary (inputs : List SignalRec) (output : SignalRec) :
    ∀ e ∈ truthTable inputs output,
      (∀ v ∈ e.1, v = ['0'] ∨ v = ['1']) ∧ (e.2 = ['0'] ∨ e.2 = ['1']) := by
  intro e he
  unfold truthTable at he
  rw [List.mem_map] at he
  obtain ⟨d, hd, hde⟩ := he
  obtain ⟨h1, h2, h3⟩ := truthTableData_good inputs output d hd
  subst hde
  constructor
  · intro v hv
    have := h1 v hv
    simpa [validBit, Bool.or_eq_true, decide_eq_true_eq] using this
  · have hmem := mostCommon_mem h2
    have := h3 _ hmem
    simpa [validBit, Bool.or_eq_true, decide_eq_true_eq] using this

/-- One-input demo record for the C8 witness: its trace contains an `x`
sample at time 5 that the aggregation must discard. -/
def c8DemoIn : SignalRec :=
  { name := ['a'], full_name := ['a'], width := 1, varType := ['w', 'i', 'r', 'e'],
    values := [(0, ['0']), (5, ['x']), (10, ['1'])] }

/-- Output record for the C8 witness: unknown (`z`) from time 10 on. -/
def c8DemoOut : SignalRec :=
  { name := ['o'], full_name := ['o'], width := 1, varType := ['w', 'i', 'r', 'e'],
    values := [(0, ['1']), (10, ['z'])] }

/-- Witness for `c8_truth_table_binary`: on the demo trace the table is
exactly `{("0",) -> "1"}` and the theorem's conclusion holds at that entry. -/
theorem c8_witness :
    ([['0']], ['1']) ∈ truthTable [c8DemoIn] c8DemoOut ∧
    (∀ v ∈ ([['0']], ['1']).1, v = ['0'] ∨ v = ['1']) ∧
    (([['0']], ['1']).2 = ['0'] ∨ ([['0']], ['1']).2 = ['1']) := by
  have hmem : ([['0']], ['1']) ∈ truthTable [c8DemoIn] c8DemoOut := by decide
  exact ⟨hmem, c8_truth_table_binary [c8DemoIn] c8DemoOut ([['0']], ['1']) hmem⟩

/-- `truth_table.get(key)` (Python dict lookup, `None` on a miss). -/
def tgetOpt (tbl : List (List Str × Str)) (k : List Str) : Option Str :=
  (tbl.find? (fun e => e.1 = k)).map Prod.snd

/-- `truth_table.get(key, default)`. -/
def tget (tbl : List (List Str × Str)) (k : List Str) (d : Str) : Str :=
  (tgetOpt tbl k).getD d

/-- `AWaveViewer.detect_gate_type` (src/AWaveViewer.py lines 5688-5754). -/
def detect_gate_type (tbl : List (List Str × Str)) (numInputs : Nat) : Str :=
  if numInputs = 1 then
    let input0 := tgetOpt tbl [['0']]
    let input1 := tgetOpt tbl [['1']]
    if input0 = some ['1'] && input1 = some ['0'] then "NOT Gate".data
    else if input0 = some ['0'] && input1 = some ['1'] then "BUFFER".data
    else "Unknown".data
  else if numInputs = 2 then
    let o00 := tget tbl [['0'], ['0']] ['X']
    let o01 := tget tbl [['0'], ['1']] ['X']
    let o10 := tget tbl [['1'], ['0']] ['X']
    let o11 := tget tbl [['1'], ['1']] ['X']
    if o00 = ['0'] && o01 = ['0'] && o10 = ['0'] && o11 = ['1'] then "AND Gate".data
    else if o00 = ['0'] && o01 = ['1'] && o10 = ['1'] && o11 = ['1'] then "OR Gate".data
    else if o00 = ['0'] && o01 = ['1'] && o10 = ['1'] && o11 = ['0'] then "XOR Gate".data
    else if o00 = ['1'] && o01 = ['1'] && o10 = ['1'] && o11 = ['0'] then "NAND Gate".data
    else if o00 = ['1'] && o01 = ['0'] && o10 = ['0'] && o11 = ['0'] then "NOR Gate".data
    else if o00 = ['1'] && o01 = ['0'] && o10 = ['0'] && o11 = ['1'] then "XNOR Gate".data
    else "Custom Logic".data
  else if numInputs = 3 then
    let ones := (tbl.map Prod.snd).count ['1']
    if ones = 1 then
      if tget tbl [['1'], ['1'], ['1']] ['0'] = ['1'] then "3-input AND".data
      else "3-input Logic".data
    else if ones = 7 then
      if tget tbl [['0'], ['0'], ['0']] ['1'] = ['0'] then "3-input OR".data
      else "3-input Logic".data
    else if ones = 4 then "3-input XOR/Complex".data
    else "3-input Logic".data
  else natStr numInputs ++ "-input Logic".data

/-- The per-combination mismatch lines of `verify_gate_logic` for a
two-input gate: one `✗ Error` line per expected combination whose observed
output differs (absent combinations read as `'X'`). -/
def mismatchLines (op : Str) (expected : List ((Str × Str) × Str))
    (tbl : List (List Str × Str)) : List Str :=
  expected.filterMap (fun e =>
    let act := tget tbl [e.1.1, e.1.2] ['X']
    if act ≠ e.2 then
      some ("  ✗ Error: ".data ++ e.1.1 ++ [' '] ++ op ++ [' '] ++ e.1.2 ++
        " should be ".data ++ e.2 ++ ", got ".data ++ act)
    else none)

/-- `if not errors: ... else "\n".join(errors) + "\n"`. -/
def errBlock (errors : List Str) : Str :=
  if errors = [] then "  ✓ ALL COMBINATIONS VERIFIED CORRECT!\n".data
  else List.intercalate ['\n'] errors ++ ['\n']

/-- The canonical two-input tables of `verify_gate_logic` (dict literals,
in insertion order). -/
def andExpected : List ((Str × Str) × Str) :=
  [((['0'], ['0']), ['0']), ((['0'], ['1']), ['0']),
   ((['1'], ['0']), ['0']), ((['1'], ['1']), ['1'])]

def orExpected : List ((Str × Str) × Str) :=
  [((['0'], ['0']), ['0']), ((['0'], ['1']), ['1']),
   ((['1'], ['0']), ['1']), ((['1'], ['1']), ['1'])]

def xorExpected : List ((Str × Str) × Str) :=
  [((['0'], ['0']), ['0']), ((['0'], ['1']), ['1']),
   ((['1'], ['0']), ['1']), ((['1'], ['1']), ['0'])]

def nandExpected : List ((Str × Str) × Str) :=
  [((['0'], ['0']), ['1']), ((['0'], ['1']), ['1']),
   ((['1'], ['0']), ['1']), ((['1'], ['1']), ['0'])]

def norExpected : List ((Str × Str) × Str) :=
  [((['0'], ['0']), ['1']), ((['0'], ['1']), ['0']),
   ((['1'], ['0']), ['0']), ((['1'], ['1']), ['0'])]

/-- `AWaveViewer.verify_gate_logic` (src/AWaveViewer.py lines 5756-5932). -/
def verify_gate_logic (gate_type : Str) (tbl : List (List Str × Str))
    (numInputs : Nat) : Str :=
  "VERIFICATION:\n".data ++
  (if occursInB "AND".data gate_type && !occursInB "NAND".data gate_type then
    "✓ AND Gate Rules (Correct Logic):\n".data ++
    "  • 0 AND 0 = 0 ✓\n  • 0 AND 1 = 0 ✓\n  • 1 AND 0 = 0 ✓\n  • 1 AND 1 = 1 ✓\n".data ++
    "  • Output = 1 ONLY when ALL inputs = 1\n  • Output = 0 if ANY input = 0\n".data ++
    (if numInputs = 2 then errBlock (mismatchLines "AND".data andExpected tbl)
     else if tget tbl (List.replicate numInputs ['1']) ['0'] = ['1'] then
       "  ✓ Correct: All ".data ++ natStr numInputs ++ " inputs = 1 → Output = 1\n".data
     else "  ✗ Error: All ".data ++ natStr numInputs ++ " inputs = 1 should → Output = 1\n".data)
  else if occursInB "OR".data gate_type && !occursInB "NOR".data gate_type &&
      !occursInB "XOR".data gate_type then
    "✓ OR Gate Rules (Correct Logic):\n".data ++
    "  • 0 OR 0 = 0 ✓\n  • 0 OR 1 = 1 ✓\n  • 1 OR 0 = 1 ✓\n  • 1 OR 1 = 1 ✓\n".data ++
    "  • Output = 1 when ANY input = 1\n  • Output = 0 only when ALL inputs = 0\n".data ++
    (if numInputs = 2 then errBlock (mismatchLines "OR".data orExpected tbl)
     else if tget tbl (List.replicate numInputs ['0']) ['1'] = ['0'] then
       "  ✓ Correct: All ".data ++ natStr numInputs ++ " inputs = 0 → Output = 0\n".data
     else "  ✗ Error: All ".data ++ natStr numInputs ++ " inputs = 0 should → Output = 0\n".data)
  else if occursInB "XOR".data gate_type && !occursInB "XNOR".data gate_type then
    "✓ XOR Gate Rules (Correct Logic):\n".data ++
    "  • 0 XOR 0 = 0 ✓\n  • 0 XOR 1 = 1 ✓\n  • 1 XOR 0 = 1 ✓\n  • 1 XOR 1 = 0 ✓\n".data ++
    "  • Output = 1 when inputs are DIFFERENT\n  • Output = 0 when inputs are SAME\n".data ++
    (if numInputs = 2 then errBlock (mismatchLines "XOR".data xorExpected tbl) else [])
  else if occursInB "NOT".data gate_type then
    "✓ NOT Gate Rules (Correct Logic):\n".data ++
    "  • NOT 0 = 1 ✓\n  • NOT 1 = 0 ✓\n  • Output = opposite of input\n".data ++
    errBlock ([((['0'] : Str), (['1'] : Str)), (['1'], ['0'])].filterMap (fun e =>
      let act := tget tbl [e.1] ['X']
      if act ≠ e.2 then
        some ("  ✗ Error: NOT ".data ++ e.1 ++ " should be ".data ++ e.2 ++
          ", got ".data ++ act)
      else none))
  else if occursInB "NAND".data gate_type then
    "✓ NAND Gate Rules (Correct Logic):\n".data ++
    "  • 0 NAND 0 = 1 ✓\n  • 0 NAND 1 = 1 ✓\n  • 1 NAND 0 = 1 ✓\n  • 1 NAND 1 = 0 ✓\n".data ++
    "  • Output = 0 only when ALL inputs = 1\n  • Inverted AND gate\n".data ++
    (if numInputs = 2 then errBlock (mismatchLines "NAND".data nandExpected tbl) else [])
  else if occursInB "NOR".data gate_type then
    "✓ NOR Gate Rules (Correct Logic):\n".data ++
    "  • 0 NOR 0 = 1 ✓\n  • 0 NOR 1 = 0 ✓\n  • 1 NOR 0 = 0 ✓\n  • 1 NOR 1 = 0 ✓\n".data ++
    "  • Output = 1 only when ALL inputs = 0\n  • Inverted OR gate\n".data ++
    (if numInputs = 2 then errBlock (mismatchLines "NOR".data norExpected tbl) else [])
  else "ℹ Custom logic detected\n  Check truth table for behavior\n".data)

/-- First input record of the C9 AND-gate trace. -/
def c9InA : SignalRec :=
  { name := ['a'], full_name := ['a'], width := 1, varType := ['w', 'i', 'r', 'e'],
    values := [(0, ['0']), (10, ['0']), (20, ['1']), (30, ['1'])] }

/-- Second input record of the C9 AND-gate trace. -/
def c9InB : SignalRec :=
  { name := ['b'], full_name := ['b'], width := 1, varType := ['w', 'i', 'r', 'e'],
    values := [(0, ['0']), (10, ['1']), (20, ['0']), (30, ['1'])] }

/-- Output record of the C9 AND-gate trace. -/
def c9Out : SignalRec :=
  { name := ['o'], full_name := ['o'], width := 1, varType := ['w', 'i', 'r', 'e'],
    values := [(0, ['0']), (10, ['0']), (20, ['0']), (30, ['1'])] }

/-- The consolidated AND truth table `{(0,0)->0, (0,1)->0, (1,0)->0, (1,1)->1}`. -/
def c9AndTbl : List (List Str × Str) :=
  [([['0'], ['0']], ['0']), ([['0'], ['1']], ['0']),
   ([['1'], ['0']], ['0']), ([['1'], ['1']], ['1'])]

/-- C9: a trace exercising all four combinations of a 1-bit AND gate
consolidates to exactly the AND table; `detect_gate_type` classifies it as
"AND Gate"; and `verify_gate_logic` on that classification reports all
combinations verified correct, with no mismatch (`✗`) line in its report
and an empty mismatch list. -/
theorem c9_and_inference :
    truthTable [c9InA, c9InB] c9Out = c9AndTbl ∧
    detect_gate_type c9AndTbl 2 = "AND Gate".data ∧
    mismatchLines "AND".data andExpected c9AndTbl = [] ∧
    occursInB "ALL COMBINATIONS VERIFIED CORRECT".data
      (verify_gate_logic "AND Gate".data c9AndTbl 2) = true ∧
    occursInB ['✗'] (verify_gate_logic "AND Gate".data c9AndTbl 2) = false := by
  refine ⟨by decide, by decide, by decide, by decide, by decide⟩

/-! ## TraceParser: `VCDParser` (src/AWaveViewer.py lines 1913-2013)

`parse` takes the lines of the trace file (modelling `readlines`; the
file-existence check is I/O and out of scope).  Python floats used for the
timescale are modelled as exact rationals; no claim depends on float
rounding.  A raised `ValueError` from `int(...)` is modelled as `.error`.
The debug `print` calls have no effect on the result and are not
modelled. -/

structure VCDParser where
  timescale : ℚ
  signals : List (Str × SignalRec)
  changes : List (Int × Str × Str)
  scope_hierarchy : List Str
  deriving Repr, DecidableEq

/-- `VCDParser.__init__` (lines 1916-1920). -/
def VCDParser.init : VCDParser :=
  { timescale := 1, signals := [], changes := [], scope_hierarchy := [] }

/-- Python dict assignment `m[k] = v`: replace in place, else append. -/
def dictSet (m : List (Str × SignalRec)) (k : Str) (v : SignalRec) :
    List (Str × SignalRec) :=
  if m.any (fun e => e.1 = k) then m.map (fun e => if e.1 = k then (k, v) else e)
  else m ++ [(k, v)]

/-- `k in m` for the signal dict. -/
def dictHas (m : List (Str × SignalRec)) (k : Str) : Bool :=
  m.any (fun e => e.1 = k)

/-- `m[k]['values'].append(tv)`. -/
def dictAppendValue (m : List (Str × SignalRec)) (k : Str) (tv : Int × Str) :
    List (Str × SignalRec) :=
  m.map (fun e => if e.1 = k then (e.1, { e.2 with values := e.2.values ++ [tv] }) else e)

/-- Value of a nonempty all-digit run. -/
def natOfDigits (ds : Str) : Nat := ds.foldl (fun a c => a * 10 + (c.toNat - 48)) 0

theorem dropWhile_len_le (p : Char → Bool) (s : Str) :
    (s.dropWhile p).length ≤ s.length := by
  induction s with
  | nil => simp
  | cons c rest ih =>
    simp only [List.dropWhile_cons]
    split
    · simp only [List.length_cons]; omega
    · simp

/-- `re.search(r'(\d+)\s*(\w+)', line)` (line 1941): leftmost match.  At
the first digit run `D`: if a word run follows the whitespace after `D`
the groups are `(D, that run)`; otherwise, when `|D| > 1`, the regex
backtracks one digit and the groups are `(D` without its last digit`,
[last digit])`; when `|D| = 1` the search continues after the run. -/
def findTimescale : Str → Option (Nat × Str)
  | [] => none
  | c :: rest =>
    if c.isDigit then
      let run := (c :: rest).takeWhile Char.isDigit
      let after := (c :: rest).dropWhile Char.isDigit
      let w := (after.dropWhile (fun d => spaceChar d)).takeWhile wordChar
      if w ≠ [] then some (natOfDigits run, w)
      else if run.length > 1 then
        some (natOfDigits run.dropLast, [run.getLastD c])
      else
        -- here the digit run is the single character `c`, so the search
        -- resumes exactly at `rest`
        findTimescale rest
    else findTimescale rest

/-- `unit_map.get(scale_unit, 1e-9)` (line 1945), floats as exact
rationals. -/
def unitMap (u : Str) : ℚ :=
  if u = "s".data then 1
  else if u = "ms".data then 1 / 1000
  else if u = "us".data then 1 / 1000000
  else if u = "ns".data then 1 / 1000000000
  else if u = "ps".data then 1 / 1000000000000
  else if u = "fs".data then 1 / 1000000000000000
  else 1 / 1000000000000

/-- The fresh record registered for a `$var` declaration (lines 1968-1974). -/
def mkVarRec (signal_name full_name : Str) (w : Int) (var_type : Str) : SignalRec :=
  { name := signal_name, full_name := full_name, width := w,
    varType := var_type, values := [] }

/-- The `$var` branch of the line loop (lines 1957-1976). -/
def vcdVarLine (p : VCDParser) (in_header : Bool) (current_time : Int) (line : Str) :
    Except Str (VCDParser × Bool × Int) :=
  if (pySplitWs line).length ≥ 5 then
    match (pySplitWs line).get? 1, (pySplitWs line).get? 2,
        (pySplitWs line).get? 3, (pySplitWs line).get? 4 with
    | some var_type, some widthStr, some identifier, some signal_name =>
      match pyInt widthStr with
      | some w =>
        .ok ({ p with signals := dictSet p.signals identifier (mkVarRec signal_name (List.intercalate ['.'] (p.scope_hierarchy ++ [signal_name])) w var_type) }, in_header, current_time)
      | none => .error "ValueError: invalid width".data
    | _, _, _, _ => .ok (p, in_header, current_time)
  else .ok (p, in_header, current_time)

/-- The body-section branches of the line loop (lines 1981-2011): time
markers, scalar value changes, vector value changes. -/
def vcdBodyLine (p : VCDParser) (in_header : Bool) (current_time : Int) (line : Str) :
    Except Str (VCDParser × Bool × Int) :=
  if leads ['#'] line then
    match pyInt (line.drop 1) with
    | some t => .ok (p, in_header, t)
    | none => .error "ValueError: invalid time".data
  else if line.take 1 = ['0'] ∨ line.take 1 = ['1'] ∨ line.take 1 = ['x'] ∨
      line.take 1 = ['z'] ∨ line.take 1 = ['X'] ∨ line.take 1 = ['Z'] then
    if dictHas p.signals (pyStrip (line.drop 1)) then
      .ok ({ p with
              signals := dictAppendValue p.signals (pyStrip (line.drop 1))
                (current_time, line.take 1),
              changes := p.changes ++ [(current_time, pyStrip (line.drop 1), line.take 1)] },
           in_header, current_time)
    else .ok (p, in_header, current_time)
  else if line.take 1 = ['b'] then
    match (pySplitWs line).get? 0, (pySplitWs line).get? 1 with
    | some v0, some identifier =>
      if dictHas p.signals identifier then
        .ok ({ p with
                signals := dictAppendValue p.signals identifier (current_time, v0.drop 1),
                changes := p.changes ++ [(current_time, identifier, v0.drop 1)] },
             in_header, current_time)
      else .ok (p, in_header, current_time)
    | _, _ => .ok (p, in_header, current_time)
  else .ok (p, in_header, current_time)

/-- One iteration of the `for line in lines` loop of `VCDParser.parse`
(lines 1933-2011), on the already-stripped line.  The loop state is the
parser fields together with the local variables `in_header` and
`current_time`. -/
def vcdLineS (p : VCDParser) (in_header : Bool) (current_time : Int) (line : Str) :
    Except Str (VCDParser × Bool × Int) :=
  if line = [] then .ok (p, in_header, current_time)
  else if leads "$timescale".data line then
    match findTimescale line with
    | some (v, u) =>
      .ok ({ p with timescale := (v : ℚ) * unitMap u }, in_header, current_time)
    | none => .ok (p, in_header, current_time)
  else if leads "$scope".data line then
    match (pySplitWs line).get? 2 with
    | some nm => .ok ({ p with scope_hierarchy := p.scope_hierarchy ++ [nm] }, in_header, current_time)
    | none => .ok (p, in_header, current_time)
  else if leads "$upscope".data line then
    .ok ({ p with scope_hierarchy := p.scope_hierarchy.dropLast }, in_header, current_time)
  else if leads "$var".data line then
    vcdVarLine p in_header current_time line
  else if leads "$enddefinitions".data line then
    .ok (p, false, current_time)
  else if !in_header then
    vcdBodyLine p in_header current_time line
  else .ok (p, in_header, current_time)

/-- The loop iteration on a raw line: Python strips the line first. -/
def vcdLine (st : VCDParser × Bool × Int) (rawLine : Str) :
    Except Str (VCDParser × Bool × Int) :=
  vcdLineS st.1 st.2.1 st.2.2 (pyStrip rawLine)

/-- `VCDParser.parse` (lines 1922-2013): fold the line handler over the
file's lines starting from the instance's current fields, returning the
updated instance together with `(self.signals, self.changes)`. -/
def VCDParser.parse (p : VCDParser) (lines : List Str) :
    Except Str (VCDParser × (List (Str × SignalRec) × List (Int × Str × Str))) :=
  (lines.foldlM vcdLine (p, true, 0)).map (fun st => (st.1, (st.1.signals, st.1.changes)))

theorem dictSet_keys {m : List (Str × SignalRec)} {k : Str} (k2 : Str) (v : SignalRec)
    (hk : k ∈ m.map Prod.fst) : k ∈ (dictSet m k2 v).map Prod.fst := by
  unfold dictSet
  split
  · rw [List.mem_map] at hk ⊢
    obtain ⟨e, he, hek⟩ := hk
    by_cases h2 : e.1 = k2
    · exact ⟨(k2, v), List.mem_map.mpr ⟨e, he, by simp [h2]⟩, by simp [← hek, h2]⟩
    · exact ⟨e, List.mem_map.mpr ⟨e, he, by simp [h2]⟩, hek⟩
  · simp only [List.map_append, List.mem_append]
    exact Or.inl hk

theorem dictAppendValue_keys {m : List (Str × SignalRec)} {k : Str} (k2 : Str)
    (tv : Int × Str) (hk : k ∈ m.map Prod.fst) :
    k ∈ (dictAppendValue m k2 tv).map Prod.fst := by
  unfold dictAppendValue
  rw [List.mem_map] at hk ⊢
  obtain ⟨e, he, hek⟩ := hk
  by_cases h2 : e.1 = k2
  · exact ⟨(e.1, { e.2 with values := e.2.values ++ [tv] }),
      List.mem_map.mpr ⟨e, he, by simp [h2]⟩, hek⟩
  · exact ⟨e, List.mem_map.mpr ⟨e, he, by simp [h2]⟩, hek⟩

theorem vcdVarLine_signals (p : VCDParser) (hdr : Bool) (ct : Int) (line : Str)
    (st2 : VCDParser × Bool × Int) (h : vcdVarLine p hdr ct line = .ok st2) :
    st2.1.signals = p.signals ∨
    (∃ k v, st2.1.signals = dictSet p.signals k v) ∨
    (∃ k tv, st2.1.signals = dictAppendValue p.signals k tv) := by
  unfold vcdVarLine at h
  repeat' (split at h)
  all_goals
    first
      | (rw [Except.ok.injEq] at h; subst h;
         first
           | exact Or.inl rfl
           | exact Or.inr (Or.inl ⟨_, _, rfl⟩)
           | exact Or.inr (Or.inr ⟨_, _, rfl⟩))
      | exact Except.noConfusion h

theorem vcdBodyLine_signals (p : VCDParser) (hdr : Bool) (ct : Int) (line : Str)
    (st2 : VCDParser × Bool × Int) (h : vcdBodyLine p hdr ct line = .ok st2) :
    st2.1.signals = p.signals ∨
    (∃ k v, st2.1.signals = dictSet p.signals k v) ∨
    (∃ k tv, st2.1.signals = dictAppendValue p.signals k tv) := by
  unfold vcdBodyLine at h
  repeat' (split at h)
  all_goals
    first
      | (rw [Except.ok.injEq] at h; subst h;
         first
           | exact Or.inl rfl
           | exact Or.inr (Or.inl ⟨_, _, rfl⟩)
           | exact Or.inr (Or.inr ⟨_, _, rfl⟩))
      | exact Except.noConfusion h

theorem vcdLineS_signals (p : VCDParser) (hdr : Bool) (ct : Int) (line : Str)
    (st2 : VCDParser × Bool × Int) (h : vcdLineS p hdr ct line = .ok st2) :
    st2.1.signals = p.signals ∨
    (∃ k v, st2.1.signals = dictSet p.signals k v) ∨
    (∃ k tv, st2.1.signals = dictAppendValue p.signals k tv) := by
  unfold vcdLineS at h
  repeat' (split at h)
  all_goals
    first
      | exact vcdVarLine_signals p hdr ct line st2 h
      | exact vcdBodyLine_signals p hdr ct line st2 h
      | (rw [Except.ok.injEq] at h; subst h;
         first
           | exact Or.inl rfl
           | exact Or.inr (Or.inl ⟨_, _, rfl⟩)
           | exact Or.inr (Or.inr ⟨_, _, rfl⟩))
      | exact Except.noConfusion h

theorem vcdFold_keys (lines : List Str) (st st2 : VCDParser × Bool × Int)
    (h : List.foldlM vcdLine st lines = .ok st2) (k : Str)
    (hk : k ∈ st.1.signals.map Prod.fst) : k ∈ st2.1.signals.map Prod.fst := by
  induction lines generalizing st with
  | nil =>
    simp only [List.foldlM_nil] at h
    have h2 : (Except.ok st : Except Str (VCDParser × Bool × Int)) = .ok st2 := h
    rw [Except.ok.injEq] at h2
    rw [← h2]
    exact hk
  | cons l ls ih =>
    rw [List.foldlM_cons] at h
    cases hv : vcdLine st l with
    | error e =>
      rw [hv] at h
      have h2 : (Except.error e : Except Str (VCDParser × Bool × Int)) = .ok st2 := h
      exact Except.noConfusion h2
    | ok st1 =>
      rw [hv] at h
      have h2 : List.foldlM vcdLine st1 ls = .ok st2 := h
      apply ih st1 h2
      rcases vcdLineS_signals st.1 st.2.1 st.2.2 (pyStrip l) st1 hv
        with hs | ⟨k2, v, hs⟩ | ⟨k2, tv, hs⟩
      · rw [hs]; exact hk
      · rw [hs]; exact dictSet_keys k2 v hk
      · rw [hs]; exact dictAppendValue_keys k2 tv hk

/-- C2 (amended): `VCDParser.parse` accumulates into the instance fields
rather than resetting them — every identifier present in the parser's
signal table before a call is still present in the signal table that the
call returns.  Hence a reused parser's result is not a function of the
trace alone; only a freshly constructed parser gives input-determined
results. -/
theorem c2_state_carryover (p : VCDParser) (lines : List Str)
    (res : VCDParser × (List (Str × SignalRec) × List (Int × Str × Str)))
    (h : VCDParser.parse p lines = .ok res) (k : Str)
    (hk : k ∈ p.signals.map Prod.fst) : k ∈ res.2.1.map Prod.fst := by
  unfold VCDParser.parse at h
  cases hf : List.foldlM vcdLine (p, true, 0) lines with
  | error e => rw [hf] at h; exact absurd h (by simp [Except.map])
  | ok st =>
    rw [hf] at h
    have : res = (st.1, (st.1.signals, st.1.changes)) := by
      simpa [Except.map] using h.symm
    rw [this]
    exact vcdFold_keys lines (p, true, 0) st hf k hk

/-- First demo trace: declares identifier `a`. -/
def c2Trace1 : List Str :=
  ["$var wire 1 a siga $end".data, "$enddefinitions $end".data]

/-- Second demo trace: declares identifier `b` only. -/
def c2Trace2 : List Str :=
  ["$var wire 1 b sigb $end".data, "$enddefinitions $end".data]

/-- Identifier list produced for `c2Trace2` by a parser that has already
parsed `c2Trace1`. -/
def c2ReusedKeys : Option (List Str) :=
  match VCDParser.init.parse c2Trace1 with
  | .ok (p1, _) =>
    match p1.parse c2Trace2 with
    | .ok (_, (sigs, _)) => some (sigs.map Prod.fst)
    | .error _ => none
  | .error _ => none

/-- Identifier list produced for `c2Trace2` by a freshly constructed
parser. -/
def c2FreshKeys : Option (List Str) :=
  match VCDParser.init.parse c2Trace2 with
  | .ok (_, (sigs, _)) => some (sigs.map Prod.fst)
  | .error _ => none

/-- C2, counterexample to the claim as stated: a parser that has already
parsed a trace declaring identifier `a` returns a signal table still
containing `a` when it subsequently parses a trace declaring only `b`, so
the reused parser's result differs from the fresh parser's result on the
same input. -/
theorem c2_refutes :
    c2ReusedKeys = some [['a'], ['b']] ∧ c2FreshKeys = some [['b']] ∧
    c2ReusedKeys ≠ c2FreshKeys := by
  refine ⟨by decide, by decide, by decide⟩

/-- A parser state that already holds an identifier `a`, as left behind by
an earlier parse call. -/
def c2Used : VCDParser :=
  { timescale := 1,
    signals := [(['a'],
      { name := "siga".data, full_name := "siga".data, width := 1,
        varType := "wire".data, values := [] })],
    changes := [], scope_hierarchy := [] }

/-- Witness for `c2_state_carryover`: parsing `$enddefinitions` on the
used parser keeps the stale identifier `a` in the returned table. -/
theorem c2_witness :
    (['a'] : Str) ∈ (c2Used, (c2Used.signals, c2Used.changes)).2.1.map Prod.fst :=
  c2_state_carryover c2Used ["$enddefinitions $end".data]
    (c2Used, (c2Used.signals, c2Used.changes)) rfl ['a'] (by decide)

/-! ## Comment stripping
(`VerilogSyntaxChecker._remove_comments`, src/AWaveViewer.py lines
1631-1638; the same two substitutions are inlined in
`VerilogParser.parse_module` lines 1687-1688): first remove `//` line
comments (`re.sub(r'//.*?$', ..., re.MULTILINE)` — up to but not
including the newline), then `/*...*/` block comments
(`re.sub(r'/\*.*?\*/', ..., re.DOTALL)` — lazily to the nearest `*/`;
an unterminated `/*` matches nothing and is left in place). -/

/-- Line-comment removal as a two-state scan: `inComment = true` drops
characters up to (not including) the next newline. -/
def slc : Bool → Str → Str
  | _, [] => []
  | true, c :: rest => if c = '\n' then c :: slc false rest else slc true rest
  | false, '/' :: '/' :: rest => slc true rest
  | false, c :: rest => c :: slc false rest

/-- Remove every `//` comment up to its end of line. -/
def stripLineComments (s : Str) : Str := slc false s

/-- Is a `*/` present anywhere ahead?  (An unterminated `/*` matches
nothing in the lazy regex and is left untouched.) -/
def hasClose : Str → Bool
  | [] => false
  | '*' :: '/' :: _ => true
  | _ :: rest => hasClose rest

/-- Block-comment removal as a two-state scan: `inBlock = true` drops
characters up to and including the nearest `*/`.  Skip mode is entered
only when a closing `*/` exists ahead. -/
def sbc : Bool → Str → Str
  | _, [] => []
  | true, '*' :: '/' :: rest => sbc false rest
  | true, _ :: rest => sbc true rest
  | false, '/' :: '*' :: rest =>
    if hasClose rest then sbc true rest else '/' :: '*' :: sbc false rest
  | false, c :: rest => c :: sbc false rest

/-- Remove every lazily-matched `/*...*/` block. -/
def stripBlockComments (s : Str) : Str := sbc false s

/-- `VerilogSyntaxChecker._remove_comments`: line comments first, then
block comments. -/
def removeComments (s : Str) : Str := stripBlockComments (stripLineComments s)

/-! ## ModuleExtractor: `VerilogParser.parse_module`
(src/AWaveViewer.py lines 1659-1758)

The regex machinery is embedded as deterministic scanners.  Each
`tryX` function decides whether the corresponding pattern matches at the
current position, implementing the Python regex's ordered alternation and
backtracking exactly (greedy `\s+`/`\w+`/`\d+` runs are forced because the
following token can never match a character of the run); each `scanX`
function realises `re.finditer`: try every start position left to right,
resuming after the end of each match. -/

/-- `re.search(r'module\s+(\w+)', code)` (line 1673, on the raw source):
the captured identifier of the leftmost match.  No word boundary: the
pattern also matches inside `endmodule`. -/
def tryModuleName (s : Str) : Option Str :=
  if leads "module".data s then
    let t0 := s.drop 6
    let ws := t0.takeWhile (fun c => spaceChar c)
    if ws = [] then none
    else
      let nm := (t0.drop ws.length).takeWhile wordChar
      if nm = [] then none else some nm
  else none

def findModuleName : Str → Option Str
  | [] => none
  | c :: rest =>
    match tryModuleName (c :: rest) with
    | some nm => some nm
    | none => findModuleName rest

/-- The tail `(\w+)\s*[t]` of the port patterns: identifier, optional
whitespace, then one terminator character.  Returns the identifier and the
rest after the terminator. -/
def tailPort (terms : List Char) (t : Str) : Option (Str × Str) :=
  let nm := t.takeWhile wordChar
  if nm = [] then none
  else
    match (t.drop nm.length).dropWhile (fun c => spaceChar c) with
    | c :: r => if c ∈ terms then some (nm, r) else none
    | [] => none

/-- The optional range group `(?:\[(\d+):(\d+)\]\s+)?` of the port
patterns: the candidate continuations in the regex's backtracking order
(range taken if it parses, then range skipped). -/
def rangeCands (t : Str) : List (Option (Nat × Nat) × Str) :=
  (match t with
   | '[' :: t1 =>
     let d1 := t1.takeWhile Char.isDigit
     if d1 = [] then []
     else
       match t1.drop d1.length with
       | ':' :: t2 =>
         let d2 := t2.takeWhile Char.isDigit
         if d2 = [] then []
         else
           match t2.drop d2.length with
           | ']' :: t3 =>
             let ws := t3.takeWhile (fun c => spaceChar c)
             if ws = [] then []
             else [(some (natOfDigits d1, natOfDigits d2), t3.drop ws.length)]
           | _ => []
       | _ => []
   | _ => []) ++ [(none, t)]

/-- The optional qualifier group: `(?:wire\s+)?` for `input`,
`(?:reg|wire\s+)?` for `output` (note: the `reg` alternative has no
trailing `\s+` in the source pattern), absent for the others.  Candidates
in the regex's order, ending with the skip alternative. -/
def qualCands (regAlt wireAlt : Bool) (t : Str) : List Str :=
  (if regAlt ∧ leads "reg".data t then [t.drop 3] else []) ++
  (if wireAlt ∧ leads "wire".data t then
    (let ws := (t.drop 4).takeWhile (fun c => spaceChar c)
     if ws = [] then [] else [(t.drop 4).drop ws.length])
   else []) ++ [t]

/-- Match one declaration pattern
`<kw>\s+<qual?><range?>(\w+)\s*[<terms>]` at the start of `s`, returning
`((range groups, identifier), match length)`. -/
def tryDecl (kw : Str) (regAlt wireAlt : Bool) (terms : List Char) (s : Str) :
    Option ((Option (Nat × Nat) × Str) × Nat) :=
  if leads kw s then
    let t0 := s.drop kw.length
    let ws := t0.takeWhile (fun c => spaceChar c)
    if ws = [] then none
    else
      (qualCands regAlt wireAlt (t0.drop ws.length)).findSome? (fun q =>
        (rangeCands q).findSome? (fun rc =>
          (tailPort terms rc.2).map (fun nr => ((rc.1, nr.1), s.length - nr.2.length))))
  else none

/-- `re.finditer` driver: `skip` counts positions still covered by the
previous match. -/
def scanDecl (kw : Str) (regAlt wireAlt : Bool) (terms : List Char) :
    Str → Nat → List (Option (Nat × Nat) × Str)
  | [], _ => []
  | _ :: rest, Nat.succ k => scanDecl kw regAlt wireAlt terms rest k
  | s@(_ :: rest), 0 =>
    match tryDecl kw regAlt wireAlt terms s with
    | some (entry, len) => entry :: scanDecl kw regAlt wireAlt terms rest (len - 1)
    | none => scanDecl kw regAlt wireAlt terms rest 0

/-- Suffixes following each `]` before the next newline — the candidate
end points of the lazy `\[.*?\]` (whose `.` does not match `\n`), nearest
first. -/
def closeCands : Str → List Str
  | [] => []
  | c :: rest =>
    if c = '\n' then []
    else if c = ']' then rest :: closeCands rest
    else closeCands rest

/-- The optional `(?:\[.*?\]\s+)?` group of the parameter pattern:
candidate continuations in backtracking order (each viable `]` nearest
first, then the group skipped). -/
def paramRangeCands (t : Str) : List Str :=
  (match t with
   | '[' :: t1 =>
     (closeCands t1).filterMap (fun post =>
       let ws := post.takeWhile (fun c => spaceChar c)
       if ws = [] then none else some (post.drop ws.length))
   | _ => []) ++ [t]

/-- The tail `(\w+)\s*=\s*([^;,]+)` of the parameter pattern.  The value
group is the run up to the first `;`/`,`; the caller stores it stripped
(line 1682), which also absorbs the `\s*`-versus-group split of leading
whitespace. -/
def paramTail (t : Str) : Option (Str × Str × Str) :=
  let nm := t.takeWhile wordChar
  if nm = [] then none
  else
    match (t.drop nm.length).dropWhile (fun c => spaceChar c) with
    | '=' :: t3 =>
      let run := t3.takeWhile (fun c => ¬(c = ';' ∨ c = ','))
      if run = [] then none
      else some (nm, pyStrip run, t3.drop run.length)
    | _ => none

/-- Match `parameter\s+(?:\[.*?\]\s+)?(\w+)\s*=\s*([^;,]+)` at the start
of `s` (line 1678, on the raw source). -/
def tryParam (s : Str) : Option ((Str × Str) × Nat) :=
  if leads "parameter".data s then
    let t0 := s.drop 9
    let ws := t0.takeWhile (fun c => spaceChar c)
    if ws = [] then none
    else
      (paramRangeCands (t0.drop ws.length)).findSome? (fun t1 =>
        (paramTail t1).map (fun r => ((r.1, r.2.1), s.length - r.2.2.length)))
  else none

def scanParams : Str → Nat → List (Str × Str)
  | [], _ => []
  | _ :: rest, Nat.succ k => scanParams rest k
  | s@(_ :: rest), 0 =>
    match tryParam s with
    | some (entry, len) => entry :: scanParams rest (len - 1)
    | none => scanParams rest 0

/-- A port entry of `ModuleInfo` (`{'name','width','msb','lsb'}`). -/
structure PPort where
  name : Str
  width : Int
  msb : Int
  lsb : Int
  deriving Repr, DecidableEq

/-- An internal-signal entry (`{'name','width'}`). -/
structure PSignal where
  name : Str
  width : Int
  deriving Repr, DecidableEq

/-- A parameter entry (`{'name','value'}`). -/
structure PParam where
  name : Str
  value : Str
  deriving Repr, DecidableEq

/-- The `module_info` dict (lines 1662-1670). -/
structure ModuleInfo where
  name : Str
  inputs : List PPort
  outputs : List PPort
  inouts : List PPort
  parameters : List PParam
  regs : List PSignal
  wires : List PSignal
  deriving Repr, DecidableEq

/-- One iteration of the port loop (lines 1697-1717): skip duplicates
within the category, compute `width = msb - lsb + 1` when a range was
captured, else `width = 1, msb = lsb = 0`. -/
def addPortStep (acc : List PPort) (cand : Option (Nat × Nat) × Str) : List PPort :=
  if acc.any (fun p => p.name = cand.2) then acc
  else
    match cand.1 with
    | some (a, b) => acc ++ [⟨cand.2, (a : Int) - (b : Int) + 1, (a : Int), (b : Int)⟩]
    | none => acc ++ [⟨cand.2, 1, 0, 0⟩]

def buildPorts (cands : List (Option (Nat × Nat) × Str)) : List PPort :=
  cands.foldl addPortStep []

/-- One iteration of the wire loop (lines 1721-1737): skip identifiers
already among the inputs, outputs or earlier wires. -/
def addWireStep (inputs outputs : List PPort) (acc : List PSignal)
    (cand : Option (Nat × Nat) × Str) : List PSignal :=
  if (inputs ++ outputs).any (fun p => cand.2 = p.name) ∨
      acc.any (fun p => cand.2 = p.name) then acc
  else
    match cand.1 with
    | some (a, b) => acc ++ [⟨cand.2, (a : Int) - (b : Int) + 1⟩]
    | none => acc ++ [⟨cand.2, 1⟩]

/-- One iteration of the reg loop (lines 1740-1756): skip identifiers
already among the outputs or earlier regs (inputs are not checked). -/
def addRegStep (outputs : List PPort) (acc : List PSignal)
    (cand : Option (Nat × Nat) × Str) : List PSignal :=
  if outputs.any (fun p => cand.2 = p.name) ∨ acc.any (fun p => cand.2 = p.name) then acc
  else
    match cand.1 with
    | some (a, b) => acc ++ [⟨cand.2, (a : Int) - (b : Int) + 1⟩]
    | none => acc ++ [⟨cand.2, 1⟩]

/-- `VerilogParser.parse_module` (lines 1659-1758).  The module name
(line 1673) and the parameters (line 1679) are extracted from the RAW
source; ports and internal signals from the comment-stripped source
(lines 1687-1688). -/
def parse_module (code : Str) : ModuleInfo :=
  { name := (findModuleName code).getD [],
    parameters := (scanParams code 0).map (fun e => ⟨e.1, e.2⟩),
    inputs := buildPorts (scanDecl "input".data false true [',', ';', ')'] (removeComments code) 0),
    outputs := buildPorts (scanDecl "output".data true true [',', ';', ')'] (removeComments code) 0),
    inouts := buildPorts (scanDecl "inout".data false false [',', ';', ')'] (removeComments code) 0),
    wires :=
      (scanDecl "wire".data false false [',', ';'] (removeComments code) 0).foldl
        (addWireStep
          (buildPorts (scanDecl "input".data false true [',', ';', ')'] (removeComments code) 0))
          (buildPorts (scanDecl "output".data true true [',', ';', ')'] (removeComments code) 0))) [],
    regs :=
      (scanDecl "reg".data false false [',', ';'] (removeComments code) 0).foldl
        (addRegStep
          (buildPorts (scanDecl "output".data true true [',', ';', ')'] (removeComments code) 0))) [] }

theorem addPortStep_nodup {acc : List PPort} (h : (acc.map PPort.name).Nodup)
    (cand : Option (Nat × Nat) × Str) :
    ((addPortStep acc cand).map PPort.name).Nodup := by
  unfold addPortStep
  split
  · exact h
  · rename_i hany
    have hnot : cand.2 ∉ acc.map PPort.name := by
      intro hm
      apply hany
      rw [List.any_eq_true]
      rw [List.mem_map] at hm
      obtain ⟨p, hp, hpn⟩ := hm
      exact ⟨p, hp, by simp [hpn]⟩
    split
    all_goals
      simp only [List.map_append, List.map_cons, List.map_nil]
      rw [List.nodup_append]
      exact ⟨h, List.nodup_singleton _, by
        intro a ha hb
        simp only [List.mem_singleton] at hb
        subst hb
        exact hnot ha⟩

theorem buildPorts_nodup (cands : List (Option (Nat × Nat) × Str)) :
    ((buildPorts cands).map PPort.name).Nodup := by
  unfold buildPorts
  have hgen : ∀ (cs : List (Option (Nat × Nat) × Str)) (acc : List PPort),
      (acc.map PPort.name).Nodup → ((cs.foldl addPortStep acc).map PPort.name).Nodup := by
    intro cs
    induction cs with
    | nil => intro acc h; simpa using h
    | cons c rest ih =>
      intro acc h
      simp only [List.foldl_cons]
      exact ih _ (addPortStep_nodup h c)
  exact hgen cands [] (by simp)

/-- Invariant for the wire fold: names are distinct and none of them is an
input or output name. -/
def WireInv (inputs outputs : List PPort) (acc : List PSignal) : Prop :=
  (acc.map PSignal.name).Nodup ∧
  ∀ n ∈ acc.map PSignal.name,
    n ∉ inputs.map PPort.name ∧ n ∉ outputs.map PPort.name

theorem addWireStep_inv {inputs outputs : List PPort} {acc : List PSignal}
    (h : WireInv inputs outputs acc) (cand : Option (Nat × Nat) × Str) :
    WireInv inputs outputs (addWireStep inputs outputs acc cand) := by
  unfold addWireStep
  split
  · exact h
  · rename_i hcond
    have h1 : ∀ p ∈ inputs ++ outputs, cand.2 ≠ p.name := by
      intro p hp hpe
      exact hcond (Or.inl (List.any_eq_true.mpr ⟨p, hp, by simp [hpe]⟩))
    have h2 : cand.2 ∉ acc.map PSignal.name := by
      intro hm
      rw [List.mem_map] at hm
      obtain ⟨p, hp, hpn⟩ := hm
      exact hcond (Or.inr (List.any_eq_true.mpr ⟨p, hp, by simp [hpn]⟩))
    have hin : cand.2 ∉ inputs.map PPort.name := by
      intro hm
      rw [List.mem_map] at hm
      obtain ⟨p, hp, hpn⟩ := hm
      exact h1 p (List.mem_append.mpr (Or.inl hp)) hpn.symm
    have hout : cand.2 ∉ outputs.map PPort.name := by
      intro hm
      rw [List.mem_map] at hm
      obtain ⟨p, hp, hpn⟩ := hm
      exact h1 p (List.mem_append.mpr (Or.inr hp)) hpn.symm
    have hstep : ∀ w : Int, WireInv inputs outputs (acc ++ [⟨cand.2, w⟩]) := by
      intro w
      constructor
      · simp only [List.map_append, List.map_cons, List.map_nil]
        rw [List.nodup_append]
        refine ⟨h.1, List.nodup_singleton _, ?_⟩
        intro a ha hb
        simp only [List.mem_singleton] at hb
        subst hb
        exact h2 ha
      · intro n hn
        simp only [List.map_append, List.map_cons, List.map_nil, List.mem_append,
          List.mem_singleton] at hn
        rcases hn with hn | rfl
        · exact h.2 n hn
        · exact ⟨hin, hout⟩
    split
    · exact hstep _
    · exact hstep _

/-- Invariant for the reg fold: names distinct and disjoint from the
output names (inputs are not excluded by the source). -/
def RegInv (outputs : List PPort) (acc : List PSignal) : Prop :=
  (acc.map PSignal.name).Nodup ∧ ∀ n ∈ acc.map PSignal.name, n ∉ outputs.map PPort.name

theorem addRegStep_inv {outputs : List PPort} {acc : List PSignal}
    (h : RegInv outputs acc) (cand : Option (Nat × Nat) × Str) :
    RegInv outputs (addRegStep outputs acc cand) := by
  unfold addRegStep
  split
  · exact h
  · rename_i hcond
    have h2 : cand.2 ∉ acc.map PSignal.name := by
      intro hm
      rw [List.mem_map] at hm
      obtain ⟨p, hp, hpn⟩ := hm
      exact hcond (Or.inr (List.any_eq_true.mpr ⟨p, hp, by simp [hpn]⟩))
    have hout : cand.2 ∉ outputs.map PPort.name := by
      intro hm
      rw [List.mem_map] at hm
      obtain ⟨p, hp, hpn⟩ := hm
      exact hcond (Or.inl (List.any_eq_true.mpr ⟨p, hp, by simp [hpn]⟩))
    have hstep : ∀ w : Int, RegInv outputs (acc ++ [⟨cand.2, w⟩]) := by
      intro w
      constructor
      · simp only [List.map_append, List.map_cons, List.map_nil]
        rw [List.nodup_append]
        refine ⟨h.1, List.nodup_singleton _, ?_⟩
        intro a ha hb
        simp only [List.mem_singleton] at hb
        subst hb
        exact h2 ha
      · intro n hn
        simp only [List.map_append, List.map_cons, List.map_nil, List.mem_append,
          List.mem_singleton] at hn
        rcases hn with hn | rfl
        · exact h.2 n hn
        · exact hout
    split
    · exact hstep _
    · exact hstep _

theorem wireFold_inv (inputs outputs : List PPort)
    (cands : List (Option (Nat × Nat) × Str)) :
    WireInv inputs outputs (cands.foldl (addWireStep inputs outputs) []) := by
  have hgen : ∀ (cs : List (Option (Nat × Nat) × Str)) (acc : List PSignal),
      WireInv inputs outputs acc →
      WireInv inputs outputs (cs.foldl (addWireStep inputs outputs) acc) := by
    intro cs
    induction cs with
    | nil => intro acc h; simpa using h
    | cons c rest ih =>
      intro acc h
      simp only [List.foldl_cons]
      exact ih _ (addWireStep_inv h c)
  exact hgen cands [] ⟨by simp, by simp⟩

theorem regFold_inv (outputs : List PPort) (cands : List (Option (Nat × Nat) × Str)) :
    RegInv outputs (cands.foldl (addRegStep outputs) []) := by
  have hgen : ∀ (cs : List (Option (Nat × Nat) × Str)) (acc : List PSignal),
      RegInv outputs acc → RegInv outputs (cs.foldl (addRegStep outputs) acc) := by
    intro cs
    induction cs with
    | nil => intro acc h; simpa using h
    | cons c rest ih =>
      intro acc h
      simp only [List.foldl_cons]
      exact ih _ (addRegStep_inv h c)
  exact hgen cands [] ⟨by simp, by simp⟩

/-- C5, counterexample to the claim as stated: on source
`input a;\nreg a;\n` the identifier `a` is classified as an input AND
added to the internal `reg` list — the reg loop only excludes outputs and
earlier regs, not inputs, so a name IS duplicated across the port and
internal lists. -/
theorem c5_refutes :
    (['a'] : Str) ∈ (parse_module "input a;\nreg a;\n".data).inputs.map PPort.name ∧
    (['a'] : Str) ∈ (parse_module "input a;\nreg a;\n".data).regs.map PSignal.name := by
  refine ⟨by decide, by decide⟩

/-- C5 (amended): for every source, each of the five name lists is
duplicate-free internally (first occurrence wins); a wire is never also an
input or an output, and a reg is never also an output.  The source does
not prevent a name from appearing in two different port categories, nor an
input from reappearing as a reg. -/
theorem c5_dedup (code : Str) :
    ((parse_module code).inputs.map PPort.name).Nodup ∧
    ((parse_module code).outputs.map PPort.name).Nodup ∧
    ((parse_module code).inouts.map PPort.name).Nodup ∧
    ((parse_module code).wires.map PSignal.name).Nodup ∧
    ((parse_module code).regs.map PSignal.name).Nodup ∧
    (∀ n ∈ (parse_module code).wires.map PSignal.name,
      n ∉ (parse_module code).inputs.map PPort.name ∧
      n ∉ (parse_module code).outputs.map PPort.name) ∧
    (∀ n ∈ (parse_module code).regs.map PSignal.name,
      n ∉ (parse_module code).outputs.map PPort.name) := by
  refine ⟨buildPorts_nodup _, buildPorts_nodup _, buildPorts_nodup _, ?_, ?_, ?_, ?_⟩
  · exact (wireFold_inv _ _ _).1
  · exact (regFold_inv _ _).1
  · exact (wireFold_inv _ _ _).2
  · exact (regFold_inv _ _).2

/-- Witness for `c5_dedup`: instantiation at the counterexample source;
the reg name `a` is indeed not an output name there. -/
theorem c5_witness :
    (['a'] : Str) ∈ (parse_module "input a;\nreg a;\n".data).regs.map PSignal.name ∧
    (['a'] : Str) ∉ (parse_module "input a;\nreg a;\n".data).outputs.map PPort.name :=
  ⟨by decide, (c5_dedup "input a;\nreg a;\n".data).2.2.2.2.2.2 ['a'] (by decide)⟩

/-- C6 (amended): port and internal-signal extraction operate on the
comment-stripped source only — two sources with the same comment-stripped
text yield identical input/output/inout/wire/reg lists.  (Module name and
parameters are extracted from the raw source and are NOT
comment-insensitive; see the counterexample.) -/
theorem c6_ports_from_stripped (s1 s2 : Str)
    (h : removeComments s1 = removeComments s2) :
    (parse_module s1).inputs = (parse_module s2).inputs ∧
    (parse_module s1).outputs = (parse_module s2).outputs ∧
    (parse_module s1).inouts = (parse_module s2).inouts ∧
    (parse_module s1).wires = (parse_module s2).wires ∧
    (parse_module s1).regs = (parse_module s2).regs := by
  unfold parse_module
  simp [h]

/-- C6, counterexample to the claim as stated: on
`// module foo\nmodule bar;\nendmodule` the extracted module name is
`foo` — taken from inside a line comment, because the name search runs on
the raw source — while the comment-stripped source yields `bar`; so
`parse_module` does not return the same `ModuleInfo` as on the stripped
source. -/
theorem c6_refutes :
    (parse_module "// module foo\nmodule bar;\nendmodule".data).name = "foo".data ∧
    (parse_module (removeComments "// module foo\nmodule bar;\nendmodule".data)).name = "bar".data ∧
    parse_module "// module foo\nmodule bar;\nendmodule".data ≠
      parse_module (removeComments "// module foo\nmodule bar;\nendmodule".data) := by
  refine ⟨by decide, by decide, by decide⟩

/-- Witness for `c6_ports_from_stripped`: a block comment changes nothing
in the extracted input list. -/
theorem c6_witness :
    removeComments "/* c */input a;".data = removeComments "input a;".data ∧
    (parse_module "/* c */input a;".data).inputs = (parse_module "input a;".data).inputs :=
  ⟨by decide, (c6_ports_from_stripped "/* c */input a;".data "input a;".data (by decide)).1⟩

/-! ## SyntaxChecker: `VerilogSyntaxChecker.check_syntax`
(src/AWaveViewer.py lines 1510-1629)

Keyword counts embed `len(re.findall(...))` through the canonical
decomposition of the text into alternating maximal word runs and non-word
gaps: a `\b<kw>\b` match is exactly a word run equal to `kw` (for
`\bcase[xz]?\b`, a run in {case, casex, casez}), and a `\b<kw>\s+` match
is a run equal to `kw` whose following gap starts with whitespace —
maximality of runs gives both word boundaries, and occurrences of distinct
runs never overlap, so `findall`'s non-overlapping leftmost scan counts
exactly these runs. -/

/-- Decompose text into a leading non-word gap followed by alternating
(maximal word run, following non-word gap) pairs; `flattenAlt` is its
inverse. -/
def alt : Str → Str × List (Str × Str)
  | [] => ([], [])
  | c :: s =>
    if wordChar c then
      match alt s with
      | ([], (w, g) :: ps) => ([], (c :: w, g) :: ps)
      | (g, ps) => ([], ([c], g) :: ps)
    else
      match alt s with
      | (g, ps) => (c :: g, ps)

def flattenAlt (d : Str × List (Str × Str)) : Str :=
  d.1 ++ (d.2.map (fun e => e.1 ++ e.2)).flatten

/-- `len(re.findall(r'\b<kw>\b', code))` for an all-word-character `kw`. -/
def countKw (kw : Str) (code : Str) : Nat :=
  ((alt code).2.filter (fun e => e.1 = kw)).length

/-- `len(re.findall(r'\bmodule\s+', code))` (line 1527): word run
`module` whose gap starts with whitespace. -/
def moduleSpCount (code : Str) : Nat :=
  ((alt code).2.filter (fun e =>
    e.1 = "module".data ∧ (e.2.take 1).any (fun c => spaceChar c))).length

/-- `len(re.findall(r'\bcase[xz]?\b', code))` (line 1539). -/
def caseCount (code : Str) : Nat :=
  ((alt code).2.filter (fun e =>
    e.1 = "case".data ∨ e.1 = "casex".data ∨ e.1 = "casez".data)).length

/-- `re.search(r'\bmodule\s+\w+', code)` (line 1523): a word run `module`
whose following gap is nonempty whitespace and is followed by another
word run. -/
def hasModuleIdent : List (Str × Str) → Bool
  | [] => false
  | (w, g) :: rest =>
    (w = "module".data ∧ g ≠ [] ∧ g.all (fun c => spaceChar c) ∧ rest ≠ []) ||
      hasModuleIdent rest

/-- `re.search(r'(input|output|inout)\s+[^\w\s\[\]]+', code)` (line 1589,
via `findall` + emptiness): some word run ends in one of the three
keywords and its gap begins with at least one whitespace character
followed by a character that is neither whitespace nor a bracket (gap
characters are never word characters). -/
def hasBadPortDecl (code : Str) : Bool :=
  (alt code).2.any (fun e =>
    (leads "tupni".data e.1.reverse ∨ leads "tuptuo".data e.1.reverse ∨
     leads "tuoni".data e.1.reverse) ∧
    (e.2.take 1).any (fun c => spaceChar c) ∧
    ((e.2.dropWhile (fun c => spaceChar c)).take 1).any
      (fun c => ¬(c = '[' ∨ c = ']')))

/-- Position of the first occurrence of `needle` in `hay`. -/
def findSubPos (needle : Str) : Str → Option Nat
  | [] => if needle = [] then some 0 else none
  | c :: rest =>
    if leads needle (c :: rest) then some 0
    else (findSubPos needle rest).map (· + 1)

/-- `re.search(r'module\s+\w+.*?endmodule', code, re.DOTALL)` matched at
the start of `s`: the engine takes the maximal word run after
`module\s+`, looks for the earliest later `endmodule`, and on failure
backtracks the run from the right looking for an `endmodule` inside it.
Returns the match length. -/
def tryModContent (s : Str) : Option Nat :=
  if leads "module".data s then
    let t0 := s.drop 6
    let ws := t0.takeWhile (fun c => spaceChar c)
    if ws = [] then none
    else
      let t1 := t0.drop ws.length
      let w := t1.takeWhile wordChar
      if w = [] then none
      else
        match findSubPos "endmodule".data (t1.drop w.length) with
        | some k => some (6 + ws.length + w.length + k + 9)
        | none =>
          match ((List.range w.length).filter (fun j =>
              1 ≤ j ∧ leads "endmodule".data (w.drop j))).getLast? with
          | some j => some (6 + ws.length + j + 9)
          | none => none
  else none

/-- The leftmost `module\s+\w+.*?endmodule` match (the `module_content`
of check 12), as a substring. -/
def findModContent : Str → Option Str
  | [] => none
  | c :: rest =>
    match tryModContent (c :: rest) with
    | some len => some ((c :: rest).take len)
    | none => findModContent rest

/-- `re.search(r'(always|assign|initial|\w+\s+\w+\s*\()', content)`, the
`\w+\s+\w+\s*\(` alternative: somewhere a word run, at least one
whitespace, a word run, optional whitespace, then `(`. -/
def hasInstanceCall : Str → Bool
  | [] => false
  | c :: rest =>
    (let w1 := (c :: rest).takeWhile wordChar
     if w1 = [] then false
     else
       let sp := ((c :: rest).drop w1.length).takeWhile (fun d => spaceChar d)
       if sp = [] then false
       else
         let t2 := ((c :: rest).drop w1.length).drop sp.length
         let w2 := t2.takeWhile wordChar
         if w2 = [] then false
         else ((t2.drop w2.length).dropWhile (fun d => spaceChar d)).take 1 = ['(']) ||
    hasInstanceCall rest

/-- Check 12 (lines 1602-1611): the "possibly empty module" warning. -/
def emptyModuleWarning (code : Str) : List Str :=
  match findModContent code with
  | some content =>
    if !(occursInB "input".data content || occursInB "output".data content ||
          occursInB "inout".data content) &&
        !(occursInB "always".data content || occursInB "assign".data content ||
          occursInB "initial".data content || hasInstanceCall content) then
      ["WARNING: Module appears to be empty (no ports or logic found)".data]
    else []
  | none => []

/-- The character scan of one line for checks 7/8: returns the balance
after the line and whether an unmatched-close error fired (the inner
`break` skips the rest of the line). -/
def scanLineB (openC closeC : Char) : Int → Str → Int × Bool
  | b, [] => (b, false)
  | b, c :: rest =>
    if c = openC then scanLineB openC closeC (b + 1) rest
    else if c = closeC then
      if b - 1 < 0 then (b - 1, true)
      else scanLineB openC closeC (b - 1) rest
    else scanLineB openC closeC b rest

/-- The per-line loop of checks 7/8 with 1-based line numbers. -/
def scanPairsGo (openC closeC : Char) (closeMsg : Nat → Str) :
    Int → Nat → List Str → List Str × Int
  | b, _, [] => ([], b)
  | b, n, l :: ls =>
    match scanLineB openC closeC b l with
    | (b2, fired) =>
      match scanPairsGo openC closeC closeMsg b2 (n + 1) ls with
      | (errs, bfin) => ((if fired then [closeMsg n] else []) ++ errs, bfin)

/-- Checks 7/8 (lines 1556-1586): character-by-character balance scan
with line tracking; a positive residue yields one final error. -/
def scanPairs (openC closeC : Char) (closeMsg : Nat → Str) (openMsg : Int → Str)
    (code : Str) : List Str :=
  match scanPairsGo openC closeC closeMsg 0 1 (splitOnNl code) with
  | (errs, bfin) => errs ++ (if bfin > 0 then [openMsg bfin] else [])

/-- The declaration keywords of check 13 (line 1620). -/
def declKws : List Str :=
  ["input".data, "output".data, "inout".data, "wire".data, "reg".data,
   "parameter".data, "assign".data, "integer".data, "real".data]

/-- `re.match(r'(input|...|real)\s+', line)`. -/
def startsDeclKw (line : Str) : Bool :=
  declKws.any (fun kw =>
    leads kw line ∧ ((line.drop kw.length).take 1).any (fun c => spaceChar c))

/-- `line.endswith((';', ',', ')', '(', 'begin', 'end'))`. -/
def endsOk (line : Str) : Bool :=
  [";".data, ",".data, ")".data, "(".data, "begin".data, "end".data].any
    (fun suf => leads suf.reverse line.reverse)

/-- Check 13 (lines 1613-1623): the missing-semicolon heuristic over the
stripped lines, quoting the first 50 characters. -/
def semicolonWarnings (code : Str) : List Str :=
  go 1 (splitOnNl code)
where
  /-- `i < len(lines) and not lines[i].strip().startswith((')', ','))`. -/
  nextLineOpen : List Str → Bool
    | [] => false
    | l2 :: _ => !(leads ")".data (pyStrip l2) || leads ",".data (pyStrip l2))
  go (i : Nat) : List Str → List Str
    | [] => []
    | l :: ls =>
      let line := pyStrip l
      (if line ≠ [] ∧ ¬(leads "//".data line = true) ∧ startsDeclKw line = true ∧
          ¬(endsOk line = true) ∧ nextLineOpen ls = true then
        ["WARNING: Line ".data ++ natStr i ++ " might be missing semicolon: ".data ++
          line.take 50]
      else []) ++ go (i + 1) ls

/-- The `errors` list of `check_syntax` (checks 1, 2, 4, 5, 6, 7, 8 in
source order), over the comment-stripped code. -/
def checkErrors (code : Str) : List Str :=
  (if hasModuleIdent (alt code).2 then [] else ["ERROR: No module declaration found".data]) ++
  (if moduleSpCount code ≠ countKw "endmodule".data code then
    ["ERROR: Module/endmodule mismatch (found ".data ++ natStr (moduleSpCount code) ++
     " module(s) but ".data ++ natStr (countKw "endmodule".data code) ++ " endmodule(s))".data]
   else []) ++
  (if caseCount code ≠ countKw "endcase".data code then
    ["ERROR: Case/endcase mismatch (found ".data ++ natStr (caseCount code) ++
     " case(s) but ".data ++ natStr (countKw "endcase".data code) ++ " endcase(s))".data]
   else []) ++
  (if countKw "function".data code ≠ countKw "endfunction".data code then
    ["ERROR: Function/endfunction mismatch".data]
   else []) ++
  (if countKw "task".data code ≠ countKw "endtask".data code then
    ["ERROR: Task/endtask mismatch".data]
   else []) ++
  scanPairs '(' ')'
    (fun n => "ERROR: Unmatched closing parenthesis at line ".data ++ natStr n)
    (fun b => "ERROR: ".data ++ intStr b ++ " unclosed parenthesis/parentheses".data) code ++
  scanPairs '[' ']'
    (fun n => "ERROR: Unmatched closing bracket at line ".data ++ natStr n)
    (fun b => "ERROR: ".data ++ intStr b ++ " unclosed bracket(s)".data) code

/-- The `warnings` list of `check_syntax` (checks 3, 9, 11, 12, 13 in
source order), over the comment-stripped code. -/
def checkWarnings (code : Str) : List Str :=
  (if countKw "begin".data code ≠ countKw "end".data code then
    ["WARNING: Begin/end mismatch (found ".data ++ natStr (countKw "begin".data code) ++
     " begin(s) but ".data ++ natStr (countKw "end".data code) ++ " end(s))".data]
   else []) ++
  (if hasBadPortDecl code then
    ["WARNING: Potentially invalid port declarations found".data]
   else []) ++
  (if moduleSpCount code > 1 then
    ["INFO: Multiple modules found (".data ++ natStr (moduleSpCount code) ++
     "). Only the first will be used for testbench generation.".data]
   else []) ++
  emptyModuleWarning code ++
  semicolonWarnings code

/-- `VerilogSyntaxChecker.check_syntax` (lines 1510-1629): strip comments,
run the checks, return `(is_valid, errors + warnings)`. -/
def checkCode (verilog_code : Str) : Bool × List Str :=
  ((checkErrors (removeComments verilog_code)).isEmpty,
   checkErrors (removeComments verilog_code) ++ checkWarnings (removeComments verilog_code))

theorem leads_append_left {p l : Str} (h : leads p l = true) (r : Str) :
    leads p (l ++ r) = true := by
  rw [leads_iff] at h ⊢
  obtain ⟨t, ht⟩ := h
  exact ⟨t ++ r, by rw [ht, List.append_assoc]⟩

theorem scanPairsGo_mem {openC closeC : Char} {f : Nat → Str} {m : Str} :
    ∀ (ls : List Str) (b : Int) (n : Nat),
      m ∈ (scanPairsGo openC closeC f b n ls).1 → ∃ k, m = f k := by
  intro ls
  induction ls with
  | nil => intro b n h; simp [scanPairsGo] at h
  | cons l rest ih =>
    intro b n h
    rw [scanPairsGo] at h
    rcases List.mem_append.mp h with h2 | h2
    · split at h2
      · rw [List.mem_singleton] at h2
        exact ⟨n, h2⟩
      · simp at h2
    · exact ih _ _ h2

theorem scanPairs_mem {openC closeC : Char} {f : Nat → Str} {g : Int → Str}
    {code : Str} {m : Str} (h : m ∈ scanPairs openC closeC f g code) :
    (∃ k, m = f k) ∨ (∃ b, m = g b) := by
  unfold scanPairs at h
  rcases List.mem_append.mp h with h2 | h2
  · exact Or.inl (scanPairsGo_mem _ _ _ h2)
  · right
    split at h2
    · rw [List.mem_singleton] at h2
      exact ⟨_, h2⟩
    · simp at h2

theorem mem_ite_then {α : Type} {c : Prop} [Decidable c] {m x : α}
    (h : m ∈ (if c then [x] else ([] : List α))) : m = x := by
  split at h
  · simpa using h
  · simp at h

theorem mem_ite_else {α : Type} {c : Prop} [Decidable c] {m x : α}
    (h : m ∈ (if c then ([] : List α) else [x])) : m = x := by
  split at h
  · simp at h
  · simpa using h

theorem checkErrors_pre (code : Str) :
    ∀ m ∈ checkErrors code, leads "ERROR".data m = true := by
  intro m hm
  unfold checkErrors at hm
  rcases List.mem_append.mp hm with h | h
  swap
  · rcases scanPairs_mem h with ⟨k, rfl⟩ | ⟨b, rfl⟩
    · simp only [List.append_assoc]
      exact leads_append_left (by decide) _
    · simp only [List.append_assoc]
      exact leads_append_left (by decide) _
  rcases List.mem_append.mp h with h | h
  swap
  · rcases scanPairs_mem h with ⟨k, rfl⟩ | ⟨b, rfl⟩
    · simp only [List.append_assoc]
      exact leads_append_left (by decide) _
    · simp only [List.append_assoc]
      exact leads_append_left (by decide) _
  rcases List.mem_append.mp h with h | h
  swap
  · rw [mem_ite_then h]; decide
  rcases List.mem_append.mp h with h | h
  swap
  · rw [mem_ite_then h]; decide
  rcases List.mem_append.mp h with h | h
  swap
  · rw [mem_ite_then h]
    simp only [List.append_assoc]
    exact leads_append_left (by decide) _
  rcases List.mem_append.mp h with h | h
  · rw [mem_ite_else h]; decide
  · rw [mem_ite_then h]
    simp only [List.append_assoc]
    exact leads_append_left (by decide) _

theorem semicolonWarnings_go_mem {m : Str} :
    ∀ (ls : List Str) (i : Nat), m ∈ semicolonWarnings.go i ls →
      leads "WARNING".data m = true := by
  intro ls
  induction ls with
  | nil => intro i h; simp [semicolonWarnings.go] at h
  | cons l rest ih =>
    intro i h
    rw [semicolonWarnings.go] at h
    rcases List.mem_append.mp h with h2 | h2
    · split at h2
      · rw [List.mem_singleton] at h2
        subst h2
        simp only [List.append_assoc]
        exact leads_append_left (by decide) _
      · simp at h2
    · exact ih _ h2

theorem checkWarnings_pre (code : Str) :
    ∀ m ∈ checkWarnings code,
      leads "WARNING".data m = true ∨ leads "INFO".data m = true := by
  intro m hm
  unfold checkWarnings at hm
  rcases List.mem_append.mp hm with h | h
  swap
  · exact Or.inl (semicolonWarnings_go_mem _ _ h)
  rcases List.mem_append.mp h with h | h
  swap
  · unfold emptyModuleWarning at h
    split at h
    · split at h
      · rw [List.mem_singleton] at h; subst h
        exact Or.inl (by decide)
      · simp at h
    · simp at h
  rcases List.mem_append.mp h with h | h
  swap
  · rw [mem_ite_then h]
    refine Or.inr ?_
    simp only [List.append_assoc]
    exact leads_append_left (by decide) _
  rcases List.mem_append.mp h with h | h
  · rw [mem_ite_then h]
    refine Or.inl ?_
    simp only [List.append_assoc]
    exact leads_append_left (by decide) _
  · rw [mem_ite_then h]
    exact Or.inl (by decide)

theorem leads_head_eq {m : Str} {c d : Char} {p q : Str}
    (h1 : leads (c :: p) m = true) (h2 : leads (d :: q) m = true) : c = d := by
  rw [leads_iff] at h1 h2
  obtain ⟨r1, hr1⟩ := h1
  obtain ⟨r2, hr2⟩ := h2
  rw [hr1] at hr2
  simp only [List.cons_append, List.cons.injEq] at hr2
  exact hr2.1

/-- C4: validity is exactly "no Error-severity message" — warnings and
info messages never make `is_valid` false; and whenever the stripped
source has 2 `module` keyword occurrences against 1 `endmodule`, the
checker reports invalid with a message containing "mismatch". -/
theorem c4_validity (src : Str) :
    ((checkCode src).1 = true ↔
      ∀ m ∈ (checkCode src).2, ¬ leads "ERROR".data m = true) ∧
    (moduleSpCount (removeComments src) = 2 →
     countKw "endmodule".data (removeComments src) = 1 →
     (checkCode src).1 = false ∧
       ∃ m ∈ (checkCode src).2, occursInB "mismatch".data m = true) := by
  constructor
  · constructor
    · intro hv m hm herr
      have herrs : checkErrors (removeComments src) = [] := by
        simpa [checkCode, List.isEmpty_iff] using hv
      have hm2 : m ∈ checkWarnings (removeComments src) := by
        have := hm
        simp only [checkCode, herrs, List.nil_append] at this
        exact this
      rcases checkWarnings_pre _ m hm2 with hw | hw
      · have : 'E' = 'W' := leads_head_eq herr hw
        simp at this
      · have : 'E' = 'I' := leads_head_eq herr hw
        simp at this
    · intro hall
      by_contra hv
      have hne : checkErrors (removeComments src) ≠ [] := by
        intro he
        simp [checkCode, he] at hv
      cases herrs : checkErrors (removeComments src) with
      | nil => exact hne herrs
      | cons e es =>
        have hmem : e ∈ (checkCode src).2 := by
          simp [checkCode, herrs]
        exact hall e hmem (checkErrors_pre _ e
          (by rw [herrs]; exact List.mem_cons_self e es))
  · intro hm he
    have hneq : moduleSpCount (removeComments src) ≠
        countKw "endmodule".data (removeComments src) := by
      rw [hm, he]; decide
    have hmsg : ("ERROR: Module/endmodule mismatch (found ".data ++
        natStr (moduleSpCount (removeComments src)) ++ " module(s) but ".data ++
        natStr (countKw "endmodule".data (removeComments src)) ++ " endmodule(s))".data) ∈
        checkErrors (removeComments src) := by
      unfold checkErrors
      refine List.mem_append.mpr (Or.inl (List.mem_append.mpr (Or.inl
        (List.mem_append.mpr (Or.inl (List.mem_append.mpr (Or.inl
          (List.mem_append.mpr (Or.inl (List.mem_append.mpr (Or.inr ?_)))))))))))
      rw [if_pos hneq]
      simp
    constructor
    · have : checkErrors (removeComments src) ≠ [] := by
        intro h0; rw [h0] at hmsg; simp at hmsg
      simp [checkCode, List.isEmpty_iff, this]
    · refine ⟨_, List.mem_append.mpr (Or.inl hmsg), ?_⟩
      rw [occursInB_iff]
      refine ⟨"ERROR: Module/endmodule ".data,
        " (found ".data ++ natStr (moduleSpCount (removeComments src)) ++
          " module(s) but ".data ++
          natStr (countKw "endmodule".data (removeComments src)) ++
          " endmodule(s))".data, ?_⟩
      have hsplit : "ERROR: Module/endmodule mismatch (found ".data =
          "ERROR: Module/endmodule ".data ++ "mismatch".data ++ " (found ".data := by
        decide
      rw [hsplit]
      simp [List.append_assoc]

/-- The C4 witness source: two `module` keywords, one `endmodule`. -/
def c4Demo : Str := "module a;\nendmodule\nmodule b;\n".data

/-- Witness for `c4_validity`: at the demo source the counts are 2 and 1,
the checker reports invalid, and a message contains "mismatch". -/
theorem c4_witness :
    moduleSpCount (removeComments c4Demo) = 2 ∧
    countKw "endmodule".data (removeComments c4Demo) = 1 ∧
    (checkCode c4Demo).1 = false ∧
    ∃ m ∈ (checkCode c4Demo).2, occursInB "mismatch".data m = true :=
  ⟨by decide, by decide,
   ((c4_validity c4Demo).2 (by decide) (by decide)).1,
   ((c4_validity c4Demo).2 (by decide) (by decide)).2⟩

/-- C10: the message list returned by `check_syntax` is the errors list
followed by the warnings list — every `ERROR:` message precedes every
`WARNING:`/`INFO:` message, regardless of where the offending constructs
occur in the source. -/
theorem c10_errors_before_warnings (src : Str) :
    ∃ es ws, (checkCode src).2 = es ++ ws ∧
      (∀ m ∈ es, leads "ERROR".data m = true) ∧
      (∀ m ∈ ws, leads "WARNING".data m = true ∨ leads "INFO".data m = true) :=
  ⟨checkErrors (removeComments src), checkWarnings (removeComments src), rfl,
   checkErrors_pre _, checkWarnings_pre _⟩

/-! ## TestbenchSynthesizer: `TestbenchGenerator.generate_testbench`
(src/AWaveViewer.py lines 1764-1910)

The emitted text is reproduced verbatim, section by section in the order
the source builds `tb_code`. -/

def lowerStr (s : Str) : Str := s.map Char.toLower

/-- Line 1831: the input name contains `clk` or `clock` case-insensitively. -/
def isClockName (n : Str) : Bool :=
  occursInB "clk".data (lowerStr n) || occursInB "clock".data (lowerStr n)

/-- Line 1842: the input name contains `rst` or `reset` case-insensitively. -/
def isResetName (n : Str) : Bool :=
  occursInB "rst".data (lowerStr n) || occursInB "reset".data (lowerStr n)

/-- `[s['name'] for s in clock_signals + reset_signals]` (lines 1862/1874). -/
def excludedNames (inputs : List PPort) : List Str :=
  ((inputs.filter (fun i => isClockName i.name)) ++
   (inputs.filter (fun i => isResetName i.name))).map PPort.name

/-- The header f-string (lines 1770-1786). -/
def tbHeader (m : Str) : Str :=
  "// Automatic Testbench for ".data ++ m ++
  "\n// Generated by AWaveViewer\n//\n// IMPORTANT: When using this testbench:\n// 1. Save this as a SEPARATE file (e.g., ".data ++ m ++
  "_tb.v)\n// 2. Keep your module in another file (e.g., ".data ++ m ++
  ".v)\n// 3. Compile both: iverilog -o sim ".data ++ m ++ ".v ".data ++ m ++
  "_tb.v\n//\n// OR if combining in one file, put the MODULE DEFINITION FIRST,\n// then the TESTBENCH second (module must be defined before use)\n//\n`timescale 1ns/1ps\n\nmodule ".data ++
  m ++ "_tb;\n\n    // Parameters\n".data

/-- Lines 1789-1790. -/
def tbParams (params : List PParam) : Str :=
  (params.map (fun p =>
    "    parameter ".data ++ p.name ++ " = ".data ++ p.value ++ ";\n".data)).flatten

/-- One `reg`/`wire` declaration (lines 1793-1811). -/
def portDecl (kw : Str) (p : PPort) : Str :=
  "    ".data ++ kw ++ [' '] ++
  (if 1 < p.width then
    '[' :: (intStr p.msb ++ ':' :: intStr p.lsb ++ "] ".data)
   else []) ++ p.name ++ ";\n".data

def tbInputDecls (inputs : List PPort) : Str :=
  "\n    // Inputs\n".data ++ (inputs.map (portDecl "reg".data)).flatten

def tbOutputDecls (outputs : List PPort) : Str :=
  "\n    // Outputs\n".data ++ (outputs.map (portDecl "wire".data)).flatten

def tbInoutDecls (inouts : List PPort) : Str :=
  "\n    // Inouts\n".data ++ (inouts.map (portDecl "wire".data)).flatten

/-- `.name(name)` connection text (lines 1819/1826). -/
def connText (nm : Str) : Str :=
  "        .".data ++ nm ++ ['('] ++ nm ++ [')']

/-- The DUT instantiation (lines 1813-1828). -/
def tbInstantiation (info : ModuleInfo) : Str :=
  "\n    // Instantiate the Unit Under Test (UUT)\n    ".data ++ info.name ++ [' '] ++
  (if info.parameters ≠ [] then
    "#(\n".data ++
    (List.intercalate ",\n".data (info.parameters.map (fun p => connText p.name))) ++
    "\n    ) ".data
   else []) ++
  "uut (\n".data ++
  (List.intercalate ",\n".data
    ((info.inputs ++ info.outputs ++ info.inouts).map (fun p => connText p.name))) ++
  "\n    );\n\n".data

/-- Clock generation (lines 1830-1839), for the first clock-named input. -/
def tbClockBlock (inputs : List PPort) : Str :=
  match inputs.filter (fun i => isClockName i.name) with
  | [] => []
  | c :: _ =>
    "    // Clock generation\n    initial begin\n        ".data ++ c.name ++
    " = 0;\n        forever #5 ".data ++ c.name ++ " = ~".data ++ c.name ++
    ";  // 100MHz clock\n    end\n".data

/-- Reset generation (lines 1841-1852), for the first reset-named input. -/
def tbResetBlock (inputs : List PPort) : Str :=
  match inputs.filter (fun i => isResetName i.name) with
  | [] => []
  | r :: _ =>
    "\n    // Reset generation\n    initial begin\n        ".data ++ r.name ++
    " = 1;\n        #20 ".data ++ r.name ++ " = 0;\n        #10 ".data ++ r.name ++
    " = 1;\n    end\n".data

/-- The zero-initialisation lines (lines 1861-1863). -/
def zeroInitLines (inputs : List PPort) : Str :=
  (inputs.filterMap (fun inp =>
    if inp.name ∈ excludedNames inputs then none
    else some ("        ".data ++ inp.name ++ " = 0;\n".data))).flatten

/-- The `for` header emitted at line 1870. -/
def forLine (test_vectors : Int) : Str :=
  "        for (i = 0; i < ".data ++ intStr test_vectors ++ "; i = i + 1) begin\n".data

/-- One random-drive line (lines 1876-1878). -/
def randLine (inp : PPort) : Str :=
  if 1 < inp.width then
    "            ".data ++ inp.name ++ " = $random % (1 << ".data ++
      intStr inp.width ++ ");\n".data
  else "            ".data ++ inp.name ++ " = $random % 2;\n".data

/-- The random-drive lines of the test-vector loop (lines 1873-1878). -/
def randLines (inputs : List PPort) : Str :=
  (inputs.filterMap (fun inp =>
    if inp.name ∈ excludedNames inputs then none else some (randLine inp))).flatten

/-- The test-stimulus block (lines 1854-1887). -/
def tbStimulus (inputs : List PPort) (test_vectors : Int) : Str :=
  "\n    // Test stimulus\n    integer i;\n    initial begin\n        // Initialize inputs\n".data ++
  zeroInitLines inputs ++
  "\n        // Wait for reset\n        #50;\n        \n        // Apply test vectors\n".data ++
  forLine test_vectors ++
  randLines inputs ++
  "            #10;\n        end\n        \n        // Finish simulation\n        #100;\n        $display(\"Simulation completed successfully\");\n        $finish;\n    end\n    \n    // Monitor signals\n    initial begin\n        $monitor(\"Time=%0t\", $time".data

/-- One `$monitor` fragment (lines 1893-1896). -/
def monPiece (nm : Str) : Str :=
  ", \" ".data ++ nm ++ "=%b\", ".data ++ nm

/-- The monitor tail and VCD dump block (lines 1889-1908). -/
def tbMonitorDump (info : ModuleInfo) : Str :=
  ((info.inputs.map (fun p => monPiece p.name)).flatten) ++
  ((info.outputs.map (fun p => monPiece p.name)).flatten) ++
  ");\n    end\n    \n    // VCD dump for waveform viewing\n    initial begin\n        $dumpfile(\"wave.vcd\");\n        $dumpvars(0, ".data ++
  info.name ++ "_tb);\n    end\n\nendmodule\n".data

/-- `TestbenchGenerator.generate_testbench` (lines 1764-1910). -/
def generate_testbench (info : ModuleInfo) (test_vectors : Int) : Str :=
  tbHeader info.name ++ tbParams info.parameters ++ tbInputDecls info.inputs ++
  tbOutputDecls info.outputs ++ tbInoutDecls info.inouts ++ tbInstantiation info ++
  tbClockBlock info.inputs ++ tbResetBlock info.inputs ++
  tbStimulus info.inputs test_vectors ++ tbMonitorDump info

theorem occursIn_append_left {n a : Str} (h : OccursIn n a) (b : Str) :
    OccursIn n (a ++ b) := by
  obtain ⟨l, r, hh⟩ := h
  exact ⟨l, r ++ b, by rw [hh]; simp [List.append_assoc]⟩

theorem occursIn_append_right {n b : Str} (a : Str) (h : OccursIn n b) :
    OccursIn n (a ++ b) := by
  obtain ⟨l, r, hh⟩ := h
  exact ⟨a ++ l, r, by rw [hh]; simp [List.append_assoc]⟩

theorem occursIn_self (n : Str) : OccursIn n n := ⟨[], [], by simp⟩

theorem occursIn_flatten_of_mem {x : Str} {l : List Str} (h : x ∈ l) :
    OccursIn x l.flatten := by
  induction l with
  | nil => simp at h
  | cons a rest ih =>
    rcases List.mem_cons.mp h with rfl | h2
    · exact occursIn_append_left (occursIn_self x) _
    · exact occursIn_append_right a (ih h2)

theorem not_in_excluded {inputs : List PPort} {inp : PPort}
    (hclk : isClockName inp.name = false) (hrst : isResetName inp.name = false) :
    inp.name ∉ excludedNames inputs := by
  intro hmem
  unfold excludedNames at hmem
  rw [List.mem_map] at hmem
  obtain ⟨j, hj, hjn⟩ := hmem
  rcases List.mem_append.mp hj with hjc | hjr
  · have := (List.mem_filter.mp hjc).2
    rw [hjn] at this
    rw [hclk] at this
    exact Bool.noConfusion this
  · have := (List.mem_filter.mp hjr).2
    rw [hjn] at this
    rw [hrst] at this
    exact Bool.noConfusion this

/-- C7 (amended): every input whose name matches neither the clock
patterns (`clk`/`clock`, case-insensitive) nor the reset patterns
(`rst`/`reset`) is zero-initialised in the stimulus block and driven in
the test-vector loop with the `$random`-modulo line for its width, and
the loop header runs `test_vectors` iterations.  Clock- or reset-named
inputs beyond the first are excluded from the stimulus entirely, not
driven (see the counterexample). -/
theorem c7_plain_inputs_driven (info : ModuleInfo) (n : Int) :
    ∀ inp ∈ info.inputs,
      isClockName inp.name = false → isResetName inp.name = false →
      OccursIn ("        ".data ++ inp.name ++ " = 0;\n".data)
        (generate_testbench info n) ∧
      OccursIn (randLine inp) (generate_testbench info n) ∧
      OccursIn (forLine n) (generate_testbench info n) := by
  intro inp hinp hclk hrst
  have hnot := @not_in_excluded info.inputs inp hclk hrst
  have hstim : ∀ s : Str, OccursIn s (tbStimulus info.inputs n) →
      OccursIn s (generate_testbench info n) := by
    intro s hs
    unfold generate_testbench
    exact occursIn_append_left (occursIn_append_right _ hs) _
  refine ⟨?_, ?_, ?_⟩
  · apply hstim
    unfold tbStimulus
    refine occursIn_append_left (occursIn_append_left (occursIn_append_left
      (occursIn_append_left (occursIn_append_right _ ?_) _) _) _) _
    apply occursIn_flatten_of_mem
    rw [List.mem_filterMap]
    exact ⟨inp, hinp, by rw [if_neg hnot]⟩
  · apply hstim
    unfold tbStimulus
    refine occursIn_append_left (occursIn_append_right _ ?_) _
    unfold randLines
    apply occursIn_flatten_of_mem
    rw [List.mem_filterMap]
    exact ⟨inp, hinp, by rw [if_neg hnot]⟩
  · apply hstim
    unfold tbStimulus
    refine occursIn_append_left (occursIn_append_left (occursIn_append_right _
      (occursIn_self _)) _) _

/-- The C7 counterexample module: two clock-named inputs. -/
def c7Demo : ModuleInfo :=
  { name := ['m'],
    inputs := [⟨"clk".data, 1, 0, 0⟩, ⟨"clk2".data, 1, 0, 0⟩],
    outputs := [], inouts := [], parameters := [], regs := [], wires := [] }

set_option maxRecDepth 40000 in
/-- C7, counterexample to the claim as stated: `clk2` is not the FIRST
clock-named input (that is `clk`), and is not reset-named, so the claim
requires it to be zero-initialised and randomly driven; but the generator
excludes every clock-named input from the stimulus, so neither a
`clk2 = 0;` assignment nor a `clk2 = $random` drive appears anywhere in
the emitted text. -/
theorem c7_refutes :
    c7Demo.inputs.map PPort.name = ["clk".data, "clk2".data] ∧
    occursInB "clk2 = 0;".data (generate_testbench c7Demo 100) = false ∧
    occursInB "clk2 = $random".data (generate_testbench c7Demo 100) = false := by
  refine ⟨by decide, by decide, by decide⟩

/-- The C7 witness module: one plain input `a`. -/
def c7Plain : ModuleInfo :=
  { name := ['m'], inputs := [⟨['a'], 1, 0, 0⟩],
    outputs := [], inouts := [], parameters := [], regs := [], wires := [] }

/-- Witness for `c7_plain_inputs_driven` at the one-input module. -/
theorem c7_witness :
    OccursIn ("        ".data ++ ['a'] ++ " = 0;\n".data)
      (generate_testbench c7Plain 100) ∧
    OccursIn (randLine ⟨['a'], 1, 0, 0⟩) (generate_testbench c7Plain 100) ∧
    OccursIn (forLine 100) (generate_testbench c7Plain 100) :=
  c7_plain_inputs_driven c7Plain 100 ⟨['a'], 1, 0, 0⟩ (by decide) (by decide) (by decide)

/-- Run the line-comment scanner over a finite piece, returning its output
together with the scanner state after the piece. -/
def slcRun : Bool → Str → Str × Bool
  | st, [] => ([], st)
  | true, c :: rest =>
    if c = '\n' then ((slcRun false rest).1.cons c, (slcRun false rest).2)
    else slcRun true rest
  | false, '/' :: '/' :: rest => slcRun true rest
  | false, c :: rest => ((slcRun false rest).1.cons c, (slcRun false rest).2)

/-- A piece is safe when scanning it never ends on a lone `/` in normal
state, so no `//` pair can straddle the piece boundary. -/
def slcSafe : Bool → Str → Bool
  | _, [] => true
  | true, c :: rest => if c = '\n' then slcSafe false rest else slcSafe true rest
  | false, ['/'] => false
  | false, '/' :: '/' :: rest => slcSafe true rest
  | false, _ :: rest => slcSafe false rest

theorem slc_cons_ne (c : Char) (t : Str) (h : c = '/' → t.take 1 ≠ ['/']) :
    slc false (c :: t) = c :: slc false t := by
  rw [slc.eq_def]
  split <;> simp_all

theorem slcRun_cons_ne (c : Char) (t : Str) (h : c = '/' → t.take 1 ≠ ['/']) :
    slcRun false (c :: t) = ((slcRun false t).1.cons c, (slcRun false t).2) := by
  rw [slcRun.eq_def]
  split <;> simp_all

theorem slcSafe_cons_ne (c : Char) (t : Str) (h : c = '/' → t.take 1 ≠ ['/'])
    (h2 : c = '/' → t ≠ []) :
    slcSafe false (c :: t) = slcSafe false t := by
  rw [slcSafe.eq_def]
  split <;> simp_all

/-- Scanning a safe piece followed by anything: the piece's output is
emitted and scanning resumes in the piece's final state. -/
theorem slc_piece (st : Bool) (L : Str) (h : slcSafe st L = true) (b : Str) :
    slc st (L ++ b) = (slcRun st L).1 ++ slc (slcRun st L).2 b := by
  induction st, L using slcSafe.induct with
  | case1 st => simp [slcRun, slc]
  | case2 rest ih =>
    rw [slcSafe, if_pos rfl] at h
    rw [List.cons_append, slc, if_pos rfl, slcRun, if_pos rfl, ih h]
    simp
  | case3 c rest hc ih =>
    rw [slcSafe, if_neg hc] at h
    rw [List.cons_append, slc, if_neg hc, slcRun, if_neg hc, ih h]
  | case4 => simp [slcSafe] at h
  | case5 rest ih =>
    rw [slcSafe] at h
    rw [List.cons_append, List.cons_append, slc, slcRun, ih h]
  | case6 c rest h1 h2 ih =>
    have hne : c = '/' → rest.take 1 ≠ ['/'] := by
      intro rfl1 htake
      rcases rest with _ | ⟨r0, rest'⟩
      · simp at htake
      · simp at htake
        exact h2 rest' rfl1 (by rw [htake])
    have hne2 : c = '/' → (rest ++ b).take 1 ≠ ['/'] := by
      intro rfl1 htake
      rcases rest with _ | ⟨r0, rest'⟩
      · exact h1 rfl1 rfl
      · simp at htake
        exact h2 rest' rfl1 (by rw [htake])
    rw [slcSafe_cons_ne c rest hne (fun hc hnil => h1 hc hnil)] at h
    rw [List.cons_append, slc_cons_ne c (rest ++ b) hne2, slcRun_cons_ne c rest hne,
      ih h]
    simp

/-- Safe-piece scan with the output and final state given explicitly. -/
theorem slc_lit (L o : Str) (st st' : Bool) (hs : slcSafe st L = true)
    (he : slcRun st L = (o, st')) (b : Str) :
    slc st (L ++ b) = o ++ slc st' b := by
  have h := slc_piece st L hs b
  rw [he] at h
  exact h

/-- Inside a line comment, characters other than newline are dropped. -/
theorem slc_skip (w : Str) (hw : ∀ c ∈ w, c ≠ '\n') (b : Str) :
    slc true (w ++ b) = slc true b := by
  induction w with
  | nil => rfl
  | cons c rest ih =>
    rw [List.cons_append, slc, if_neg (hw c (by simp))]
    exact ih (fun d hd => hw d (by simp [hd]))

/-- Outside comments, slash-free text is copied verbatim. -/
theorem slc_copy (w : Str) (hw : ∀ c ∈ w, c ≠ '/') (b : Str) :
    slc false (w ++ b) = w ++ slc false b := by
  induction w with
  | nil => rfl
  | cons c rest ih =>
    rw [List.cons_append, slc_cons_ne c _ (fun hc => absurd hc (hw c (by simp))),
      ih (fun d hd => hw d (by simp [hd])), List.cons_append]

theorem sbc_cons_ne (c : Char) (t : Str) (h : c = '/' → t.take 1 ≠ ['*']) :
    sbc false (c :: t) = c :: sbc false t := by
  rw [sbc.eq_def]
  split <;> simp_all

/-- Star-free text passes the block-comment scanner unchanged. -/
theorem sbc_id (s : Str) (h : ∀ c ∈ s, c ≠ '*') : sbc false s = s := by
  induction s with
  | nil => rfl
  | cons c rest ih =>
    rw [sbc_cons_ne c rest, ih (fun d hd => h d (by simp [hd]))]
    intro _ htake
    rcases rest with _ | ⟨r0, rest'⟩
    · simp at htake
    · simp at htake
      exact h r0 (by simp) htake

/-- A text as a list of word/gap segments: `true` marks a word run. -/
abbrev Seg := Bool × Str

def flattenSegs (l : List Seg) : Str := (l.map Prod.snd).flatten

/-- Collect the leading gap segments. -/
def collectGap : List Seg → Str × List Seg
  | (false, g) :: rest => (g ++ (collectGap rest).1, (collectGap rest).2)
  | l => ([], l)

/-- The (word, following gap) pairs of a segment list. -/
def segPairs : List Seg → List (Str × Str)
  | [] => []
  | (false, _) :: rest => segPairs rest
  | (true, w) :: rest => (w, (collectGap rest).1) :: segPairs rest

/-- Well-formed segment list: words are nonempty word-character runs, each
immediately followed by a nonempty gap (or, when the continuation flag `k`
is `true`, standing last, to be followed by a continuation that starts with
a nonempty gap); gaps hold no word characters and no `*`. -/
def segsOkC : List Seg → Bool → Prop
  | [], _ => True
  | (false, g) :: rest, k => (∀ c ∈ g, wordChar c = false ∧ c ≠ '*') ∧ segsOkC rest k
  | (true, w) :: rest, k =>
    w ≠ [] ∧ (∀ c ∈ w, wordChar c = true) ∧
    (match rest with
     | (false, g) :: _ => g ≠ []
     | [] => k = true
     | _ => False) ∧ segsOkC rest k

theorem alt_gap_pre (g s : Str) (hg : ∀ c ∈ g, wordChar c = false) :
    alt (g ++ s) = (g ++ (alt s).1, (alt s).2) := by
  induction g with
  | nil => simp
  | cons c g2 ih =>
    rw [List.cons_append, alt, if_neg (by simp [hg c (by simp)]),
      ih (fun d hd => hg d (by simp [hd]))]
    rfl

theorem alt_word_pre (w Y : Str) (hw : w ≠ []) (hall : ∀ c ∈ w, wordChar c = true)
    (hY : (alt Y).1 ≠ [] ∨ (alt Y).2 = []) :
    alt (w ++ Y) = ([], (w, (alt Y).1) :: (alt Y).2) := by
  induction w with
  | nil => exact absurd rfl hw
  | cons c w2 ih =>
    rcases w2 with _ | ⟨d, w3⟩
    · rw [List.singleton_append, alt, if_pos (hall c (by simp))]
      rcases hYe : alt Y with ⟨g0, ps⟩
      rw [hYe] at hY
      rcases g0 with _ | ⟨gc, g1⟩
      · rcases ps with _ | ⟨p, ps2⟩
        · rfl
        · simp at hY
      · rfl
    · rw [List.cons_append, alt, if_pos (hall c (by simp)),
        ih (by simp) (fun e he => hall e (by simp [he]))]

theorem alt_flattenSegs : ∀ l, segsOkC l false →
    alt (flattenSegs l) = ((collectGap l).1, segPairs l)
  | [], _ => by simp [flattenSegs, collectGap, segPairs, alt]
  | (false, g) :: rest, hok => by
    obtain ⟨hg, hrest⟩ := hok
    have ih := alt_flattenSegs rest hrest
    rw [show flattenSegs ((false, g) :: rest) = g ++ flattenSegs rest from rfl,
      alt_gap_pre g _ (fun c hc => (hg c hc).1), ih,
      show collectGap ((false, g) :: rest) = (g ++ (collectGap rest).1, (collectGap rest).2) from rfl,
      show segPairs ((false, g) :: rest) = segPairs rest from rfl]
  | (true, w) :: rest, hok => by
    obtain ⟨hne, hword, hgap, hrest⟩ := hok
    have ih := alt_flattenSegs rest hrest
    rcases rest with _ | ⟨⟨b, g0⟩, rest2⟩
    · simp at hgap
    · cases b
      · have hg0 : g0 ≠ [] := hgap
        rw [show flattenSegs ((true, w) :: (false, g0) :: rest2) =
              w ++ flattenSegs ((false, g0) :: rest2) from rfl,
          alt_word_pre w _ hne hword (by rw [ih]; left; simp [collectGap, hg0]), ih]
        rfl
      · simp at hgap

def wordSegCount (kw : Str) (l : List Seg) : Nat :=
  (l.filter (fun s => s.1 = true ∧ s.2 = kw)).length

theorem wordSegCount_append (kw : Str) (a b : List Seg) :
    wordSegCount kw (a ++ b) = wordSegCount kw a + wordSegCount kw b := by
  simp [wordSegCount, List.filter_append]

theorem segPairs_count (kw : Str) : ∀ l, ((segPairs l).filter (fun e => e.1 = kw)).length = wordSegCount kw l
  | [] => rfl
  | (false, g) :: rest => by
    rw [show segPairs ((false, g) :: rest) = segPairs rest from rfl, segPairs_count kw rest]
    simp [wordSegCount]
  | (true, w) :: rest => by
    rw [show segPairs ((true, w) :: rest) = (w, (collectGap rest).1) :: segPairs rest from rfl]
    by_cases hkw : w = kw
    · simp [wordSegCount, List.filter, hkw, segPairs_count kw rest]
    · simp [wordSegCount, List.filter, hkw, segPairs_count kw rest]

theorem segPairs_word_mem : ∀ (l : List Seg) (e : Str × Str), e ∈ segPairs l → (true, e.1) ∈ l
  | [], e, h => by simp [segPairs] at h
  | (false, g) :: rest, e, h => by
    rw [show segPairs ((false, g) :: rest) = segPairs rest from rfl] at h
    exact List.mem_cons_of_mem _ (segPairs_word_mem rest e h)
  | (true, w) :: rest, e, h => by
    rw [show segPairs ((true, w) :: rest) = (w, (collectGap rest).1) :: segPairs rest from rfl] at h
    rcases List.mem_cons.mp h with rfl | h2
    · exact List.mem_cons_self _ _
    · exact List.mem_cons_of_mem _ (segPairs_word_mem rest e h2)

/-- The single-character balance contribution. -/
def balDelta (o c ch : Char) : Int := if ch = o then 1 else if ch = c then -1 else 0

/-- Net open/close balance of a text. -/
def charBal (o c : Char) : Str → Int
  | [] => 0
  | ch :: r => balDelta o c ch + charBal o c r

/-- Minimum balance over all prefixes (including the empty one, so never
positive). -/
def pminBal (o c : Char) : Str → Int
  | [] => 0
  | ch :: r => min 0 (balDelta o c ch + pminBal o c r)

theorem charBal_append (o c : Char) (a b : Str) :
    charBal o c (a ++ b) = charBal o c a + charBal o c b := by
  induction a with
  | nil => simp [charBal]
  | cons ch r ih => rw [List.cons_append, charBal, ih, charBal]; omega

theorem pminBal_nonpos (o c : Char) : ∀ s, pminBal o c s ≤ 0
  | [] => le_refl 0
  | ch :: r => by rw [pminBal]; omega

theorem pminBal_append (o c : Char) (a b : Str) :
    pminBal o c (a ++ b) = min (pminBal o c a) (charBal o c a + pminBal o c b) := by
  induction a with
  | nil =>
    simp only [List.nil_append, pminBal, charBal]
    have := pminBal_nonpos o c b
    omega
  | cons ch r ih =>
    rw [List.cons_append, pminBal, ih, pminBal, charBal]
    omega

/-- Text without the two bracket characters is balance-neutral. -/
theorem bal_neutral (o c : Char) (s : Str) (h : ∀ ch ∈ s, ch ≠ o ∧ ch ≠ c) :
    charBal o c s = 0 ∧ pminBal o c s = 0 := by
  induction s with
  | nil => exact ⟨rfl, rfl⟩
  | cons ch r ih =>
    obtain ⟨hb, hp⟩ := ih (fun d hd => h d (by simp [hd]))
    have hch := h ch (by simp)
    rw [charBal, pminBal, hb, hp, balDelta, if_neg hch.1, if_neg hch.2]
    omega

def joinNl : List Str → Str
  | [] => []
  | [l] => l
  | l :: ls => l ++ '\n' :: joinNl ls

theorem splitOnNl_ne_nil : ∀ s, splitOnNl s ≠ []
  | [] => by simp [splitOnNl]
  | c :: rest => by
    rw [splitOnNl]
    split
    · simp
    · split
      · simp
      · simp

theorem joinNl_splitOnNl : ∀ s, joinNl (splitOnNl s) = s
  | [] => rfl
  | c :: rest => by
    rw [splitOnNl]
    split
    · rename_i hc
      subst hc
      rcases hs : splitOnNl rest with _ | ⟨l, ls⟩
      · exact absurd hs (splitOnNl_ne_nil rest)
      · have h2 := joinNl_splitOnNl rest
        rw [hs] at h2
        exact congrArg (List.cons '\n') h2
    · rcases hs : splitOnNl rest with _ | ⟨l, ls⟩
      · exact absurd hs (splitOnNl_ne_nil rest)
      · have h2 := joinNl_splitOnNl rest
        rw [hs] at h2
        rcases ls with _ | ⟨l2, ls2⟩
        · exact congrArg (List.cons c) h2
        · exact congrArg (List.cons c) h2

theorem scanLineB_clean (o c : Char) : ∀ (line : Str) (b : Int),
    0 ≤ b + pminBal o c line →
    scanLineB o c b line = (b + charBal o c line, false)
  | [], b, _ => by simp [scanLineB, charBal]
  | ch :: r, b, h => by
    rw [pminBal] at h
    rw [scanLineB, charBal]
    by_cases ho : ch = o
    · rw [balDelta, if_pos ho] at *
      rw [if_pos ho, scanLineB_clean o c r (b + 1) (by omega)]
      congr 1
      omega
    · by_cases hc : ch = c
      · rw [balDelta, if_neg ho, if_pos hc] at *
        have hple := pminBal_nonpos o c r
        rw [if_neg ho, if_pos hc, if_neg (by omega),
          scanLineB_clean o c r (b - 1) (by omega)]
        congr 1
        omega
      · rw [balDelta, if_neg ho, if_neg hc] at *
        rw [if_neg ho, if_neg hc, scanLineB_clean o c r b (by omega)]
        congr 1
        omega

theorem scanPairsGo_clean (o c : Char) (f : Nat → Str)
    (hno : o ≠ '\n') (hnc : c ≠ '\n') :
    ∀ (ls : List Str) (b : Int) (n : Nat),
      0 ≤ b + pminBal o c (joinNl ls) →
      scanPairsGo o c f b n ls = ([], b + charBal o c (joinNl ls))
  | [], b, n, h => by simp [scanPairsGo, joinNl, charBal]
  | [l], b, n, h => by
    rw [joinNl] at h ⊢
    rw [scanPairsGo, scanLineB_clean o c l b h]
    simp [scanPairsGo]
  | l :: l2 :: ls, b, n, h => by
    have hj : joinNl (l :: l2 :: ls) = l ++ '\n' :: joinNl (l2 :: ls) := rfl
    rw [hj] at h ⊢
    rw [pminBal_append, pminBal, balDelta, if_neg (fun e => hno e.symm),
      if_neg (fun e => hnc e.symm)] at h
    have hple := pminBal_nonpos o c (joinNl (l2 :: ls))
    have hrec := scanPairsGo_clean o c f hno hnc (l2 :: ls) (b + charBal o c l)
      (n + 1) (by omega)
    rw [charBal_append, charBal, balDelta, if_neg (fun e => hno e.symm),
      if_neg (fun e => hnc e.symm)]
    rw [scanPairsGo, scanLineB_clean o c l b (by omega)]
    simp only [hrec]
    simp
    omega

/-- A balanced text with no prefix dipping negative produces no
unmatched-bracket diagnostics. -/
theorem scanPairs_clean (o c : Char) (f : Nat → Str) (g : Int → Str) (code : Str)
    (hno : o ≠ '\n') (hnc : c ≠ '\n')
    (hbal : charBal o c code = 0) (hmin : pminBal o c code = 0) :
    scanPairs o c f g code = [] := by
  have hrec := scanPairsGo_clean o c f hno hnc (splitOnNl code) 0 1
    (by rw [joinNl_splitOnNl, hmin]; omega)
  rw [joinNl_splitOnNl, hbal] at hrec
  rw [scanPairs, hrec]
  simp

theorem word_ne {c x : Char} (hc : wordChar c = true) (hx : wordChar x = false) :
    c ≠ x := by
  intro e
  rw [e, hx] at hc
  cases hc

theorem digit_word {c : Char} (h : c.isDigit = true) : wordChar c = true := by
  simp [wordChar, Char.isAlphanum, h]

theorem natStrAux_digits : ∀ fuel n, ∀ c ∈ natStrAux fuel n, c.isDigit = true := by
  intro fuel
  induction fuel with
  | zero => intro n c hc; simp [natStrAux] at hc
  | succ f ih =>
    intro n c hc
    rw [natStrAux] at hc
    split at hc
    · rename_i hn
      rw [List.mem_singleton] at hc
      subst hc
      interval_cases n <;> decide
    · rcases List.mem_append.mp hc with h2 | h2
      · exact ih _ c h2
      · rw [List.mem_singleton] at h2
        subst h2
        have : n % 10 < 10 := Nat.mod_lt n (by omega)
        interval_cases h : (n % 10) <;> simp_all

theorem natStr_digits (n : Nat) : ∀ c ∈ natStr n, c.isDigit = true :=
  natStrAux_digits (n + 1) n

theorem natStr_ne_nil (n : Nat) : natStr n ≠ [] := by
  rw [natStr, natStrAux]
  split
  · simp
  · simp

theorem intStr_chars (i : Int) : ∀ c ∈ intStr i, c.isDigit = true ∨ c = '-' := by
  intro c hc
  rw [intStr] at hc
  split at hc
  · rcases List.mem_cons.mp hc with rfl | h2
    · right; rfl
    · left; exact natStr_digits _ c h2
  · left; exact natStr_digits _ c hc

theorem flattenSegs_nil : flattenSegs [] = [] := rfl

theorem flattenSegs_cons (s : Seg) (l : List Seg) :
    flattenSegs (s :: l) = s.2 ++ flattenSegs l := by
  simp [flattenSegs]

theorem flattenSegs_append (a b : List Seg) :
    flattenSegs (a ++ b) = flattenSegs a ++ flattenSegs b := by
  simp [flattenSegs]

theorem chars_flattenSegs {ch : Char} : ∀ {l : List Seg},
    ch ∈ flattenSegs l → ∃ s ∈ l, ch ∈ s.2 := by
  intro l
  induction l with
  | nil => intro h; simp [flattenSegs] at h
  | cons s rest ih =>
    intro h
    rw [flattenSegs_cons] at h
    rcases List.mem_append.mp h with h2 | h2
    · exact ⟨s, by simp, h2⟩
    · obtain ⟨t, ht, hct⟩ := ih h2
      exact ⟨t, by simp [ht], hct⟩

/-- The list starts with a nonempty gap segment. -/
def startsGap : List Seg → Prop
  | (false, g) :: _ => g ≠ []
  | _ => False

theorem segsOkC_cons_gap {g : Str} {l : List Seg} {k : Bool}
    (hg : ∀ c ∈ g, wordChar c = false ∧ c ≠ '*') (hl : segsOkC l k) :
    segsOkC ((false, g) :: l) k := ⟨hg, hl⟩

theorem segsOkC_cons_word {w : Str} {l : List Seg} {k : Bool}
    (hw : w ≠ []) (hall : ∀ c ∈ w, wordChar c = true)
    (hs : startsGap l) (hl : segsOkC l k) :
    segsOkC ((true, w) :: l) k := by
  rcases l with _ | ⟨⟨b, g⟩, l2⟩
  · exact hs.elim
  · cases b
    · exact ⟨hw, hall, hs, hl⟩
    · exact hs.elim

theorem segsOkC_word_end {w : Str} (hw : w ≠ [])
    (hall : ∀ c ∈ w, wordChar c = true) :
    segsOkC [(true, w)] true := ⟨hw, hall, rfl, trivial⟩

theorem segsOkC_mono : ∀ {l : List Seg}, segsOkC l false → ∀ k, segsOkC l k := by
  intro l
  induction l with
  | nil => intro _ k; trivial
  | cons s rest ih =>
    rcases s with ⟨b, g⟩
    cases b
    · exact fun h k => ⟨h.1, ih h.2 k⟩
    · intro h k
      obtain ⟨hw, hall, hgap, hrest⟩ := h
      refine ⟨hw, hall, ?_, ih hrest k⟩
      rcases rest with _ | ⟨⟨b2, g2⟩, rest2⟩
      · exact absurd hgap (by simp)
      · cases b2
        · exact hgap
        · exact hgap.elim

theorem segsOkC_append_word : ∀ {a : List Seg} {b : List Seg} {k : Bool},
    segsOkC a true → segsOkC b k → startsGap b → segsOkC (a ++ b) k := by
  intro a
  induction a with
  | nil => intro b k _ hb _; exact hb
  | cons s rest ih =>
    intro b k ha hb hs
    rcases s with ⟨bb, g⟩
    cases bb
    · exact ⟨ha.1, ih ha.2 hb hs⟩
    · obtain ⟨hw, hall, hgap, hrest⟩ := ha
      refine ⟨hw, hall, ?_, ih hrest hb hs⟩
      rcases rest with _ | ⟨⟨b2, g2⟩, rest2⟩
      · rcases b with _ | ⟨⟨b3, g3⟩, b4⟩
        · exact hs.elim
        · cases b3
          · exact hs
          · exact hs.elim
      · cases b2
        · exact hgap
        · exact hgap.elim

theorem segsOkC_append_gap : ∀ {a : List Seg} {b : List Seg} {k : Bool},
    segsOkC a false → segsOkC b k → segsOkC (a ++ b) k := by
  intro a
  induction a with
  | nil => intro b k _ hb; exact hb
  | cons s rest ih =>
    intro b k ha hb
    rcases s with ⟨bb, g⟩
    cases bb
    · exact ⟨ha.1, ih ha.2 hb⟩
    · obtain ⟨hw, hall, hgap, hrest⟩ := ha
      refine ⟨hw, hall, ?_, ih hrest hb⟩
      rcases rest with _ | ⟨⟨b2, g2⟩, rest2⟩
      · exact absurd hgap (by simp)
      · cases b2
        · exact hgap
        · exact hgap.elim

/-- Well-formed segments yield star-free text. -/
theorem segs_no_star : ∀ (l : List Seg), segsOkC l false → ∀ ch ∈ flattenSegs l, ch ≠ '*'
  | [], _, ch, hch => by simp [flattenSegs] at hch
  | (false, g) :: rest, h, ch, hch => by
    rw [flattenSegs_cons] at hch
    rcases List.mem_append.mp hch with h2 | h2
    · exact (h.1 ch h2).2
    · exact segs_no_star rest h.2 ch h2
  | (true, g) :: rest, h, ch, hch => by
    rw [flattenSegs_cons] at hch
    rcases List.mem_append.mp hch with h2 | h2
    · exact word_ne (h.2.1 ch h2) (by decide)
    · exact segs_no_star rest h.2.2.2 ch h2

/-- Segments joined with a separator gap, mirroring `List.intercalate`. -/
def joinSegs (sep : Str) : List (List Seg) → List Seg
  | [] => []
  | [x] => x
  | x :: xs => x ++ (false, sep) :: joinSegs sep xs

/-! ## C3: the comment-stripped testbench as an explicit segment list

Each section of the generated text is mirrored by a list of word/gap
segments whose flattening is exactly the text after line-comment removal
(block comments never occur).  Word granularity follows `\b\w+\b` runs. -/

/-- A number atom: its preceding gap absorbs a possible minus sign. -/
def numSegs (pre : Str) (i : Int) : List Seg :=
  [(false, pre ++ (if i < 0 then ['-'] else [])), (true, natStr i.natAbs)]

def hdrSegs (m : Str) : List Seg :=
  [(false, "\n\n\n\n\n\n\n\n\n\n\n`".data), (true, "timescale".data), (false, " ".data),
   (true, "1ns".data), (false, "/".data), (true, "1ps".data), (false, "\n\n".data),
   (true, "module".data), (false, " ".data), (true, m ++ "_tb".data),
   (false, ";\n\n    \n".data)]

def paramSegs (p : PParam) : List Seg :=
  [(false, "    ".data), (true, "parameter".data), (false, " ".data),
   (true, p.name), (false, " = ".data), (true, p.value), (false, ";\n".data)]

def portSegs (kw : Str) (p : PPort) : List Seg :=
  [(false, "    ".data), (true, kw)] ++
  (if 1 < p.width then
    numSegs " [".data p.msb ++ numSegs ":".data p.lsb ++ [(false, "] ".data)]
   else [(false, " ".data)]) ++
  [(true, p.name), (false, ";\n".data)]

def inDeclSegs (inputs : List PPort) : List Seg :=
  (false, "\n    \n".data) :: (inputs.map (portSegs "reg".data)).flatten

def outDeclSegs (outputs : List PPort) : List Seg :=
  (false, "\n    \n".data) :: (outputs.map (portSegs "wire".data)).flatten

def ioDeclSegs (inouts : List PPort) : List Seg :=
  (false, "\n    \n".data) :: (inouts.map (portSegs "wire".data)).flatten

def connSegs (nm : Str) : List Seg :=
  [(false, "        .".data), (true, nm), (false, "(".data), (true, nm), (false, ")".data)]

def instSegs (info : ModuleInfo) : List Seg :=
  [(false, "\n    \n    ".data), (true, info.name)] ++
  (if info.parameters ≠ [] then
    (false, " #(\n".data) ::
      (joinSegs ",\n".data (info.parameters.map (fun p => connSegs p.name)) ++
       [(false, "\n    ) ".data)])
   else [(false, " ".data)]) ++
  [(true, "uut".data), (false, " (\n".data)] ++
  joinSegs ",\n".data
    ((info.inputs ++ info.outputs ++ info.inouts).map (fun p => connSegs p.name)) ++
  [(false, "\n    );\n\n".data)]

def clockSegs (inputs : List PPort) : List Seg :=
  match inputs.filter (fun i => isClockName i.name) with
  | [] => []
  | c :: _ =>
    [(false, "    \n    ".data), (true, "initial".data), (false, " ".data),
     (true, "begin".data), (false, "\n        ".data), (true, c.name),
     (false, " = ".data), (true, "0".data), (false, ";\n        ".data),
     (true, "forever".data), (false, " #".data), (true, "5".data), (false, " ".data),
     (true, c.name), (false, " = ~".data), (true, c.name), (false, ";  \n    ".data),
     (true, "end".data), (false, "\n".data)]

def resetSegs (inputs : List PPort) : List Seg :=
  match inputs.filter (fun i => isResetName i.name) with
  | [] => []
  | r :: _ =>
    [(false, "\n    \n    ".data), (true, "initial".data), (false, " ".data),
     (true, "begin".data), (false, "\n        ".data), (true, r.name),
     (false, " = ".data), (true, "1".data), (false, ";\n        #".data),
     (true, "20".data), (false, " ".data), (true, r.name), (false, " = ".data),
     (true, "0".data), (false, ";\n        #".data), (true, "10".data),
     (false, " ".data), (true, r.name), (false, " = ".data), (true, "1".data),
     (false, ";\n    ".data), (true, "end".data), (false, "\n".data)]

def zeroSegs1 (nm : Str) : List Seg :=
  [(false, "        ".data), (true, nm), (false, " = ".data), (true, "0".data),
   (false, ";\n".data)]

def zeroSegs (inputs : List PPort) : List Seg :=
  (inputs.filterMap (fun inp =>
    if inp.name ∈ excludedNames inputs then none
    else some (zeroSegs1 inp.name))).flatten

def forSegs (n : Int) : List Seg :=
  [(false, "        ".data), (true, "for".data), (false, " (".data), (true, "i".data),
   (false, " = ".data), (true, "0".data), (false, "; ".data), (true, "i".data)] ++
  numSegs " < ".data n ++
  [(false, "; ".data), (true, "i".data), (false, " = ".data), (true, "i".data),
   (false, " + ".data), (true, "1".data), (false, ") ".data), (true, "begin".data),
   (false, "\n".data)]

def randSegs1 (inp : PPort) : List Seg :=
  (false, "            ".data) :: (true, inp.name) ::
  (if 1 < inp.width then
    [(false, " = $".data), (true, "random".data), (false, " % (".data), (true, "1".data)] ++
    numSegs " << ".data inp.width ++ [(false, ");\n".data)]
   else
    [(false, " = $".data), (true, "random".data), (false, " % ".data), (true, "2".data),
     (false, ";\n".data)])

def randSegsL (inputs : List PPort) : List Seg :=
  (inputs.filterMap (fun inp =>
    if inp.name ∈ excludedNames inputs then none else some (randSegs1 inp))).flatten

def stimLit1Segs : List Seg :=
  [(false, "\n    \n    ".data), (true, "integer".data), (false, " ".data),
   (true, "i".data), (false, ";\n    ".data), (true, "initial".data), (false, " ".data),
   (true, "begin".data), (false, "\n        \n".data)]

def stimLit2Segs : List Seg :=
  [(false, "\n        \n        #".data), (true, "50".data),
   (false, ";\n        \n        \n".data)]

def stimLit3Segs : List Seg :=
  [(false, "            #".data), (true, "10".data), (false, ";\n        ".data),
   (true, "end".data), (false, "\n        \n        \n        #".data),
   (true, "100".data), (false, ";\n        $".data), (true, "display".data),
   (false, "(\"".data), (true, "Simulation".data), (false, " ".data),
   (true, "completed".data), (false, " ".data), (true, "successfully".data),
   (false, "\");\n        $".data), (true, "finish".data), (false, ";\n    ".data),
   (true, "end".data), (false, "\n    \n    \n    ".data), (true, "initial".data),
   (false, " ".data), (true, "begin".data), (false, "\n        $".data),
   (true, "monitor".data), (false, "(\"".data), (true, "Time".data),
   (false, "=%".data), (true, "0t".data), (false, "\", $".data), (true, "time".data)]

def stimSegs (inputs : List PPort) (n : Int) : List Seg :=
  stimLit1Segs ++ zeroSegs inputs ++ stimLit2Segs ++ forSegs n ++
  randSegsL inputs ++ stimLit3Segs

def monSegs (nm : Str) : List Seg :=
  [(false, ", \" ".data), (true, nm), (false, "=%".data), (true, "b".data),
   (false, "\", ".data), (true, nm)]

def dumpSegs (info : ModuleInfo) : List Seg :=
  ((info.inputs.map (fun p => monSegs p.name)).flatten) ++
  ((info.outputs.map (fun p => monSegs p.name)).flatten) ++
  [(false, ");\n    ".data), (true, "end".data), (false, "\n    \n    \n    ".data),
   (true, "initial".data), (false, " ".data), (true, "begin".data),
   (false, "\n        $".data), (true, "dumpfile".data), (false, "(\"".data),
   (true, "wave".data), (false, ".".data), (true, "vcd".data),
   (false, "\");\n        $".data), (true, "dumpvars".data), (false, "(".data),
   (true, "0".data), (false, ", ".data), (true, info.name ++ "_tb".data),
   (false, ");\n    ".data), (true, "end".data), (false, "\n\n".data),
   (true, "endmodule".data), (false, "\n".data)]

/-- The full comment-stripped testbench as segments. -/
def rdSegs (info : ModuleInfo) (n : Int) : List Seg :=
  hdrSegs info.name ++ (info.parameters.map paramSegs).flatten ++
  inDeclSegs info.inputs ++ outDeclSegs info.outputs ++ ioDeclSegs info.inouts ++
  instSegs info ++ clockSegs info.inputs ++ resetSegs info.inputs ++
  stimSegs info.inputs n ++ dumpSegs info

theorem word_ne_slash {w : Str} (h : ∀ c ∈ w, wordChar c = true) :
    ∀ c ∈ w, c ≠ '/' := fun c hc => word_ne (h c hc) (by decide)

theorem word_ne_nl {w : Str} (h : ∀ c ∈ w, wordChar c = true) :
    ∀ c ∈ w, c ≠ '\n' := fun c hc => word_ne (h c hc) (by decide)

theorem intStr_ne_slash (i : Int) : ∀ c ∈ intStr i, c ≠ '/' := by
  intro c hc
  rcases intStr_chars i c hc with h | rfl
  · exact word_ne (digit_word h) (by decide)
  · decide

theorem slc_hdr (m : Str) (hm : ∀ c ∈ m, wordChar c = true) (b : Str) :
    slc false (tbHeader m ++ b) = flattenSegs (hdrSegs m) ++ slc false b := by
  simp only [tbHeader, List.append_assoc]
  rw [slc_lit "// Automatic Testbench for ".data [] false true (by decide) (by decide),
    slc_skip m (word_ne_nl hm),
    slc_lit "\n// Generated by AWaveViewer\n//\n// IMPORTANT: When using this testbench:\n// 1. Save this as a SEPARATE file (e.g., ".data "\n\n\n\n".data true true (by decide) (by decide),
    slc_skip m (word_ne_nl hm),
    slc_lit "_tb.v)\n// 2. Keep your module in another file (e.g., ".data "\n".data true true (by decide) (by decide),
    slc_skip m (word_ne_nl hm),
    slc_lit ".v)\n// 3. Compile both: iverilog -o sim ".data "\n".data true true (by decide) (by decide),
    slc_skip m (word_ne_nl hm),
    slc_lit ".v ".data [] true true (by decide) (by decide),
    slc_skip m (word_ne_nl hm),
    slc_lit "_tb.v\n//\n// OR if combining in one file, put the MODULE DEFINITION FIRST,\n// then the TESTBENCH second (module must be defined before use)\n//\n`timescale 1ns/1ps\n\nmodule ".data "\n\n\n\n\n`timescale 1ns/1ps\n\nmodule ".data true false (by decide) (by decide),
    slc_copy m (word_ne_slash hm),
    slc_lit "_tb;\n\n    // Parameters\n".data "_tb;\n\n    \n".data false false (by decide) (by decide)]
  simp only [flattenSegs, hdrSegs, List.map_cons, List.map_nil, List.flatten_cons,
    List.flatten_nil, List.append_assoc, List.nil_append, List.append_nil]
  rfl

theorem intStr_split (i : Int) :
    intStr i = (if i < 0 then ['-'] else []) ++ natStr i.natAbs := by
  rw [intStr]
  split <;> simp

theorem flattenSegs_numSegs (pre : Str) (i : Int) :
    flattenSegs (numSegs pre i) = pre ++ intStr i := by
  rw [intStr_split]
  simp [numSegs, flattenSegs, List.append_assoc]

theorem paramSegs_text (p : PParam) :
    flattenSegs (paramSegs p) =
      "    parameter ".data ++ p.name ++ " = ".data ++ p.value ++ ";\n".data := by
  simp [paramSegs, flattenSegs, List.append_assoc]

theorem slc_params (ps : List PParam)
    (hps : ∀ p ∈ ps, (∀ c ∈ p.name, wordChar c = true) ∧ (∀ c ∈ p.value, wordChar c = true))
    (b : Str) :
    slc false (tbParams ps ++ b) =
      flattenSegs ((ps.map paramSegs).flatten) ++ slc false b := by
  induction ps with
  | nil => simp [tbParams, flattenSegs]
  | cons p ps2 ih =>
    have hp := hps p (by simp)
    have ih2 := ih (fun q hq => hps q (by simp [hq]))
    rw [tbParams] at ih2 ⊢
    simp only [List.append_assoc] at ih2
    simp only [List.map_cons, List.flatten_cons, List.append_assoc]
    rw [slc_copy "    parameter ".data (by decide),
      slc_copy p.name (word_ne_slash hp.1),
      slc_copy " = ".data (by decide),
      slc_copy p.value (word_ne_slash hp.2),
      slc_copy ";\n".data (by decide), ih2]
    simp only [flattenSegs_append, paramSegs_text, List.append_assoc]

/-- No `/` occurs in the text. -/
abbrev NoSlash (s : Str) : Prop := ∀ c ∈ s, c ≠ '/'

theorem NoSlash.append {a b : Str} (ha : NoSlash a) (hb : NoSlash b) :
    NoSlash (a ++ b) := by
  intro c hc
  rcases List.mem_append.mp hc with h | h
  · exact ha c h
  · exact hb c h

theorem NoSlash.cons {c : Char} {t : Str} (hc : c ≠ '/') (ht : NoSlash t) :
    NoSlash (c :: t) := by
  intro d hd
  rcases List.mem_cons.mp hd with rfl | h
  · exact hc
  · exact ht d h

theorem noSlash_word {w : Str} (h : ∀ c ∈ w, wordChar c = true) : NoSlash w :=
  word_ne_slash h

theorem noSlash_intStr (i : Int) : NoSlash (intStr i) := intStr_ne_slash i

theorem portDecl_no_slash (kw : Str) (p : PPort)
    (hkw : ∀ c ∈ kw, wordChar c = true) (hnm : ∀ c ∈ p.name, wordChar c = true) :
    NoSlash (portDecl kw p) := by
  intro c hc
  rw [portDecl] at hc
  by_cases hw : 1 < p.width
  · rw [if_pos hw] at hc
    simp only [List.mem_append, List.mem_cons, List.mem_singleton, List.not_mem_nil,
      or_false, false_or, List.append_assoc] at hc
    casesm* _ ∨ _
    all_goals first
      | (exact word_ne_slash hkw c ‹c ∈ kw›)
      | (exact word_ne_slash hnm c ‹c ∈ p.name›)
      | (exact intStr_ne_slash _ c ‹c ∈ intStr p.msb›)
      | (exact intStr_ne_slash _ c ‹c ∈ intStr p.lsb›)
      | (subst_vars; decide)
  · rw [if_neg hw] at hc
    simp only [List.mem_append, List.mem_cons, List.mem_singleton, List.not_mem_nil,
      or_false, false_or, List.nil_append, List.append_assoc] at hc
    casesm* _ ∨ _
    all_goals first
      | (exact word_ne_slash hkw c ‹c ∈ kw›)
      | (exact word_ne_slash hnm c ‹c ∈ p.name›)
      | (subst_vars; decide)

theorem portSegs_text (kw : Str) (p : PPort) :
    flattenSegs (portSegs kw p) = portDecl kw p := by
  by_cases hw : 1 < p.width <;>
    simp [portSegs, portDecl, numSegs, flattenSegs, hw, intStr_split, List.append_assoc]

theorem slc_portList (kw : Str) (hkw : ∀ c ∈ kw, wordChar c = true) :
    ∀ (l : List PPort), (∀ p ∈ l, ∀ c ∈ p.name, wordChar c = true) → ∀ b,
    slc false ((l.map (portDecl kw)).flatten ++ b) =
      flattenSegs ((l.map (portSegs kw)).flatten) ++ slc false b := by
  intro l
  induction l with
  | nil => intro _ b; simp [flattenSegs]
  | cons p l2 ih =>
    intro h b
    simp only [List.map_cons, List.flatten_cons, List.append_assoc]
    rw [slc_copy (portDecl kw p) (portDecl_no_slash kw p hkw (h p (by simp))),
      ih (fun q hq => h q (by simp [hq])) b]
    simp only [flattenSegs_append, portSegs_text, List.append_assoc]

theorem slc_inDecls (inputs : List PPort)
    (h : ∀ p ∈ inputs, ∀ c ∈ p.name, wordChar c = true) (b : Str) :
    slc false (tbInputDecls inputs ++ b) = flattenSegs (inDeclSegs inputs) ++ slc false b := by
  simp only [tbInputDecls, List.append_assoc]
  rw [slc_lit "\n    // Inputs\n".data "\n    \n".data false false (by decide) (by decide),
    slc_portList "reg".data (by decide) inputs h b]
  simp only [inDeclSegs, flattenSegs_cons, List.append_assoc]

theorem slc_outDecls (outputs : List PPort)
    (h : ∀ p ∈ outputs, ∀ c ∈ p.name, wordChar c = true) (b : Str) :
    slc false (tbOutputDecls outputs ++ b) = flattenSegs (outDeclSegs outputs) ++ slc false b := by
  simp only [tbOutputDecls, List.append_assoc]
  rw [slc_lit "\n    // Outputs\n".data "\n    \n".data false false (by decide) (by decide),
    slc_portList "wire".data (by decide) outputs h b]
  simp only [outDeclSegs, flattenSegs_cons, List.append_assoc]

theorem slc_ioDecls (inouts : List PPort)
    (h : ∀ p ∈ inouts, ∀ c ∈ p.name, wordChar c = true) (b : Str) :
    slc false (tbInoutDecls inouts ++ b) = flattenSegs (ioDeclSegs inouts) ++ slc false b := by
  simp only [tbInoutDecls, List.append_assoc]
  rw [slc_lit "\n    // Inouts\n".data "\n    \n".data false false (by decide) (by decide),
    slc_portList "wire".data (by decide) inouts h b]
  simp only [ioDeclSegs, flattenSegs_cons, List.append_assoc]

theorem connSegs_text (nm : Str) : flattenSegs (connSegs nm) = connText nm := by
  simp [connSegs, connText, flattenSegs, List.append_assoc]

theorem connText_no_slash (nm : Str) (h : ∀ c ∈ nm, wordChar c = true) :
    NoSlash (connText nm) := by
  intro c hc
  rw [connText] at hc
  simp only [List.mem_append, List.mem_cons, List.mem_singleton, List.not_mem_nil,
    or_false, false_or, List.append_assoc] at hc
  casesm* _ ∨ _
  all_goals first
    | (exact word_ne_slash h c ‹c ∈ nm›)
    | (subst_vars; decide)

theorem joinConnP_text : ∀ l : List PParam,
    flattenSegs (joinSegs ",\n".data (l.map (fun p => connSegs p.name))) =
      List.intercalate ",\n".data (l.map (fun p => connText p.name))
  | [] => by simp [joinSegs, flattenSegs, List.intercalate]
  | [p] => by
    simp [joinSegs, List.intercalate, List.intersperse_singleton, connSegs_text]
  | p :: q :: t => by
    have ih := joinConnP_text (q :: t)
    simp only [List.map_cons] at ih ⊢
    rw [show joinSegs ",\n".data (connSegs p.name :: connSegs q.name ::
        (t.map (fun r => connSegs r.name))) =
      connSegs p.name ++ (false, ",\n".data) ::
        joinSegs ",\n".data (connSegs q.name :: (t.map (fun r => connSegs r.name))) from rfl]
    rw [flattenSegs_append, flattenSegs_cons, ih, connSegs_text]
    simp [List.intercalate, List.intersperse_cons_cons, List.append_assoc]

theorem joinConnQ_text : ∀ l : List PPort,
    flattenSegs (joinSegs ",\n".data (l.map (fun p => connSegs p.name))) =
      List.intercalate ",\n".data (l.map (fun p => connText p.name))
  | [] => by simp [joinSegs, flattenSegs, List.intercalate]
  | [p] => by
    simp [joinSegs, List.intercalate, List.intersperse_singleton, connSegs_text]
  | p :: q :: t => by
    have ih := joinConnQ_text (q :: t)
    simp only [List.map_cons] at ih ⊢
    rw [show joinSegs ",\n".data (connSegs p.name :: connSegs q.name ::
        (t.map (fun r => connSegs r.name))) =
      connSegs p.name ++ (false, ",\n".data) ::
        joinSegs ",\n".data (connSegs q.name :: (t.map (fun r => connSegs r.name))) from rfl]
    rw [flattenSegs_append, flattenSegs_cons, ih, connSegs_text]
    simp [List.intercalate, List.intersperse_cons_cons, List.append_assoc]

theorem noSlash_intercalate {sep : Str} (hsep : NoSlash sep) :
    ∀ l : List Str, (∀ x ∈ l, NoSlash x) → NoSlash (List.intercalate sep l)
  | [] , _ => by intro c hc; simp [List.intercalate] at hc
  | [x], h => by
    intro c hc
    rw [List.intercalate, List.intersperse_singleton] at hc
    simp at hc
    exact h x (by simp) c hc
  | x :: y :: t, h => by
    intro c hc
    rw [List.intercalate, List.intersperse_cons_cons] at hc
    simp only [List.flatten_cons] at hc
    rcases List.mem_append.mp hc with h2 | h2
    · exact h x (by simp) c h2
    · rcases List.mem_append.mp h2 with h3 | h3
      · exact hsep c h3
      · exact noSlash_intercalate hsep (y :: t) (fun z hz => h z (by simp [List.mem_cons.mp hz])) c
          (by rw [List.intercalate]; exact h3)

theorem slc_inst (info : ModuleInfo)
    (hm : ∀ c ∈ info.name, wordChar c = true)
    (hp : ∀ p ∈ info.parameters, ∀ c ∈ p.name, wordChar c = true)
    (hports : ∀ p ∈ info.inputs ++ info.outputs ++ info.inouts,
      ∀ c ∈ p.name, wordChar c = true)
    (b : Str) :
    slc false (tbInstantiation info ++ b) = flattenSegs (instSegs info) ++ slc false b := by
  have hconn2 : NoSlash (List.intercalate ",\n".data
      ((info.inputs ++ (info.outputs ++ info.inouts)).map (fun p => connText p.name))) := by
    refine noSlash_intercalate (by decide) _ ?_
    intro x hx
    obtain ⟨p, hpme, rfl⟩ := List.mem_map.mp hx
    exact connText_no_slash p.name (hports p (by rw [List.append_assoc]; exact hpme))
  by_cases hpar : info.parameters = []
  · rw [tbInstantiation, instSegs, if_neg (by simp [hpar]), if_neg (by simp [hpar])]
    simp only [List.append_assoc, List.nil_append]
    rw [slc_lit "\n    // Instantiate the Unit Under Test (UUT)\n    ".data
        "\n    \n    ".data false false (by decide) (by decide),
      slc_copy info.name (word_ne_slash hm),
      slc_copy [' '] (by decide),
      slc_copy "uut (\n".data (by decide),
      slc_copy _ hconn2,
      slc_copy "\n    );\n\n".data (by decide)]
    simp only [flattenSegs_append, flattenSegs_cons, List.append_assoc]
    rw [joinConnQ_text]
    rfl
  · have hconn1 : NoSlash (List.intercalate ",\n".data
        (info.parameters.map (fun p => connText p.name))) := by
      refine noSlash_intercalate (by decide) _ ?_
      intro x hx
      obtain ⟨p, hpme, rfl⟩ := List.mem_map.mp hx
      exact connText_no_slash p.name (hp p hpme)
    rw [tbInstantiation, instSegs, if_pos (by simp [hpar]), if_pos (by simp [hpar])]
    simp only [List.append_assoc, List.nil_append]
    rw [slc_lit "\n    // Instantiate the Unit Under Test (UUT)\n    ".data
        "\n    \n    ".data false false (by decide) (by decide),
      slc_copy info.name (word_ne_slash hm),
      slc_copy [' '] (by decide),
      slc_copy "#(\n".data (by decide),
      slc_copy _ hconn1,
      slc_copy "\n    ) ".data (by decide),
      slc_copy "uut (\n".data (by decide),
      slc_copy _ hconn2,
      slc_copy "\n    );\n\n".data (by decide)]
    simp only [flattenSegs_append, flattenSegs_cons, List.append_assoc]
    rw [joinConnP_text, joinConnQ_text]
    rfl

theorem slc_clock (inputs : List PPort)
    (h : ∀ p ∈ inputs, ∀ c ∈ p.name, wordChar c = true) (b : Str) :
    slc false (tbClockBlock inputs ++ b) = flattenSegs (clockSegs inputs) ++ slc false b := by
  rcases hf : inputs.filter (fun i => isClockName i.name) with _ | ⟨c, rest⟩
  · rw [tbClockBlock, clockSegs, hf]
    rfl
  · have hcm : c ∈ inputs.filter (fun i => isClockName i.name) := by
      rw [hf]; exact List.mem_cons_self c rest
    have hc : ∀ ch ∈ c.name, wordChar ch = true := h c (List.mem_of_mem_filter hcm)
    rw [tbClockBlock, clockSegs, hf]
    simp only [List.append_assoc]
    rw [slc_lit "    // Clock generation\n    initial begin\n        ".data
        "    \n    initial begin\n        ".data false false (by decide) (by decide),
      slc_copy c.name (word_ne_slash hc),
      slc_copy " = 0;\n        forever #5 ".data (by decide),
      slc_copy c.name (word_ne_slash hc),
      slc_copy " = ~".data (by decide),
      slc_copy c.name (word_ne_slash hc),
      slc_lit ";  // 100MHz clock\n    end\n".data ";  \n    end\n".data false false
        (by decide) (by decide)]
    simp only [flattenSegs, List.map_cons, List.map_nil, List.flatten_cons,
      List.flatten_nil, List.append_assoc, List.nil_append, List.append_nil]
    rfl

theorem slc_reset (inputs : List PPort)
    (h : ∀ p ∈ inputs, ∀ c ∈ p.name, wordChar c = true) (b : Str) :
    slc false (tbResetBlock inputs ++ b) = flattenSegs (resetSegs inputs) ++ slc false b := by
  rcases hf : inputs.filter (fun i => isResetName i.name) with _ | ⟨r, rest⟩
  · rw [tbResetBlock, resetSegs, hf]
    rfl
  · have hrm : r ∈ inputs.filter (fun i => isResetName i.name) := by
      rw [hf]; exact List.mem_cons_self r rest
    have hr : ∀ ch ∈ r.name, wordChar ch = true := h r (List.mem_of_mem_filter hrm)
    rw [tbResetBlock, resetSegs, hf]
    simp only [List.append_assoc]
    rw [slc_lit "\n    // Reset generation\n    initial begin\n        ".data
        "\n    \n    initial begin\n        ".data false false (by decide) (by decide),
      slc_copy r.name (word_ne_slash hr),
      slc_copy " = 1;\n        #20 ".data (by decide),
      slc_copy r.name (word_ne_slash hr),
      slc_copy " = 0;\n        #10 ".data (by decide),
      slc_copy r.name (word_ne_slash hr),
      slc_copy " = 1;\n    end\n".data (by decide)]
    simp only [flattenSegs, List.map_cons, List.map_nil, List.flatten_cons,
      List.flatten_nil, List.append_assoc, List.nil_append, List.append_nil]
    rfl

theorem slc_zeroList (inputs : List PPort) :
    ∀ (l : List PPort), (∀ p ∈ l, ∀ c ∈ p.name, wordChar c = true) → ∀ b : Str,
    slc false ((l.filterMap (fun inp =>
        if inp.name ∈ excludedNames inputs then none
        else some ("        ".data ++ inp.name ++ " = 0;\n".data))).flatten ++ b) =
      flattenSegs ((l.filterMap (fun inp =>
        if inp.name ∈ excludedNames inputs then none
        else some (zeroSegs1 inp.name))).flatten) ++ slc false b := by
  intro l
  induction l with
  | nil => intro _ b; simp [flattenSegs]
  | cons p l2 ih =>
    intro hl b
    simp only [List.append_assoc] at ih
    by_cases hex : p.name ∈ excludedNames inputs
    · simp only [List.filterMap_cons, if_pos hex]
      exact ih (fun q hq => hl q (by simp [hq])) b
    · simp only [List.filterMap_cons, if_neg hex, List.flatten_cons, List.append_assoc]
      rw [slc_copy "        ".data (by decide),
        slc_copy p.name (word_ne_slash (hl p (by simp))),
        slc_copy " = 0;\n".data (by decide), ih (fun q hq => hl q (by simp [hq])) b]
      simp only [zeroSegs1, List.filterMap_cons, if_neg hex, List.flatten_cons,
        flattenSegs_append, flattenSegs_cons, flattenSegs_nil, List.append_assoc,
        List.nil_append, List.append_nil]
      rfl

theorem slc_zero (inputs : List PPort)
    (h : ∀ p ∈ inputs, ∀ c ∈ p.name, wordChar c = true) (b : Str) :
    slc false (zeroInitLines inputs ++ b) = flattenSegs (zeroSegs inputs) ++ slc false b := by
  rw [zeroInitLines, zeroSegs]
  exact slc_zeroList inputs inputs h b

theorem randLine_no_slash (inp : PPort) (h : ∀ c ∈ inp.name, wordChar c = true) :
    NoSlash (randLine inp) := by
  intro c hc
  rw [randLine] at hc
  by_cases hw : 1 < inp.width
  · rw [if_pos hw] at hc
    simp only [List.mem_append, List.mem_cons, List.mem_singleton, List.not_mem_nil,
      or_false, false_or, List.append_assoc] at hc
    casesm* _ ∨ _
    all_goals first
      | (exact word_ne_slash h c ‹c ∈ inp.name›)
      | (exact intStr_ne_slash _ c ‹c ∈ intStr inp.width›)
      | (subst_vars; decide)
  · rw [if_neg hw] at hc
    simp only [List.mem_append, List.mem_cons, List.mem_singleton, List.not_mem_nil,
      or_false, false_or, List.append_assoc] at hc
    casesm* _ ∨ _
    all_goals first
      | (exact word_ne_slash h c ‹c ∈ inp.name›)
      | (subst_vars; decide)

theorem randSegs1_text (inp : PPort) : flattenSegs (randSegs1 inp) = randLine inp := by
  by_cases hw : 1 < inp.width <;>
    simp [randSegs1, randLine, numSegs, flattenSegs, hw, intStr_split, List.append_assoc]

theorem slc_randList (inputs : List PPort) :
    ∀ (l : List PPort), (∀ p ∈ l, ∀ c ∈ p.name, wordChar c = true) → ∀ b : Str,
    slc false ((l.filterMap (fun inp =>
        if inp.name ∈ excludedNames inputs then none else some (randLine inp))).flatten ++ b) =
      flattenSegs ((l.filterMap (fun inp =>
        if inp.name ∈ excludedNames inputs then none else some (randSegs1 inp))).flatten) ++
        slc false b := by
  intro l
  induction l with
  | nil => intro _ b; simp [flattenSegs]
  | cons p l2 ih =>
    intro hl b
    by_cases hex : p.name ∈ excludedNames inputs
    · simp only [List.filterMap_cons, if_pos hex]
      exact ih (fun q hq => hl q (by simp [hq])) b
    · simp only [List.filterMap_cons, if_neg hex, List.flatten_cons, List.append_assoc]
      rw [slc_copy (randLine p) (randLine_no_slash p (hl p (by simp))),
        ih (fun q hq => hl q (by simp [hq])) b]
      simp only [flattenSegs_append, randSegs1_text, List.append_assoc]

theorem slc_rand (inputs : List PPort)
    (h : ∀ p ∈ inputs, ∀ c ∈ p.name, wordChar c = true) (b : Str) :
    slc false (randLines inputs ++ b) = flattenSegs (randSegsL inputs) ++ slc false b := by
  rw [randLines, randSegsL]
  exact slc_randList inputs inputs h b

set_option maxRecDepth 8000 in
theorem slc_stim (inputs : List PPort) (n : Int)
    (h : ∀ p ∈ inputs, ∀ c ∈ p.name, wordChar c = true) (b : Str) :
    slc false (tbStimulus inputs n ++ b) =
      flattenSegs (stimSegs inputs n) ++ slc false b := by
  rw [tbStimulus]
  simp only [List.append_assoc]
  rw [slc_lit "\n    // Test stimulus\n    integer i;\n    initial begin\n        // Initialize inputs\n".data
      "\n    \n    integer i;\n    initial begin\n        \n".data false false (by decide) (by decide),
    slc_zero inputs h,
    slc_lit "\n        // Wait for reset\n        #50;\n        \n        // Apply test vectors\n".data
      "\n        \n        #50;\n        \n        \n".data false false (by decide) (by decide),
    forLine]
  simp only [List.append_assoc]
  rw [slc_copy "        for (i = 0; i < ".data (by decide),
    slc_copy (intStr n) (noSlash_intStr n),
    slc_copy "; i = i + 1) begin\n".data (by decide),
    slc_rand inputs h,
    slc_lit "            #10;\n        end\n        \n        // Finish simulation\n        #100;\n        $display(\"Simulation completed successfully\");\n        $finish;\n    end\n    \n    // Monitor signals\n    initial begin\n        $monitor(\"Time=%0t\", $time".data
      "            #10;\n        end\n        \n        \n        #100;\n        $display(\"Simulation completed successfully\");\n        $finish;\n    end\n    \n    \n    initial begin\n        $monitor(\"Time=%0t\", $time".data
      false false (by decide) (by decide)]
  rw [intStr_split]
  simp only [stimSegs, forSegs, numSegs, stimLit1Segs, stimLit2Segs, stimLit3Segs,
    flattenSegs_append, flattenSegs_cons, flattenSegs_nil, List.append_assoc,
    List.nil_append, List.append_nil]
  rfl

theorem monPiece_no_slash (nm : Str) (h : ∀ c ∈ nm, wordChar c = true) :
    NoSlash (monPiece nm) := by
  intro c hc
  rw [monPiece] at hc
  simp only [List.mem_append, List.mem_cons, List.mem_singleton, List.not_mem_nil,
    or_false, false_or, List.append_assoc] at hc
  casesm* _ ∨ _
  all_goals first
    | (exact word_ne_slash h c ‹c ∈ nm›)
    | (subst_vars; decide)

theorem monSegs_text (nm : Str) : flattenSegs (monSegs nm) = monPiece nm := by
  simp [monSegs, monPiece, flattenSegs, List.append_assoc]

theorem slc_monList : ∀ (l : List PPort), (∀ p ∈ l, ∀ c ∈ p.name, wordChar c = true) →
    ∀ b : Str,
    slc false ((l.map (fun p => monPiece p.name)).flatten ++ b) =
      flattenSegs ((l.map (fun p => monSegs p.name)).flatten) ++ slc false b := by
  intro l
  induction l with
  | nil => intro _ b; simp [flattenSegs]
  | cons p l2 ih =>
    intro hl b
    simp only [List.map_cons, List.flatten_cons, List.append_assoc]
    rw [slc_copy (monPiece p.name) (monPiece_no_slash p.name (hl p (by simp))),
      ih (fun q hq => hl q (by simp [hq])) b]
    simp only [flattenSegs_append, monSegs_text, List.append_assoc]

theorem slc_dump_b (info : ModuleInfo)
    (hm : ∀ c ∈ info.name, wordChar c = true)
    (hin : ∀ p ∈ info.inputs, ∀ c ∈ p.name, wordChar c = true)
    (hout : ∀ p ∈ info.outputs, ∀ c ∈ p.name, wordChar c = true) (b : Str) :
    slc false (tbMonitorDump info ++ b) = flattenSegs (dumpSegs info) ++ slc false b := by
  rw [tbMonitorDump]
  simp only [List.append_assoc]
  rw [slc_monList info.inputs hin,
    slc_monList info.outputs hout,
    slc_lit ");\n    end\n    \n    // VCD dump for waveform viewing\n    initial begin\n        $dumpfile(\"wave.vcd\");\n        $dumpvars(0, ".data
      ");\n    end\n    \n    \n    initial begin\n        $dumpfile(\"wave.vcd\");\n        $dumpvars(0, ".data
      false false (by decide) (by decide),
    slc_copy info.name (word_ne_slash hm),
    slc_copy "_tb);\n    end\n\nendmodule\n".data (by decide)]
  simp only [dumpSegs, flattenSegs_append, flattenSegs_cons, flattenSegs_nil,
    List.append_assoc, List.nil_append, List.append_nil]
  rfl

theorem slc_dump (info : ModuleInfo)
    (hm : ∀ c ∈ info.name, wordChar c = true)
    (hin : ∀ p ∈ info.inputs, ∀ c ∈ p.name, wordChar c = true)
    (hout : ∀ p ∈ info.outputs, ∀ c ∈ p.name, wordChar c = true) :
    slc false (tbMonitorDump info) = flattenSegs (dumpSegs info) := by
  have h := slc_dump_b info hm hin hout []
  rw [List.append_nil, show slc false ([] : Str) = [] from rfl, List.append_nil] at h
  exact h

/-- The line-comment stripper maps the generated testbench onto the
segment list. -/
theorem strip_render (info : ModuleInfo) (n : Int)
    (hm : ∀ c ∈ info.name, wordChar c = true)
    (hin : ∀ p ∈ info.inputs, ∀ c ∈ p.name, wordChar c = true)
    (hout : ∀ p ∈ info.outputs, ∀ c ∈ p.name, wordChar c = true)
    (hio : ∀ p ∈ info.inouts, ∀ c ∈ p.name, wordChar c = true)
    (hpar : ∀ p ∈ info.parameters,
      (∀ c ∈ p.name, wordChar c = true) ∧ (∀ c ∈ p.value, wordChar c = true)) :
    slc false (generate_testbench info n) = flattenSegs (rdSegs info n) := by
  have hports : ∀ p ∈ info.inputs ++ info.outputs ++ info.inouts,
      ∀ c ∈ p.name, wordChar c = true := by
    intro p hp
    rcases List.mem_append.mp hp with h2 | h2
    · rcases List.mem_append.mp h2 with h3 | h3
      · exact hin p h3
      · exact hout p h3
    · exact hio p h2
  rw [generate_testbench]
  simp only [List.append_assoc]
  rw [slc_hdr info.name hm,
    slc_params info.parameters hpar,
    slc_inDecls info.inputs hin,
    slc_outDecls info.outputs hout,
    slc_ioDecls info.inouts hio,
    slc_inst info hm (fun p hp => (hpar p hp).1) hports,
    slc_clock info.inputs hin,
    slc_reset info.inputs hin,
    slc_stim info.inputs n hin,
    slc_dump info hm hin hout]
  simp only [rdSegs, flattenSegs_append, List.append_assoc]

theorem word_append {a b : Str} (ha : ∀ c ∈ a, wordChar c = true)
    (hb : ∀ c ∈ b, wordChar c = true) : ∀ c ∈ a ++ b, wordChar c = true := by
  intro c hc
  rcases List.mem_append.mp hc with h | h
  · exact ha c h
  · exact hb c h

theorem segsOk_flatten : ∀ {L : List (List Seg)},
    (∀ x ∈ L, segsOkC x false) → segsOkC L.flatten false := by
  intro L
  induction L with
  | nil => intro _; trivial
  | cons x xs ih =>
    intro h
    rw [List.flatten_cons]
    exact segsOkC_append_gap (h x (by simp)) (ih (fun y hy => h y (by simp [hy])))

theorem joinSegs_ok {sep : Str} (hsep : ∀ c ∈ sep, wordChar c = false ∧ c ≠ '*') :
    ∀ {L : List (List Seg)}, (∀ x ∈ L, segsOkC x false) →
    segsOkC (joinSegs sep L) false
  | [], _ => trivial
  | [x], h => by rw [joinSegs]; exact h x (by simp)
  | x :: y :: t, h => by
    rw [show joinSegs sep (x :: y :: t) = x ++ (false, sep) :: joinSegs sep (y :: t) from rfl]
    exact segsOkC_append_gap (h x (by simp))
      (segsOkC_cons_gap hsep (joinSegs_ok hsep (fun z hz => h z (by simp [List.mem_cons.mp hz]))))

theorem numSegs_gap_ok {pre : Str} (i : Int)
    (hpre : ∀ c ∈ pre, wordChar c = false ∧ c ≠ '*') :
    ∀ c ∈ pre ++ (if i < 0 then ['-'] else []), wordChar c = false ∧ c ≠ '*' := by
  intro c hc
  rcases List.mem_append.mp hc with h | h
  · exact hpre c h
  · split at h
    · rw [List.mem_singleton] at h
      subst h
      exact ⟨by decide, by decide⟩
    · simp at h

theorem startsGap_cons {g : Str} (hg : g ≠ []) (l : List Seg) :
    startsGap ((false, g) :: l) := hg

theorem numSegs_ok {pre : Str} (i : Int)
    (hpre : ∀ c ∈ pre, wordChar c = false ∧ c ≠ '*')
    {rest : List Seg} {k : Bool} (hs : startsGap rest) (hrest : segsOkC rest k) :
    segsOkC (numSegs pre i ++ rest) k := by
  refine segsOkC_cons_gap (numSegs_gap_ok i hpre) ?_
  exact segsOkC_cons_word (natStr_ne_nil _)
    (fun c hc => digit_word (natStr_digits _ c hc)) hs hrest

theorem startsGap_numSegs (pre : Str) (i : Int) (h : pre ≠ []) (rest : List Seg) :
    startsGap (numSegs pre i ++ rest) := by
  refine startsGap_cons ?_ _
  simp [h]

theorem hdrSegs_ok (m : Str) (hm : m ≠ []) (hw : ∀ c ∈ m, wordChar c = true) :
    segsOkC (hdrSegs m) false := by
  rw [hdrSegs]
  repeat first
    | exact trivial
    | (refine segsOkC_cons_gap (by decide) ?_)
    | (refine segsOkC_cons_word (by decide) (by decide) (startsGap_cons (by decide) _) ?_)
  refine segsOkC_cons_word (by simp)
    (word_append hw (by decide : ∀ c ∈ "_tb".data, wordChar c = true))
    (startsGap_cons (by decide) _) ?_
  exact segsOkC_cons_gap (by decide) trivial

theorem paramSegs_ok (p : PParam) (hn : p.name ≠ []) (hnw : ∀ c ∈ p.name, wordChar c = true)
    (hv : p.value ≠ []) (hvw : ∀ c ∈ p.value, wordChar c = true) :
    segsOkC (paramSegs p) false := by
  rw [paramSegs]
  exact segsOkC_cons_gap (by decide) (segsOkC_cons_word (by decide) (by decide)
    (startsGap_cons (by decide) _)
    (segsOkC_cons_gap (by decide) (segsOkC_cons_word hn hnw (startsGap_cons (by decide) _)
      (segsOkC_cons_gap (by decide) (segsOkC_cons_word hv hvw (startsGap_cons (by decide) _)
        (segsOkC_cons_gap (by decide) trivial))))))

theorem portSegs_ok (kw : Str) (hkwne : kw ≠ []) (hkw : ∀ c ∈ kw, wordChar c = true)
    (p : PPort) (hn : p.name ≠ []) (hnw : ∀ c ∈ p.name, wordChar c = true) :
    segsOkC (portSegs kw p) false := by
  rw [portSegs]
  by_cases hw : 1 < p.width
  · rw [if_pos hw]
    refine segsOkC_cons_gap (by decide)
      (segsOkC_cons_word hkwne hkw (startsGap_numSegs _ p.msb (by decide) _) ?_)
    refine numSegs_ok p.msb (by decide) (startsGap_numSegs _ p.lsb (by decide) _) ?_
    refine numSegs_ok p.lsb (by decide) (startsGap_cons (by decide) _) ?_
    exact segsOkC_cons_gap (by decide) (segsOkC_cons_word hn hnw
      (startsGap_cons (by decide) _) (segsOkC_cons_gap (by decide) trivial))
  · rw [if_neg hw]
    exact segsOkC_cons_gap (by decide) (segsOkC_cons_word hkwne hkw
      (startsGap_cons (by decide) _)
      (segsOkC_cons_gap (by decide) (segsOkC_cons_word hn hnw
        (startsGap_cons (by decide) _) (segsOkC_cons_gap (by decide) trivial))))

theorem declSegs_ok (kw : Str) (hkwne : kw ≠ []) (hkw : ∀ c ∈ kw, wordChar c = true)
    (l : List PPort)
    (h : ∀ p ∈ l, p.name ≠ [] ∧ ∀ c ∈ p.name, wordChar c = true) (g : Str)
    (hg : ∀ c ∈ g, wordChar c = false ∧ c ≠ '*') :
    segsOkC ((false, g) :: (l.map (portSegs kw)).flatten) false := by
  refine segsOkC_cons_gap hg (segsOk_flatten ?_)
  intro x hx
  obtain ⟨p, hp, rfl⟩ := List.mem_map.mp hx
  exact portSegs_ok kw hkwne hkw p (h p hp).1 (h p hp).2

theorem connSegs_ok (nm : Str) (hn : nm ≠ []) (hw : ∀ c ∈ nm, wordChar c = true) :
    segsOkC (connSegs nm) false := by
  rw [connSegs]
  exact segsOkC_cons_gap (by decide) (segsOkC_cons_word hn hw
    (startsGap_cons (by decide) _)
    (segsOkC_cons_gap (by decide) (segsOkC_cons_word hn hw
      (startsGap_cons (by decide) _) (segsOkC_cons_gap (by decide) trivial))))

theorem instSegs_ok (info : ModuleInfo) (hmne : info.name ≠ [])
    (hm : ∀ c ∈ info.name, wordChar c = true)
    (hp : ∀ p ∈ info.parameters, p.name ≠ [] ∧ ∀ c ∈ p.name, wordChar c = true)
    (hports : ∀ p ∈ info.inputs ++ info.outputs ++ info.inouts,
      p.name ≠ [] ∧ ∀ c ∈ p.name, wordChar c = true) :
    segsOkC (instSegs info) false := by
  rw [instSegs]
  have hjoin : segsOkC (joinSegs ",\n".data
      ((info.inputs ++ (info.outputs ++ info.inouts)).map (fun p => connSegs p.name)) ++
      [(false, "\n    );\n\n".data)]) false := by
    refine segsOkC_append_gap (joinSegs_ok (by decide) ?_)
      (segsOkC_cons_gap (by decide) trivial)
    intro x hx
    obtain ⟨p, hpm, rfl⟩ := List.mem_map.mp hx
    have := hports p (by rw [List.append_assoc]; exact hpm)
    exact connSegs_ok p.name this.1 this.2
  have htail : segsOkC ([(true, "uut".data), (false, " (\n".data)] ++
      (joinSegs ",\n".data
        ((info.inputs ++ (info.outputs ++ info.inouts)).map (fun p => connSegs p.name)) ++
       [(false, "\n    );\n\n".data)])) false := by
    refine segsOkC_cons_word (by decide) (by decide) (startsGap_cons (by decide) _) ?_
    exact segsOkC_cons_gap (by decide) hjoin
  by_cases hpar : info.parameters = []
  · rw [if_neg (by simp [hpar])]
    simp only [List.append_assoc, List.cons_append, List.nil_append]
    refine segsOkC_cons_gap (by decide) (segsOkC_cons_word hmne hm
      (startsGap_cons (by decide) _) (segsOkC_cons_gap (by decide) ?_))
    simpa [List.append_assoc] using htail
  · rw [if_pos (by simp [hpar])]
    simp only [List.append_assoc, List.cons_append, List.nil_append]
    refine segsOkC_cons_gap (by decide) (segsOkC_cons_word hmne hm
      (startsGap_cons (by decide) _) (segsOkC_cons_gap (by decide) ?_))
    refine segsOkC_append_gap (joinSegs_ok (by decide) ?_) ?_
    · intro x hx
      obtain ⟨p, hpm, rfl⟩ := List.mem_map.mp hx
      exact connSegs_ok p.name (hp p hpm).1 (hp p hpm).2
    · refine segsOkC_cons_gap (by decide) ?_
      simpa [List.append_assoc] using htail

theorem clockSegs_ok (inputs : List PPort)
    (h : ∀ p ∈ inputs, p.name ≠ [] ∧ ∀ c ∈ p.name, wordChar c = true) :
    segsOkC (clockSegs inputs) false := by
  rw [clockSegs]
  rcases hf : inputs.filter (fun i => isClockName i.name) with _ | ⟨c, rest⟩
  · rw [hf]
    trivial
  · rw [hf]
    have hcm : c ∈ inputs.filter (fun i => isClockName i.name) := by
      rw [hf]; exact List.mem_cons_self c rest
    have hc := h c (List.mem_of_mem_filter hcm)
    repeat first
      | exact trivial
      | (refine segsOkC_cons_gap (by decide) ?_)
      | (refine segsOkC_cons_word (by decide) (by decide) (startsGap_cons (by decide) _) ?_)
      | (refine segsOkC_cons_word hc.1 hc.2 (startsGap_cons (by decide) _) ?_)

theorem resetSegs_ok (inputs : List PPort)
    (h : ∀ p ∈ inputs, p.name ≠ [] ∧ ∀ c ∈ p.name, wordChar c = true) :
    segsOkC (resetSegs inputs) false := by
  rw [resetSegs]
  rcases hf : inputs.filter (fun i => isResetName i.name) with _ | ⟨r, rest⟩
  · rw [hf]
    trivial
  · rw [hf]
    have hrm : r ∈ inputs.filter (fun i => isResetName i.name) := by
      rw [hf]; exact List.mem_cons_self r rest
    have hr := h r (List.mem_of_mem_filter hrm)
    repeat first
      | exact trivial
      | (refine segsOkC_cons_gap (by decide) ?_)
      | (refine segsOkC_cons_word (by decide) (by decide) (startsGap_cons (by decide) _) ?_)
      | (refine segsOkC_cons_word hr.1 hr.2 (startsGap_cons (by decide) _) ?_)

theorem zeroSegs_ok (inputs : List PPort)
    (h : ∀ p ∈ inputs, p.name ≠ [] ∧ ∀ c ∈ p.name, wordChar c = true) :
    segsOkC (zeroSegs inputs) false := by
  rw [zeroSegs]
  refine segsOk_flatten ?_
  intro x hx
  obtain ⟨p, hpm, hpe⟩ := List.mem_filterMap.mp hx
  split at hpe
  · cases hpe
  · cases hpe
    have hp := h p hpm
    rw [zeroSegs1]
    exact segsOkC_cons_gap (by decide) (segsOkC_cons_word hp.1 hp.2
      (startsGap_cons (by decide) _)
      (segsOkC_cons_gap (by decide) (segsOkC_cons_word (by decide) (by decide)
        (startsGap_cons (by decide) _) (segsOkC_cons_gap (by decide) trivial))))

theorem randSegs1_ok (inp : PPort) (hn : inp.name ≠ [])
    (hw : ∀ c ∈ inp.name, wordChar c = true) :
    segsOkC (randSegs1 inp) false := by
  rw [randSegs1]
  by_cases hwd : 1 < inp.width
  · rw [if_pos hwd]
    refine segsOkC_cons_gap (by decide) (segsOkC_cons_word hn hw
      (startsGap_cons (by decide) _) ?_)
    repeat first
      | exact trivial
      | (refine segsOkC_cons_gap (by decide) ?_)
      | (refine segsOkC_cons_word (by decide) (by decide) (startsGap_cons (by decide) _) ?_)
      | (refine segsOkC_cons_gap (numSegs_gap_ok _ (by decide)) ?_)
      | (refine segsOkC_cons_word (natStr_ne_nil _)
          (fun c hc => digit_word (natStr_digits _ c hc)) (startsGap_cons (by decide) _) ?_)
      | (refine segsOkC_cons_word (by decide) (by decide)
          (startsGap_numSegs _ _ (by decide) _) ?_)
      | (refine numSegs_ok _ (by decide) (startsGap_cons (by decide) _) ?_)
  · rw [if_neg hwd]
    refine segsOkC_cons_gap (by decide) (segsOkC_cons_word hn hw
      (startsGap_cons (by decide) _) ?_)
    repeat first
      | exact trivial
      | (refine segsOkC_cons_gap (by decide) ?_)
      | (refine segsOkC_cons_word (by decide) (by decide) (startsGap_cons (by decide) _) ?_)

theorem randSegsL_ok (inputs : List PPort)
    (h : ∀ p ∈ inputs, p.name ≠ [] ∧ ∀ c ∈ p.name, wordChar c = true) :
    segsOkC (randSegsL inputs) false := by
  rw [randSegsL]
  refine segsOk_flatten ?_
  intro x hx
  obtain ⟨p, hpm, hpe⟩ := List.mem_filterMap.mp hx
  split at hpe
  · cases hpe
  · cases hpe
    exact randSegs1_ok p (h p hpm).1 (h p hpm).2

theorem forSegs_ok (n : Int) : segsOkC (forSegs n) false := by
  rw [forSegs]
  repeat first
    | exact trivial
    | (refine segsOkC_cons_gap (by decide) ?_)
    | (refine segsOkC_cons_word (by decide) (by decide) (startsGap_cons (by decide) _) ?_)
    | (refine segsOkC_cons_gap (numSegs_gap_ok _ (by decide)) ?_)
    | (refine segsOkC_cons_word (natStr_ne_nil _)
        (fun c hc => digit_word (natStr_digits _ c hc)) (startsGap_cons (by decide) _) ?_)
    | (refine segsOkC_cons_word (by decide) (by decide)
        (startsGap_numSegs _ _ (by decide) _) ?_)
    | (refine numSegs_ok _ (by decide) (startsGap_cons (by decide) _) ?_)

theorem stimLit1Segs_ok : segsOkC stimLit1Segs false := by
  rw [stimLit1Segs]
  repeat first
    | exact trivial
    | (refine segsOkC_cons_gap (by decide) ?_)
    | (refine segsOkC_cons_word (by decide) (by decide) (startsGap_cons (by decide) _) ?_)

theorem stimLit2Segs_ok : segsOkC stimLit2Segs false := by
  rw [stimLit2Segs]
  repeat first
    | exact trivial
    | (refine segsOkC_cons_gap (by decide) ?_)
    | (refine segsOkC_cons_word (by decide) (by decide) (startsGap_cons (by decide) _) ?_)

theorem stimLit3Segs_ok : segsOkC stimLit3Segs true := by
  rw [stimLit3Segs]
  repeat first
    | exact segsOkC_word_end (by decide) (by decide)
    | (refine segsOkC_cons_gap (by decide) ?_)
    | (refine segsOkC_cons_word (by decide) (by decide) (startsGap_cons (by decide) _) ?_)

theorem stimSegs_ok (inputs : List PPort) (n : Int)
    (h : ∀ p ∈ inputs, p.name ≠ [] ∧ ∀ c ∈ p.name, wordChar c = true) :
    segsOkC (stimSegs inputs n) true := by
  rw [stimSegs]
  simp only [List.append_assoc]
  exact segsOkC_append_gap stimLit1Segs_ok (segsOkC_append_gap (zeroSegs_ok inputs h)
    (segsOkC_append_gap stimLit2Segs_ok (segsOkC_append_gap (forSegs_ok n)
      (segsOkC_append_gap (randSegsL_ok inputs h) stimLit3Segs_ok))))

theorem monSegs_ok (nm : Str) (hn : nm ≠ []) (hw : ∀ c ∈ nm, wordChar c = true) :
    segsOkC (monSegs nm) true := by
  rw [monSegs]
  repeat first
    | exact segsOkC_word_end hn hw
    | (refine segsOkC_cons_gap (by decide) ?_)
    | (refine segsOkC_cons_word (by decide) (by decide) (startsGap_cons (by decide) _) ?_)
    | (refine segsOkC_cons_word hn hw (startsGap_cons (by decide) _) ?_)

theorem startsGap_monflat (l : List PPort) (tail : List Seg) (h : startsGap tail) :
    startsGap ((l.map (fun p => monSegs p.name)).flatten ++ tail) := by
  rcases l with _ | ⟨p, rest⟩
  · exact h
  · exact startsGap_cons (by decide) _

theorem monList_ok : ∀ (l : List PPort),
    (∀ p ∈ l, p.name ≠ [] ∧ ∀ c ∈ p.name, wordChar c = true) →
    ∀ {tail : List Seg} {k : Bool}, segsOkC tail k → startsGap tail →
    segsOkC ((l.map (fun p => monSegs p.name)).flatten ++ tail) k := by
  intro l
  induction l with
  | nil => intro _ tail k ht _; exact ht
  | cons p rest ih =>
    intro h tail k ht hs
    simp only [List.map_cons, List.flatten_cons, List.append_assoc]
    exact segsOkC_append_word (monSegs_ok p.name (h p (by simp)).1 (h p (by simp)).2)
      (ih (fun q hq => h q (by simp [hq])) ht hs)
      (startsGap_monflat rest tail hs)

theorem dumpTailSegs_ok (info : ModuleInfo) (hmne : info.name ≠ [])
    (hm : ∀ c ∈ info.name, wordChar c = true) :
    segsOkC [(false, ");\n    ".data), (true, "end".data),
      (false, "\n    \n    \n    ".data), (true, "initial".data), (false, " ".data),
      (true, "begin".data), (false, "\n        $".data), (true, "dumpfile".data),
      (false, "(\"".data), (true, "wave".data), (false, ".".data), (true, "vcd".data),
      (false, "\");\n        $".data), (true, "dumpvars".data), (false, "(".data),
      (true, "0".data), (false, ", ".data), (true, info.name ++ "_tb".data),
      (false, ");\n    ".data), (true, "end".data), (false, "\n\n".data),
      (true, "endmodule".data), (false, "\n".data)] false := by
  repeat first
    | exact trivial
    | (refine segsOkC_cons_gap (by decide) ?_)
    | (refine segsOkC_cons_word (by decide) (by decide) (startsGap_cons (by decide) _) ?_)
  refine segsOkC_cons_word (by simp)
    (word_append hm (by decide : ∀ c ∈ "_tb".data, wordChar c = true))
    (startsGap_cons (by decide) _) ?_
  repeat first
    | exact trivial
    | (refine segsOkC_cons_gap (by decide) ?_)
    | (refine segsOkC_cons_word (by decide) (by decide) (startsGap_cons (by decide) _) ?_)

theorem dumpSegs_ok (info : ModuleInfo) (hmne : info.name ≠ [])
    (hm : ∀ c ∈ info.name, wordChar c = true)
    (hin : ∀ p ∈ info.inputs, p.name ≠ [] ∧ ∀ c ∈ p.name, wordChar c = true)
    (hout : ∀ p ∈ info.outputs, p.name ≠ [] ∧ ∀ c ∈ p.name, wordChar c = true) :
    segsOkC (dumpSegs info) false := by
  rw [dumpSegs]
  simp only [List.append_assoc]
  refine monList_ok info.inputs hin ?_ ?_
  · exact monList_ok info.outputs hout (dumpTailSegs_ok info hmne hm)
      (startsGap_cons (by decide) _)
  · exact startsGap_monflat info.outputs _ (startsGap_cons (by decide) _)

theorem startsGap_dumpSegs (info : ModuleInfo) : startsGap (dumpSegs info) := by
  rw [dumpSegs]
  rcases info.inputs with _ | ⟨p, rest⟩
  · rcases info.outputs with _ | ⟨q, rest2⟩
    · exact startsGap_cons (by decide) _
    · exact startsGap_cons (by decide) _
  · exact startsGap_cons (by decide) _

theorem rdSegs_ok (info : ModuleInfo) (n : Int) (hmne : info.name ≠ [])
    (hm : ∀ c ∈ info.name, wordChar c = true)
    (hin : ∀ p ∈ info.inputs, p.name ≠ [] ∧ ∀ c ∈ p.name, wordChar c = true)
    (hout : ∀ p ∈ info.outputs, p.name ≠ [] ∧ ∀ c ∈ p.name, wordChar c = true)
    (hio : ∀ p ∈ info.inouts, p.name ≠ [] ∧ ∀ c ∈ p.name, wordChar c = true)
    (hpar : ∀ p ∈ info.parameters, (p.name ≠ [] ∧ ∀ c ∈ p.name, wordChar c = true) ∧
      (p.value ≠ [] ∧ ∀ c ∈ p.value, wordChar c = true)) :
    segsOkC (rdSegs info n) false := by
  have hports : ∀ p ∈ info.inputs ++ info.outputs ++ info.inouts,
      p.name ≠ [] ∧ ∀ c ∈ p.name, wordChar c = true := by
    intro p hp
    rcases List.mem_append.mp hp with h2 | h2
    · rcases List.mem_append.mp h2 with h3 | h3
      · exact hin p h3
      · exact hout p h3
    · exact hio p h2
  rw [rdSegs]
  simp only [List.append_assoc]
  refine segsOkC_append_gap (hdrSegs_ok info.name hmne hm) ?_
  refine segsOkC_append_gap (segsOk_flatten ?_) ?_
  · intro x hx
    obtain ⟨p, hpm, rfl⟩ := List.mem_map.mp hx
    exact paramSegs_ok p (hpar p hpm).1.1 (hpar p hpm).1.2 (hpar p hpm).2.1 (hpar p hpm).2.2
  refine segsOkC_append_gap (declSegs_ok _ (by decide) (by decide) _ hin _ (by decide)) ?_
  refine segsOkC_append_gap (declSegs_ok _ (by decide) (by decide) _ hout _ (by decide)) ?_
  refine segsOkC_append_gap (declSegs_ok _ (by decide) (by decide) _ hio _ (by decide)) ?_
  refine segsOkC_append_gap (instSegs_ok info hmne hm (fun p hp => (hpar p hp).1) hports) ?_
  refine segsOkC_append_gap (clockSegs_ok info.inputs hin) ?_
  refine segsOkC_append_gap (resetSegs_ok info.inputs hin) ?_
  exact segsOkC_append_word (stimSegs_ok info.inputs n hin)
    (dumpSegs_ok info hmne hm hin hout) (startsGap_dumpSegs info)

/-! ## C3: keyword counts over the segments -/

/-- The twelve keywords counted by the checker. -/
def kwNames : List Str :=
  ["module".data, "endmodule".data, "begin".data, "end".data, "case".data,
   "casex".data, "casez".data, "endcase".data, "function".data,
   "endfunction".data, "task".data, "endtask".data]

/-- The four keywords that do occur in the generated text. -/
def fourKws : List Str := ["module".data, "endmodule".data, "begin".data, "end".data]

theorem ne_of_not_mem {L : List Str} {kw l : Str} (hkw : kw ∈ L) (hl : l ∉ L) :
    l ≠ kw := fun e => hl (e ▸ hkw)

theorem natStr_not_kw (x : Nat) : natStr x ∉ kwNames := by
  intro hmem
  rcases hx : natStr x with _ | ⟨c, rest⟩
  · exact natStr_ne_nil x hx
  · have hd : c.isDigit = true := natStr_digits x c (by rw [hx]; simp)
    have hk : ∀ k ∈ kwNames, (k.take 1).all (fun d => !d.isDigit) = true := by decide
    have := hk (natStr x) hmem
    rw [hx] at this
    simp [hd] at this

theorem tb_not_kw (m : Str) : m ++ "_tb".data ∉ kwNames := by
  intro hmem
  have hk : ∀ k ∈ kwNames, (k.reverse.take 1).all (fun d => !(d = 'b')) = true := by decide
  have h2 := hk _ hmem
  rw [List.reverse_append] at h2
  simp at h2

theorem wsc_gap (kw g : Str) (l : List Seg) :
    wordSegCount kw ((false, g) :: l) = wordSegCount kw l := by
  simp [wordSegCount, List.filter]

theorem wsc_word (kw w : Str) (l : List Seg) :
    wordSegCount kw ((true, w) :: l) = (if w = kw then 1 else 0) + wordSegCount kw l := by
  by_cases h : w = kw
  · simp [wordSegCount, List.filter, h]
    omega
  · simp [wordSegCount, List.filter, h]

theorem wsc_nil (kw : Str) : wordSegCount kw [] = 0 := rfl

theorem count_zero_of {kw : Str} {l : List Seg}
    (h : ∀ s ∈ l, s.1 = true → s.2 ≠ kw) : wordSegCount kw l = 0 := by
  rw [wordSegCount, List.length_eq_zero]
  rw [List.filter_eq_nil]
  intro s hs
  by_cases h1 : s.1 = true
  · simp [h1, h s hs h1]
  · simp [h1]

/-- Every word of the segment list avoids the keyword list. -/
def NoKw (l : List Seg) : Prop := ∀ s ∈ l, s.1 = true → s.2 ∉ kwNames

theorem NoKw.count_zero {kw : Str} (hkw : kw ∈ kwNames) {l : List Seg} (h : NoKw l) :
    wordSegCount kw l = 0 :=
  count_zero_of (fun s hs h1 => ne_of_not_mem hkw (h s hs h1))

theorem noKw_append {a b : List Seg} (ha : NoKw a) (hb : NoKw b) : NoKw (a ++ b) := by
  intro s hs
  rcases List.mem_append.mp hs with h | h
  · exact ha s h
  · exact hb s h

theorem noKw_flatten {L : List (List Seg)} (h : ∀ x ∈ L, NoKw x) : NoKw L.flatten := by
  intro s hs
  obtain ⟨x, hx, hsx⟩ := List.mem_flatten.mp hs
  exact h x hx s hsx

theorem noKw_joinSegs {sep : Str} {L : List (List Seg)} (h : ∀ x ∈ L, NoKw x) :
    NoKw (joinSegs sep L) := by
  induction L with
  | nil => intro s hs; simp [joinSegs] at hs
  | cons x xs ih =>
    rcases xs with _ | ⟨y, t⟩
    · rw [joinSegs]
      exact h x (by simp)
    · rw [show joinSegs sep (x :: y :: t) = x ++ (false, sep) :: joinSegs sep (y :: t) from rfl]
      intro s hs h1
      rcases List.mem_append.mp hs with h2 | h2
      · exact h x (by simp) s h2 h1
      · rcases List.mem_cons.mp h2 with rfl | h3
        · simp at h1
        · exact ih (fun z hz => h z (by simp [List.mem_cons.mp hz])) s h3 h1

theorem cons_not_kw (c : Char) (t : Str)
    (h : ∀ k ∈ kwNames, (k.take 1).all (fun d => !(d = c)) = true) :
    (c :: t) ∉ kwNames := by
  intro hmem
  have h2 := h (c :: t) hmem
  simp at h2

theorem noKw_paramSegs (p : PParam) (hn : p.name ∉ kwNames) (hv : p.value ∉ kwNames) :
    NoKw (paramSegs p) := by
  intro s hs h1
  rw [paramSegs] at hs
  simp only [List.mem_cons, List.not_mem_nil, or_false] at hs
  casesm* _ ∨ _
  all_goals subst_vars
  all_goals first
    | (exact absurd h1 (by decide))
    | (exact hn)
    | (exact hv)
    | (intro hmem; revert hmem; decide)

theorem noKw_portSegs (kw : Str) (hkw : kw ∉ kwNames) (p : PPort)
    (hn : p.name ∉ kwNames) : NoKw (portSegs kw p) := by
  intro s hs h1
  rw [portSegs] at hs
  by_cases hw : 1 < p.width
  · rw [if_pos hw] at hs
    simp only [List.mem_append, List.mem_cons, List.not_mem_nil, or_false, numSegs] at hs
    casesm* _ ∨ _
    all_goals subst_vars
    all_goals first
      | (exact absurd h1 (by decide))
      | (exact hkw)
      | (exact hn)
      | (exact natStr_not_kw _)
      | (exact cons_not_kw ' ' _ (by decide))
      | (exact cons_not_kw ':' _ (by decide))
      | (intro hmem; revert hmem; decide)
  · rw [if_neg hw] at hs
    simp only [List.mem_append, List.mem_cons, List.not_mem_nil, or_false] at hs
    casesm* _ ∨ _
    all_goals subst_vars
    all_goals first
      | (exact absurd h1 (by decide))
      | (exact hkw)
      | (exact hn)
      | (intro hmem; revert hmem; decide)

theorem noKw_connSegs (nm : Str) (hn : nm ∉ kwNames) : NoKw (connSegs nm) := by
  intro s hs h1
  rw [connSegs] at hs
  simp only [List.mem_cons, List.not_mem_nil, or_false] at hs
  casesm* _ ∨ _
  all_goals subst_vars
  all_goals first
    | (exact absurd h1 (by decide))
    | (exact hn)
    | (intro hmem; revert hmem; decide)

theorem noKw_instSegs (info : ModuleInfo) (hm : info.name ∉ kwNames)
    (hp : ∀ p ∈ info.parameters, p.name ∉ kwNames)
    (hports : ∀ p ∈ info.inputs ++ info.outputs ++ info.inouts, p.name ∉ kwNames) :
    NoKw (instSegs info) := by
  intro s hs h1
  rw [instSegs] at hs
  have hjoinP : ∀ t ∈ joinSegs ",\n".data
      (info.parameters.map (fun p => connSegs p.name)), t.1 = true → t.2 ∉ kwNames :=
    fun t ht h2 => noKw_joinSegs (fun x hx => by
      obtain ⟨q, hq, rfl⟩ := List.mem_map.mp hx
      exact noKw_connSegs q.name (hp q hq)) t ht h2
  have hjoinQ : ∀ t ∈ joinSegs ",\n".data
      ((info.inputs ++ info.outputs ++ info.inouts).map (fun p => connSegs p.name)),
      t.1 = true → t.2 ∉ kwNames :=
    fun t ht h2 => noKw_joinSegs (fun x hx => by
      obtain ⟨q, hq, rfl⟩ := List.mem_map.mp hx
      exact noKw_connSegs q.name (hports q hq)) t ht h2
  by_cases hpar : info.parameters = []
  · rw [if_neg (by simp [hpar])] at hs
    simp only [List.mem_append, List.mem_cons, List.not_mem_nil, or_false] at hs
    casesm* _ ∨ _
    all_goals subst_vars
    all_goals first
      | (exact absurd h1 (by decide))
      | (exact hm)
      | (exact hjoinQ s (by assumption) h1)
      | (intro hmem; revert hmem; decide)
  · rw [if_pos (by simp [hpar])] at hs
    simp only [List.mem_append, List.mem_cons, List.not_mem_nil, or_false] at hs
    casesm* _ ∨ _
    all_goals subst_vars
    all_goals first
      | (exact absurd h1 (by decide))
      | (exact hm)
      | (exact hjoinP s (by assumption) h1)
      | (exact hjoinQ s (by assumption) h1)
      | (intro hmem; revert hmem; decide)

theorem noKw_zeroSegs (inputs : List PPort)
    (h : ∀ p ∈ inputs, p.name ∉ kwNames) : NoKw (zeroSegs inputs) := by
  rw [zeroSegs]
  refine noKw_flatten ?_
  intro x hx
  obtain ⟨p, hpm, hpe⟩ := List.mem_filterMap.mp hx
  split at hpe
  · cases hpe
  · cases hpe
    intro s hs h1
    rw [zeroSegs1] at hs
    simp only [List.mem_cons, List.not_mem_nil, or_false] at hs
    casesm* _ ∨ _
    all_goals subst_vars
    all_goals first
      | (exact absurd h1 (by decide))
      | (exact h p hpm)
      | (intro hmem; revert hmem; decide)

theorem noKw_randSegsL (inputs : List PPort)
    (h : ∀ p ∈ inputs, p.name ∉ kwNames) : NoKw (randSegsL inputs) := by
  rw [randSegsL]
  refine noKw_flatten ?_
  intro x hx
  obtain ⟨p, hpm, hpe⟩ := List.mem_filterMap.mp hx
  split at hpe
  · cases hpe
  · cases hpe
    intro s hs h1
    rw [randSegs1] at hs
    by_cases hw : 1 < p.width
    · rw [if_pos hw] at hs
      simp only [List.mem_append, List.mem_cons, List.not_mem_nil, or_false, numSegs] at hs
      casesm* _ ∨ _
      all_goals subst_vars
      all_goals first
        | (exact absurd h1 (by decide))
        | (exact h p hpm)
        | (exact natStr_not_kw _)
        | (exact cons_not_kw ' ' _ (by decide))
        | (intro hmem; revert hmem; decide)
    · rw [if_neg hw] at hs
      simp only [List.mem_append, List.mem_cons, List.not_mem_nil, or_false] at hs
      casesm* _ ∨ _
      all_goals subst_vars
      all_goals first
        | (exact absurd h1 (by decide))
        | (exact h p hpm)
        | (intro hmem; revert hmem; decide)

theorem noKw_monflat (l : List PPort) (h : ∀ p ∈ l, p.name ∉ kwNames) :
    NoKw ((l.map (fun p => monSegs p.name)).flatten) := by
  refine noKw_flatten ?_
  intro x hx
  obtain ⟨p, hpm, rfl⟩ := List.mem_map.mp hx
  intro s hs h1
  rw [monSegs] at hs
  simp only [List.mem_cons, List.not_mem_nil, or_false] at hs
  casesm* _ ∨ _
  all_goals subst_vars
  all_goals first
    | (exact absurd h1 (by decide))
    | (exact h p hpm)
    | (intro hmem; revert hmem; decide)

/-- Every word is one of the four emitted keywords or not a counted
keyword at all. -/
def Words4 (l : List Seg) : Prop :=
  ∀ s ∈ l, s.1 = true → s.2 ∈ fourKws ∨ s.2 ∉ kwNames

theorem noKw_words4 {l : List Seg} (h : NoKw l) : Words4 l :=
  fun s hs h1 => Or.inr (h s hs h1)

theorem words4_append {a b : List Seg} (ha : Words4 a) (hb : Words4 b) :
    Words4 (a ++ b) := by
  intro s hs
  rcases List.mem_append.mp hs with h | h
  · exact ha s h
  · exact hb s h

theorem words4_hdr (m : Str) (hm : m ∉ kwNames) : Words4 (hdrSegs m) := by
  intro s hs h1
  rw [hdrSegs] at hs
  simp only [List.mem_cons, List.not_mem_nil, or_false] at hs
  casesm* _ ∨ _
  all_goals subst_vars
  all_goals first
    | (exact absurd h1 (by decide))
    | (exact Or.inr (tb_not_kw m))
    | (exact Or.inl (by decide))
    | (exact Or.inr (by decide))

theorem words4_clock (inputs : List PPort)
    (h : ∀ p ∈ inputs, p.name ∉ kwNames) : Words4 (clockSegs inputs) := by
  rw [clockSegs]
  rcases hf : inputs.filter (fun i => isClockName i.name) with _ | ⟨c, rest⟩
  · rw [hf]; intro s hs; simp at hs
  · rw [hf]
    have hc := h c (List.mem_of_mem_filter (by rw [hf]; exact List.mem_cons_self c rest))
    intro s hs h1
    simp only [List.mem_cons, List.not_mem_nil, or_false] at hs
    casesm* _ ∨ _
    all_goals subst_vars
    all_goals first
      | (exact absurd h1 (by decide))
      | (exact Or.inr hc)
      | (exact Or.inl (by decide))
      | (exact Or.inr (by decide))

theorem words4_reset (inputs : List PPort)
    (h : ∀ p ∈ inputs, p.name ∉ kwNames) : Words4 (resetSegs inputs) := by
  rw [resetSegs]
  rcases hf : inputs.filter (fun i => isResetName i.name) with _ | ⟨r, rest⟩
  · rw [hf]; intro s hs; simp at hs
  · rw [hf]
    have hr := h r (List.mem_of_mem_filter (by rw [hf]; exact List.mem_cons_self r rest))
    intro s hs h1
    simp only [List.mem_cons, List.not_mem_nil, or_false] at hs
    casesm* _ ∨ _
    all_goals subst_vars
    all_goals first
      | (exact absurd h1 (by decide))
      | (exact Or.inr hr)
      | (exact Or.inl (by decide))
      | (exact Or.inr (by decide))

theorem words4_forSegs (n : Int) : Words4 (forSegs n) := by
  intro s hs h1
  rw [forSegs] at hs
  simp only [List.mem_append, List.mem_cons, List.not_mem_nil, or_false, numSegs] at hs
  casesm* _ ∨ _
  all_goals subst_vars
  all_goals first
    | (exact absurd h1 (by decide))
    | (exact Or.inr (natStr_not_kw _))
    | (exact Or.inr (cons_not_kw ' ' _ (by decide)))
    | (exact Or.inl (by decide))
    | (exact Or.inr (by decide))

theorem words4_stim (inputs : List PPort) (n : Int)
    (h : ∀ p ∈ inputs, p.name ∉ kwNames) : Words4 (stimSegs inputs n) := by
  rw [stimSegs]
  simp only [List.append_assoc]
  refine words4_append ?_ (words4_append (noKw_words4 (noKw_zeroSegs inputs h))
    (words4_append ?_ (words4_append (words4_forSegs n)
      (words4_append (noKw_words4 (noKw_randSegsL inputs h)) ?_))))
  · intro s hs h1
    rw [stimLit1Segs] at hs
    simp only [List.mem_cons, List.not_mem_nil, or_false] at hs
    casesm* _ ∨ _
    all_goals subst_vars
    all_goals first
      | (exact absurd h1 (by decide))
      | (exact Or.inl (by decide))
      | (exact Or.inr (by decide))
  · intro s hs h1
    rw [stimLit2Segs] at hs
    simp only [List.mem_cons, List.not_mem_nil, or_false] at hs
    casesm* _ ∨ _
    all_goals subst_vars
    all_goals first
      | (exact absurd h1 (by decide))
      | (exact Or.inl (by decide))
      | (exact Or.inr (by decide))
  · intro s hs h1
    rw [stimLit3Segs] at hs
    simp only [List.mem_cons, List.not_mem_nil, or_false] at hs
    casesm* _ ∨ _
    all_goals subst_vars
    all_goals first
      | (exact absurd h1 (by decide))
      | (exact Or.inl (by decide))
      | (exact Or.inr (by decide))

theorem words4_dump (info : ModuleInfo) (hm : info.name ∉ kwNames)
    (hin : ∀ p ∈ info.inputs, p.name ∉ kwNames)
    (hout : ∀ p ∈ info.outputs, p.name ∉ kwNames) : Words4 (dumpSegs info) := by
  rw [dumpSegs]
  simp only [List.append_assoc]
  refine words4_append (noKw_words4 (noKw_monflat info.inputs hin))
    (words4_append (noKw_words4 (noKw_monflat info.outputs hout)) ?_)
  intro s hs h1
  simp only [List.mem_cons, List.not_mem_nil, or_false] at hs
  casesm* _ ∨ _
  all_goals subst_vars
  all_goals first
    | (exact absurd h1 (by decide))
    | (exact Or.inr (tb_not_kw info.name))
    | (exact Or.inl (by decide))
    | (exact Or.inr (by decide))

theorem words4_rdSegs (info : ModuleInfo) (n : Int) (hm : info.name ∉ kwNames)
    (hin : ∀ p ∈ info.inputs, p.name ∉ kwNames)
    (hout : ∀ p ∈ info.outputs, p.name ∉ kwNames)
    (hio : ∀ p ∈ info.inouts, p.name ∉ kwNames)
    (hpar : ∀ p ∈ info.parameters, p.name ∉ kwNames ∧ p.value ∉ kwNames) :
    Words4 (rdSegs info n) := by
  have hports : ∀ p ∈ info.inputs ++ info.outputs ++ info.inouts, p.name ∉ kwNames := by
    intro p hp
    rcases List.mem_append.mp hp with h2 | h2
    · rcases List.mem_append.mp h2 with h3 | h3
      · exact hin p h3
      · exact hout p h3
    · exact hio p h2
  rw [rdSegs]
  simp only [List.append_assoc]
  refine words4_append (words4_hdr info.name hm) ?_
  refine words4_append (noKw_words4 (noKw_flatten ?_)) ?_
  · intro x hx
    obtain ⟨p, hpm, rfl⟩ := List.mem_map.mp hx
    exact noKw_paramSegs p (hpar p hpm).1 (hpar p hpm).2
  refine words4_append (noKw_words4 ?_) ?_
  · rw [inDeclSegs]
    intro s hs h1
    rcases List.mem_cons.mp hs with rfl | h2
    · cases h1
    · exact noKw_flatten (fun x hx => by
        obtain ⟨p, hpm, rfl⟩ := List.mem_map.mp hx
        exact noKw_portSegs _ (by decide) p (hin p hpm)) s h2 h1
  refine words4_append (noKw_words4 ?_) ?_
  · rw [outDeclSegs]
    intro s hs h1
    rcases List.mem_cons.mp hs with rfl | h2
    · cases h1
    · exact noKw_flatten (fun x hx => by
        obtain ⟨p, hpm, rfl⟩ := List.mem_map.mp hx
        exact noKw_portSegs _ (by decide) p (hout p hpm)) s h2 h1
  refine words4_append (noKw_words4 ?_) ?_
  · rw [ioDeclSegs]
    intro s hs h1
    rcases List.mem_cons.mp hs with rfl | h2
    · cases h1
    · exact noKw_flatten (fun x hx => by
        obtain ⟨p, hpm, rfl⟩ := List.mem_map.mp hx
        exact noKw_portSegs _ (by decide) p (hio p hpm)) s h2 h1
  refine words4_append (noKw_words4 (noKw_instSegs info hm
    (fun p hp => (hpar p hp).1) hports)) ?_
  refine words4_append (words4_clock info.inputs hin) ?_
  refine words4_append (words4_reset info.inputs hin) ?_
  exact words4_append (words4_stim info.inputs n hin) (words4_dump info hm hin hout)

theorem count_zero_kw {kw : Str} (hkw : kw ∈ kwNames) (hkw4 : kw ∉ fourKws)
    {l : List Seg} (h : Words4 l) : wordSegCount kw l = 0 := by
  refine count_zero_of ?_
  intro s hs h1 e
  rcases h s hs h1 with h2 | h2
  · exact hkw4 (e ▸ h2)
  · exact h2 (e ▸ hkw)

theorem hdr_counts (m : Str) :
    wordSegCount "module".data (hdrSegs m) = 1 ∧
    wordSegCount "endmodule".data (hdrSegs m) = 0 ∧
    wordSegCount "begin".data (hdrSegs m) = 0 ∧
    wordSegCount "end".data (hdrSegs m) = 0 := by
  have h1 := ne_of_not_mem (show "module".data ∈ kwNames by decide) (tb_not_kw m)
  have h2 := ne_of_not_mem (show "endmodule".data ∈ kwNames by decide) (tb_not_kw m)
  have h3 := ne_of_not_mem (show "begin".data ∈ kwNames by decide) (tb_not_kw m)
  have h4 := ne_of_not_mem (show "end".data ∈ kwNames by decide) (tb_not_kw m)
  refine ⟨?_, ?_, ?_, ?_⟩ <;> simp [hdrSegs, wsc_word, wsc_gap, wsc_nil, h1, h2, h3, h4]

theorem clock_counts (inputs : List PPort)
    (h : ∀ p ∈ inputs, p.name ∉ kwNames) :
    wordSegCount "module".data (clockSegs inputs) = 0 ∧
    wordSegCount "endmodule".data (clockSegs inputs) = 0 ∧
    wordSegCount "begin".data (clockSegs inputs) =
      wordSegCount "end".data (clockSegs inputs) := by
  rw [clockSegs]
  rcases hf : inputs.filter (fun i => isClockName i.name) with _ | ⟨c, rest⟩
  · rw [hf]
    exact ⟨rfl, rfl, rfl⟩
  · rw [hf]
    have hc := h c (List.mem_of_mem_filter (by rw [hf]; exact List.mem_cons_self c rest))
    have h1 := ne_of_not_mem (show "module".data ∈ kwNames by decide) hc
    have h2 := ne_of_not_mem (show "endmodule".data ∈ kwNames by decide) hc
    have h3 := ne_of_not_mem (show "begin".data ∈ kwNames by decide) hc
    have h4 := ne_of_not_mem (show "end".data ∈ kwNames by decide) hc
    refine ⟨?_, ?_, ?_⟩ <;> simp [wsc_word, wsc_gap, wsc_nil, h1, h2, h3, h4]

theorem reset_counts (inputs : List PPort)
    (h : ∀ p ∈ inputs, p.name ∉ kwNames) :
    wordSegCount "module".data (resetSegs inputs) = 0 ∧
    wordSegCount "endmodule".data (resetSegs inputs) = 0 ∧
    wordSegCount "begin".data (resetSegs inputs) =
      wordSegCount "end".data (resetSegs inputs) := by
  rw [resetSegs]
  rcases hf : inputs.filter (fun i => isResetName i.name) with _ | ⟨r, rest⟩
  · rw [hf]
    exact ⟨rfl, rfl, rfl⟩
  · rw [hf]
    have hr := h r (List.mem_of_mem_filter (by rw [hf]; exact List.mem_cons_self r rest))
    have h1 := ne_of_not_mem (show "module".data ∈ kwNames by decide) hr
    have h2 := ne_of_not_mem (show "endmodule".data ∈ kwNames by decide) hr
    have h3 := ne_of_not_mem (show "begin".data ∈ kwNames by decide) hr
    have h4 := ne_of_not_mem (show "end".data ∈ kwNames by decide) hr
    refine ⟨?_, ?_, ?_⟩ <;> simp [wsc_word, wsc_gap, wsc_nil, h1, h2, h3, h4]

theorem for_counts (n : Int) :
    wordSegCount "module".data (forSegs n) = 0 ∧
    wordSegCount "endmodule".data (forSegs n) = 0 ∧
    wordSegCount "begin".data (forSegs n) = 1 ∧
    wordSegCount "end".data (forSegs n) = 0 := by
  have h1 := ne_of_not_mem (show "module".data ∈ kwNames by decide) (natStr_not_kw n.natAbs)
  have h2 := ne_of_not_mem (show "endmodule".data ∈ kwNames by decide) (natStr_not_kw n.natAbs)
  have h3 := ne_of_not_mem (show "begin".data ∈ kwNames by decide) (natStr_not_kw n.natAbs)
  have h4 := ne_of_not_mem (show "end".data ∈ kwNames by decide) (natStr_not_kw n.natAbs)
  refine ⟨?_, ?_, ?_, ?_⟩ <;>
    simp [forSegs, numSegs, wsc_word, wsc_gap, wsc_nil, wordSegCount_append, h1, h2, h3, h4]


theorem noKw_declSegs (kw2 : Str) (hkw2 : kw2 ∉ kwNames) (l : List PPort)
    (h : ∀ p ∈ l, p.name ∉ kwNames) (g : Str) :
    NoKw ((false, g) :: (l.map (portSegs kw2)).flatten) := by
  intro s hs h1
  rcases List.mem_cons.mp hs with rfl | h2
  · cases h1
  · exact noKw_flatten (fun x hx => by
      obtain ⟨p, hpm, rfl⟩ := List.mem_map.mp hx
      exact noKw_portSegs _ hkw2 p (h p hpm)) s h2 h1

theorem noKw_inDeclSegs (l : List PPort) (h : ∀ p ∈ l, p.name ∉ kwNames) :
    NoKw (inDeclSegs l) :=
  noKw_declSegs _ (by decide) l h _

theorem noKw_outDeclSegs (l : List PPort) (h : ∀ p ∈ l, p.name ∉ kwNames) :
    NoKw (outDeclSegs l) :=
  noKw_declSegs _ (by decide) l h _

theorem noKw_ioDeclSegs (l : List PPort) (h : ∀ p ∈ l, p.name ∉ kwNames) :
    NoKw (ioDeclSegs l) :=
  noKw_declSegs _ (by decide) l h _

theorem stim_counts (inputs : List PPort) (n : Int)
    (h : ∀ p ∈ inputs, p.name ∉ kwNames) :
    wordSegCount "module".data (stimSegs inputs n) = 0 ∧
    wordSegCount "endmodule".data (stimSegs inputs n) = 0 ∧
    wordSegCount "begin".data (stimSegs inputs n) = 3 ∧
    wordSegCount "end".data (stimSegs inputs n) = 2 := by
  have hzm := NoKw.count_zero (show "module".data ∈ kwNames by decide) (noKw_zeroSegs inputs h)
  have hze := NoKw.count_zero (show "endmodule".data ∈ kwNames by decide) (noKw_zeroSegs inputs h)
  have hzb := NoKw.count_zero (show "begin".data ∈ kwNames by decide) (noKw_zeroSegs inputs h)
  have hzd := NoKw.count_zero (show "end".data ∈ kwNames by decide) (noKw_zeroSegs inputs h)
  have hrm := NoKw.count_zero (show "module".data ∈ kwNames by decide) (noKw_randSegsL inputs h)
  have hre := NoKw.count_zero (show "endmodule".data ∈ kwNames by decide) (noKw_randSegsL inputs h)
  have hrb := NoKw.count_zero (show "begin".data ∈ kwNames by decide) (noKw_randSegsL inputs h)
  have hrd := NoKw.count_zero (show "end".data ∈ kwNames by decide) (noKw_randSegsL inputs h)
  have hf := for_counts n
  refine ⟨?_, ?_, ?_, ?_⟩
  · rw [stimSegs]
    simp only [wordSegCount_append]
    rw [hzm, hrm, hf.1]
    decide
  · rw [stimSegs]
    simp only [wordSegCount_append]
    rw [hze, hre, hf.2.1]
    decide
  · rw [stimSegs]
    simp only [wordSegCount_append]
    rw [hzb, hrb, hf.2.2.1]
    decide
  · rw [stimSegs]
    simp only [wordSegCount_append]
    rw [hzd, hrd, hf.2.2.2]
    decide

theorem dump_counts (info : ModuleInfo)
    (hin : ∀ p ∈ info.inputs, p.name ∉ kwNames)
    (hout : ∀ p ∈ info.outputs, p.name ∉ kwNames) :
    wordSegCount "module".data (dumpSegs info) = 0 ∧
    wordSegCount "endmodule".data (dumpSegs info) = 1 ∧
    wordSegCount "begin".data (dumpSegs info) = 1 ∧
    wordSegCount "end".data (dumpSegs info) = 2 := by
  have h1 := ne_of_not_mem (show "module".data ∈ kwNames by decide) (tb_not_kw info.name)
  have h2 := ne_of_not_mem (show "endmodule".data ∈ kwNames by decide) (tb_not_kw info.name)
  have h3 := ne_of_not_mem (show "begin".data ∈ kwNames by decide) (tb_not_kw info.name)
  have h4 := ne_of_not_mem (show "end".data ∈ kwNames by decide) (tb_not_kw info.name)
  have him := NoKw.count_zero (show "module".data ∈ kwNames by decide) (noKw_monflat info.inputs hin)
  have hie := NoKw.count_zero (show "endmodule".data ∈ kwNames by decide) (noKw_monflat info.inputs hin)
  have hib := NoKw.count_zero (show "begin".data ∈ kwNames by decide) (noKw_monflat info.inputs hin)
  have hid := NoKw.count_zero (show "end".data ∈ kwNames by decide) (noKw_monflat info.inputs hin)
  have hom := NoKw.count_zero (show "module".data ∈ kwNames by decide) (noKw_monflat info.outputs hout)
  have hoe := NoKw.count_zero (show "endmodule".data ∈ kwNames by decide) (noKw_monflat info.outputs hout)
  have hob := NoKw.count_zero (show "begin".data ∈ kwNames by decide) (noKw_monflat info.outputs hout)
  have hod := NoKw.count_zero (show "end".data ∈ kwNames by decide) (noKw_monflat info.outputs hout)
  refine ⟨?_, ?_, ?_, ?_⟩ <;> rw [dumpSegs] <;> simp only [wordSegCount_append]
  · rw [him, hom]
    simp [wsc_word, wsc_gap, wsc_nil, h1]
  · rw [hie, hoe]
    simp [wsc_word, wsc_gap, wsc_nil, h2]
  · rw [hib, hob]
    simp [wsc_word, wsc_gap, wsc_nil, h3]
  · rw [hid, hod]
    simp [wsc_word, wsc_gap, wsc_nil, h4]

theorem rdSegs_counts (info : ModuleInfo) (n : Int) (hm : info.name ∉ kwNames)
    (hin : ∀ p ∈ info.inputs, p.name ∉ kwNames)
    (hout : ∀ p ∈ info.outputs, p.name ∉ kwNames)
    (hio : ∀ p ∈ info.inouts, p.name ∉ kwNames)
    (hpar : ∀ p ∈ info.parameters, p.name ∉ kwNames ∧ p.value ∉ kwNames) :
    wordSegCount "module".data (rdSegs info n) = 1 ∧
    wordSegCount "endmodule".data (rdSegs info n) = 1 ∧
    wordSegCount "begin".data (rdSegs info n) =
      wordSegCount "end".data (rdSegs info n) := by
  have hports : ∀ p ∈ info.inputs ++ info.outputs ++ info.inouts, p.name ∉ kwNames := by
    intro p hp
    rcases List.mem_append.mp hp with h2 | h2
    · rcases List.mem_append.mp h2 with h3 | h3
      · exact hin p h3
      · exact hout p h3
    · exact hio p h2
  have hparamsNoKw : NoKw ((info.parameters.map paramSegs).flatten) :=
    noKw_flatten (fun x hx => by
      obtain ⟨p, hpm, rfl⟩ := List.mem_map.mp hx
      exact noKw_paramSegs p (hpar p hpm).1 (hpar p hpm).2)
  have hinstNoKw := noKw_instSegs info hm (fun p hp => (hpar p hp).1) hports
  have hhd := hdr_counts info.name
  have hck := clock_counts info.inputs hin
  have hrs := reset_counts info.inputs hin
  have hst := stim_counts info.inputs n hin
  have hdp := dump_counts info hin hout
  refine ⟨?_, ?_, ?_⟩ <;> rw [rdSegs] <;> simp only [wordSegCount_append]
  · rw [hhd.1, hck.1, hrs.1, hst.1, hdp.1,
      NoKw.count_zero (show "module".data ∈ kwNames by decide) hparamsNoKw,
      NoKw.count_zero (show "module".data ∈ kwNames by decide)
        (noKw_inDeclSegs _ hin),
      NoKw.count_zero (show "module".data ∈ kwNames by decide)
        (noKw_outDeclSegs _ hout),
      NoKw.count_zero (show "module".data ∈ kwNames by decide)
        (noKw_ioDeclSegs _ hio),
      NoKw.count_zero (show "module".data ∈ kwNames by decide) hinstNoKw]
  · rw [hhd.2.1, hck.2.1, hrs.2.1, hst.2.1, hdp.2.1,
      NoKw.count_zero (show "endmodule".data ∈ kwNames by decide) hparamsNoKw,
      NoKw.count_zero (show "endmodule".data ∈ kwNames by decide)
        (noKw_inDeclSegs _ hin),
      NoKw.count_zero (show "endmodule".data ∈ kwNames by decide)
        (noKw_outDeclSegs _ hout),
      NoKw.count_zero (show "endmodule".data ∈ kwNames by decide)
        (noKw_ioDeclSegs _ hio),
      NoKw.count_zero (show "endmodule".data ∈ kwNames by decide) hinstNoKw]
  · rw [hhd.2.2.1, hhd.2.2.2, hst.2.2.1, hst.2.2.2, hdp.2.2.1, hdp.2.2.2,
      NoKw.count_zero (show "begin".data ∈ kwNames by decide) hparamsNoKw,
      NoKw.count_zero (show "end".data ∈ kwNames by decide) hparamsNoKw,
      NoKw.count_zero (show "begin".data ∈ kwNames by decide)
        (noKw_inDeclSegs _ hin),
      NoKw.count_zero (show "end".data ∈ kwNames by decide)
        (noKw_inDeclSegs _ hin),
      NoKw.count_zero (show "begin".data ∈ kwNames by decide)
        (noKw_outDeclSegs _ hout),
      NoKw.count_zero (show "end".data ∈ kwNames by decide)
        (noKw_outDeclSegs _ hout),
      NoKw.count_zero (show "begin".data ∈ kwNames by decide)
        (noKw_ioDeclSegs _ hio),
      NoKw.count_zero (show "end".data ∈ kwNames by decide)
        (noKw_ioDeclSegs _ hio),
      NoKw.count_zero (show "begin".data ∈ kwNames by decide) hinstNoKw,
      NoKw.count_zero (show "end".data ∈ kwNames by decide) hinstNoKw,
      hck.2.2, hrs.2.2]

theorem segPairs_nil : segPairs [] = [] := rfl

theorem segPairs_gap (g : Str) (rest : List Seg) :
    segPairs ((false, g) :: rest) = segPairs rest := rfl

theorem segPairs_word (w : Str) (rest : List Seg) :
    segPairs ((true, w) :: rest) = (w, (collectGap rest).1) :: segPairs rest := rfl

theorem collectGap_nil : collectGap [] = ([], []) := rfl

theorem collectGap_gap (g : Str) (rest : List Seg) :
    collectGap ((false, g) :: rest) =
      (g ++ (collectGap rest).1, (collectGap rest).2) := rfl

theorem collectGap_word (w : Str) (rest : List Seg) :
    collectGap ((true, w) :: rest) = ([], (true, w) :: rest) := rfl

theorem hmi_skip (w g : Str) (rest : List (Str × Str))
    (h : hasModuleIdent rest = true) : hasModuleIdent ((w, g) :: rest) = true := by
  rw [hasModuleIdent]
  simp [h]

theorem hmi_here (g : Str) (p : Str × Str) (rest : List (Str × Str))
    (hg1 : g ≠ []) (hg2 : g.all (fun c => spaceChar c) = true) :
    hasModuleIdent (("module".data, g) :: p :: rest) = true := by
  rw [hasModuleIdent]
  simp [hg1, hg2]

theorem filter_len_mono {α : Type} (p q : α → Bool)
    (h : ∀ a, p a = true → q a = true) :
    ∀ l : List α, (List.filter p l).length ≤ (List.filter q l).length
  | [] => le_refl _
  | a :: l => by
    by_cases hp : p a = true
    · rw [List.filter_cons_of_pos hp, List.filter_cons_of_pos (h a hp)]
      simpa using filter_len_mono p q h l
    · rw [List.filter_cons_of_neg (by simpa using hp)]
      refine le_trans (filter_len_mono p q h l) ?_
      by_cases hq : q a = true
      · rw [List.filter_cons_of_pos hq]
        exact Nat.le_succ _
      · rw [List.filter_cons_of_neg (by simpa using hq)]

theorem countKw_flatten (kw : Str) (l : List Seg) (h : segsOkC l false) :
    countKw kw (flattenSegs l) = wordSegCount kw l := by
  rw [countKw, alt_flattenSegs l h]
  exact segPairs_count kw l

/-- Balanced text for a bracket pair: zero net balance and no prefix goes
negative. -/
abbrev Bal0 (o c : Char) (s : Str) : Prop :=
  charBal o c s = 0 ∧ pminBal o c s = 0

theorem Bal0.app {o c : Char} {a b : Str} (ha : Bal0 o c a) (hb : Bal0 o c b) :
    Bal0 o c (a ++ b) := by
  refine ⟨?_, ?_⟩
  · rw [charBal_append, ha.1, hb.1]
    omega
  · rw [pminBal_append, ha.2, ha.1, hb.2]
    simp

theorem bal0_chars {o c : Char} {s : Str} (h : ∀ ch ∈ s, ch ≠ o ∧ ch ≠ c) :
    Bal0 o c s := bal_neutral o c s h

theorem bal0_word {o c : Char} (ho : wordChar o = false) (hc : wordChar c = false)
    {w : Str} (hw : ∀ x ∈ w, wordChar x = true) : Bal0 o c w :=
  bal0_chars (fun ch hch => ⟨word_ne (hw ch hch) ho, word_ne (hw ch hch) hc⟩)

theorem bal0_natStr {o c : Char} (ho : wordChar o = false)
    (hc : wordChar c = false) (n : Nat) : Bal0 o c (natStr n) :=
  bal0_word ho hc (fun x hx => digit_word (natStr_digits n x hx))

theorem bal0_intStr {o c : Char} (ho : wordChar o = false) (hc : wordChar c = false)
    (hmo : o ≠ '-') (hmc : c ≠ '-') (i : Int) : Bal0 o c (intStr i) := by
  refine bal0_chars (fun ch hch => ?_)
  rcases intStr_chars i ch hch with h | rfl
  · exact ⟨word_ne (digit_word h) ho, word_ne (digit_word h) hc⟩
  · exact ⟨fun e => hmo e.symm, fun e => hmc e.symm⟩

theorem bal0_flattenSegs {o c : Char} : ∀ {l : List Seg},
    (∀ s ∈ l, Bal0 o c s.2) → Bal0 o c (flattenSegs l)
  | [], _ => ⟨rfl, rfl⟩
  | s :: rest, h => by
    rw [flattenSegs_cons]
    exact Bal0.app (h s (by simp))
      (bal0_flattenSegs (fun t ht => h t (by simp [ht])))

theorem charBal_eq_proj (o c : Char) :
    ∀ s : Str, charBal o c s = charBal o c (s.filter (fun ch => ch = o || ch = c))
  | [] => rfl
  | ch :: r => by
    by_cases h : (ch = o || ch = c) = true
    · rw [List.filter_cons, if_pos h, charBal, charBal, charBal_eq_proj o c r]
    · rw [List.filter_cons, if_neg h, charBal, charBal_eq_proj o c r,
        balDelta]
      simp only [Bool.or_eq_true, decide_eq_true_eq, not_or] at h
      rw [if_neg h.1, if_neg h.2]
      omega

theorem pminBal_eq_proj (o c : Char) :
    ∀ s : Str, pminBal o c s = pminBal o c (s.filter (fun ch => ch = o || ch = c))
  | [] => rfl
  | ch :: r => by
    by_cases h : (ch = o || ch = c) = true
    · rw [List.filter_cons, if_pos h, pminBal, pminBal, pminBal_eq_proj o c r]
    · rw [List.filter_cons, if_neg h, pminBal, pminBal_eq_proj o c r,
        balDelta]
      simp only [Bool.or_eq_true, decide_eq_true_eq, not_or] at h
      rw [if_neg h.1, if_neg h.2]
      have := pminBal_nonpos o c (r.filter (fun ch => ch = o || ch = c))
      omega

theorem proj_word_nil {o c : Char} (ho : wordChar o = false) (hc : wordChar c = false)
    {w : Str} (hw : ∀ x ∈ w, wordChar x = true) :
    w.filter (fun ch => ch = o || ch = c) = [] := by
  rw [List.filter_eq_nil]
  intro ch hch
  simp only [Bool.or_eq_true, decide_eq_true_eq, not_or]
  exact ⟨word_ne (hw ch hch) ho, word_ne (hw ch hch) hc⟩

theorem proj_natStr_nil {o c : Char} (ho : wordChar o = false)
    (hc : wordChar c = false) (n : Nat) :
    (natStr n).filter (fun ch => ch = o || ch = c) = [] :=
  proj_word_nil ho hc (fun x hx => digit_word (natStr_digits n x hx))

theorem proj_intStr_nil {o c : Char} (ho : wordChar o = false) (hc : wordChar c = false)
    (hmo : o ≠ '-') (hmc : c ≠ '-') (i : Int) :
    (intStr i).filter (fun ch => ch = o || ch = c) = [] := by
  rw [List.filter_eq_nil]
  intro ch hch
  simp only [Bool.or_eq_true, decide_eq_true_eq, not_or]
  rcases intStr_chars i ch hch with h | rfl
  · exact ⟨word_ne (digit_word h) ho, word_ne (digit_word h) hc⟩
  · exact ⟨fun e => hmo e.symm, fun e => hmc e.symm⟩

theorem bal_proj {o c : Char} {s t : Str}
    (h : s.filter (fun ch => ch = o || ch = c) = t) :
    charBal o c s = charBal o c t ∧ pminBal o c s = pminBal o c t := by
  rw [charBal_eq_proj, pminBal_eq_proj, h]
  exact ⟨rfl, rfl⟩

theorem bal0_proj {o c : Char} {s : Str}
    (h : Bal0 o c (s.filter (fun ch => ch = o || ch = c))) : Bal0 o c s := by
  rw [Bal0, charBal_eq_proj, pminBal_eq_proj]
  exact h

theorem projP_word {w : Str} (hw : ∀ x ∈ w, wordChar x = true) :
    w.filter (fun ch => ch = '(' || ch = ')') = [] :=
  proj_word_nil (by decide) (by decide) hw

theorem projB_word {w : Str} (hw : ∀ x ∈ w, wordChar x = true) :
    w.filter (fun ch => ch = '[' || ch = ']') = [] :=
  proj_word_nil (by decide) (by decide) hw

theorem projP_natStr (n : Nat) :
    (natStr n).filter (fun ch => ch = '(' || ch = ')') = [] :=
  proj_natStr_nil (by decide) (by decide) n

theorem projB_natStr (n : Nat) :
    (natStr n).filter (fun ch => ch = '[' || ch = ']') = [] :=
  proj_natStr_nil (by decide) (by decide) n

theorem projP_intStr (i : Int) :
    (intStr i).filter (fun ch => ch = '(' || ch = ')') = [] :=
  proj_intStr_nil (by decide) (by decide) (by decide) (by decide) i

theorem projB_intStr (i : Int) :
    (intStr i).filter (fun ch => ch = '[' || ch = ']') = [] :=
  proj_intStr_nil (by decide) (by decide) (by decide) (by decide) i

/-- Balanced for both bracket pairs checked by `check_syntax`. -/
abbrev BalOK (s : Str) : Prop := Bal0 '(' ')' s ∧ Bal0 '[' ']' s

theorem balOK_app {a b : Str} (ha : BalOK a) (hb : BalOK b) : BalOK (a ++ b) :=
  ⟨ha.1.app hb.1, ha.2.app hb.2⟩

theorem balok_word {w : Str} (hw : ∀ x ∈ w, wordChar x = true) : BalOK w :=
  ⟨bal0_word (by decide) (by decide) hw, bal0_word (by decide) (by decide) hw⟩

theorem bal0_flatten {o c : Char} : ∀ {ll : List (List Seg)},
    (∀ x ∈ ll, Bal0 o c (flattenSegs x)) → Bal0 o c (flattenSegs ll.flatten)
  | [], _ => ⟨rfl, rfl⟩
  | x :: t, h => by
    rw [List.flatten_cons, flattenSegs_append]
    exact (h x (by simp)).app (bal0_flatten (fun y hy => h y (by simp [hy])))

theorem balok_flatten {ll : List (List Seg)}
    (h : ∀ x ∈ ll, BalOK (flattenSegs x)) : BalOK (flattenSegs ll.flatten) :=
  ⟨bal0_flatten (fun x hx => (h x hx).1), bal0_flatten (fun x hx => (h x hx).2)⟩

theorem bal0_joinSegs {o c : Char} {sep : Str} (hsep : Bal0 o c sep) :
    ∀ L : List (List Seg), (∀ x ∈ L, Bal0 o c (flattenSegs x)) →
      Bal0 o c (flattenSegs (joinSegs sep L))
  | [], _ => ⟨rfl, rfl⟩
  | [x], h => h x (by simp)
  | x :: y :: xs, h => by
    rw [show joinSegs sep (x :: y :: xs) = x ++ (false, sep) :: joinSegs sep (y :: xs)
        from rfl,
      flattenSegs_append, flattenSegs_cons]
    exact (h x (by simp)).app
      (hsep.app (bal0_joinSegs hsep (y :: xs) (fun t ht => h t (by simp [ht]))))

theorem balok_joinSegs {sep : Str} (hsep : BalOK sep) {L : List (List Seg)}
    (h : ∀ x ∈ L, BalOK (flattenSegs x)) : BalOK (flattenSegs (joinSegs sep L)) :=
  ⟨bal0_joinSegs hsep.1 L (fun x hx => (h x hx).1),
   bal0_joinSegs hsep.2 L (fun x hx => (h x hx).2)⟩

theorem balok_hdr (m : Str) (hm : ∀ c ∈ m, wordChar c = true) :
    BalOK (flattenSegs (hdrSegs m)) := by
  rw [hdrSegs]
  simp only [flattenSegs_cons, flattenSegs_nil, List.append_nil, List.append_assoc]
  constructor
  · refine bal0_proj ?_
    simp only [List.filter_append, projP_word hm, List.nil_append, List.append_nil]
    decide
  · refine bal0_proj ?_
    simp only [List.filter_append, projB_word hm, List.nil_append, List.append_nil]
    decide

theorem balok_param (p : PParam) (hn : ∀ c ∈ p.name, wordChar c = true)
    (hv : ∀ c ∈ p.value, wordChar c = true) :
    BalOK (flattenSegs (paramSegs p)) := by
  rw [paramSegs]
  simp only [flattenSegs_cons, flattenSegs_nil, List.append_nil, List.append_assoc]
  constructor
  · refine bal0_proj ?_
    simp only [List.filter_append, projP_word hn, projP_word hv, List.nil_append,
      List.append_nil]
    decide
  · refine bal0_proj ?_
    simp only [List.filter_append, projB_word hn, projB_word hv, List.nil_append,
      List.append_nil]
    decide

theorem balok_port (kw : Str) (p : PPort) (hkw : ∀ c ∈ kw, wordChar c = true)
    (hn : ∀ c ∈ p.name, wordChar c = true) :
    BalOK (flattenSegs (portSegs kw p)) := by
  rw [portSegs]
  by_cases h : 1 < p.width
  · rw [if_pos h]
    simp only [flattenSegs_append, flattenSegs_cons, flattenSegs_nil,
      flattenSegs_numSegs, List.append_nil, List.append_assoc]
    constructor
    · refine bal0_proj ?_
      simp only [List.filter_append, projP_word hkw, projP_word hn, projP_intStr,
        List.nil_append, List.append_nil]
      decide
    · refine bal0_proj ?_
      simp only [List.filter_append, projB_word hkw, projB_word hn, projB_intStr,
        List.nil_append, List.append_nil]
      decide
  · rw [if_neg h]
    simp only [flattenSegs_append, flattenSegs_cons, flattenSegs_nil,
      List.append_nil, List.append_assoc]
    constructor
    · refine bal0_proj ?_
      simp only [List.filter_append, projP_word hkw, projP_word hn,
        List.nil_append, List.append_nil]
      decide
    · refine bal0_proj ?_
      simp only [List.filter_append, projB_word hkw, projB_word hn,
        List.nil_append, List.append_nil]
      decide

theorem balok_inDecl (l : List PPort) (h : ∀ p ∈ l, ∀ c ∈ p.name, wordChar c = true) :
    BalOK (flattenSegs (inDeclSegs l)) := by
  rw [inDeclSegs, flattenSegs_cons]
  refine balOK_app ⟨by decide, by decide⟩ (balok_flatten ?_)
  intro x hx
  obtain ⟨p, hpm, rfl⟩ := List.mem_map.mp hx
  exact balok_port _ p (by decide) (h p hpm)

theorem balok_outDecl (l : List PPort) (h : ∀ p ∈ l, ∀ c ∈ p.name, wordChar c = true) :
    BalOK (flattenSegs (outDeclSegs l)) := by
  rw [outDeclSegs, flattenSegs_cons]
  refine balOK_app ⟨by decide, by decide⟩ (balok_flatten ?_)
  intro x hx
  obtain ⟨p, hpm, rfl⟩ := List.mem_map.mp hx
  exact balok_port _ p (by decide) (h p hpm)

theorem balok_ioDecl (l : List PPort) (h : ∀ p ∈ l, ∀ c ∈ p.name, wordChar c = true) :
    BalOK (flattenSegs (ioDeclSegs l)) := by
  rw [ioDeclSegs, flattenSegs_cons]
  refine balOK_app ⟨by decide, by decide⟩ (balok_flatten ?_)
  intro x hx
  obtain ⟨p, hpm, rfl⟩ := List.mem_map.mp hx
  exact balok_port _ p (by decide) (h p hpm)

theorem balok_conn (nm : Str) (hn : ∀ c ∈ nm, wordChar c = true) :
    BalOK (flattenSegs (connSegs nm)) := by
  rw [connSegs]
  simp only [flattenSegs_cons, flattenSegs_nil, List.append_nil, List.append_assoc]
  constructor
  · refine bal0_proj ?_
    simp only [List.filter_append, projP_word hn, List.nil_append, List.append_nil]
    decide
  · refine bal0_proj ?_
    simp only [List.filter_append, projB_word hn, List.nil_append, List.append_nil]
    decide

theorem balok_clock (inputs : List PPort)
    (h : ∀ p ∈ inputs, ∀ c ∈ p.name, wordChar c = true) :
    BalOK (flattenSegs (clockSegs inputs)) := by
  rw [clockSegs]
  rcases hf : inputs.filter (fun i => isClockName i.name) with _ | ⟨c, rest⟩
  · rw [hf]
    exact ⟨⟨rfl, rfl⟩, ⟨rfl, rfl⟩⟩
  · rw [hf]
    have hc := h c (List.mem_of_mem_filter (by rw [hf]; exact List.mem_cons_self c rest))
    simp only [flattenSegs_cons, flattenSegs_nil, List.append_nil, List.append_assoc]
    constructor
    · refine bal0_proj ?_
      simp only [List.filter_append, projP_word hc, List.nil_append, List.append_nil]
      decide
    · refine bal0_proj ?_
      simp only [List.filter_append, projB_word hc, List.nil_append, List.append_nil]
      decide

theorem balok_reset (inputs : List PPort)
    (h : ∀ p ∈ inputs, ∀ c ∈ p.name, wordChar c = true) :
    BalOK (flattenSegs (resetSegs inputs)) := by
  rw [resetSegs]
  rcases hf : inputs.filter (fun i => isResetName i.name) with _ | ⟨r, rest⟩
  · rw [hf]
    exact ⟨⟨rfl, rfl⟩, ⟨rfl, rfl⟩⟩
  · rw [hf]
    have hr := h r (List.mem_of_mem_filter (by rw [hf]; exact List.mem_cons_self r rest))
    simp only [flattenSegs_cons, flattenSegs_nil, List.append_nil, List.append_assoc]
    constructor
    · refine bal0_proj ?_
      simp only [List.filter_append, projP_word hr, List.nil_append, List.append_nil]
      decide
    · refine bal0_proj ?_
      simp only [List.filter_append, projB_word hr, List.nil_append, List.append_nil]
      decide

theorem balok_zero1 (nm : Str) (hn : ∀ c ∈ nm, wordChar c = true) :
    BalOK (flattenSegs (zeroSegs1 nm)) := by
  rw [zeroSegs1]
  simp only [flattenSegs_cons, flattenSegs_nil, List.append_nil, List.append_assoc]
  constructor
  · refine bal0_proj ?_
    simp only [List.filter_append, projP_word hn, List.nil_append, List.append_nil]
    decide
  · refine bal0_proj ?_
    simp only [List.filter_append, projB_word hn, List.nil_append, List.append_nil]
    decide

theorem balok_zero (inputs : List PPort)
    (h : ∀ p ∈ inputs, ∀ c ∈ p.name, wordChar c = true) :
    BalOK (flattenSegs (zeroSegs inputs)) := by
  rw [zeroSegs]
  refine balok_flatten ?_
  intro x hx
  obtain ⟨inp, him, hsome⟩ := List.mem_filterMap.mp hx
  by_cases he : inp.name ∈ excludedNames inputs
  · rw [if_pos he] at hsome
    cases hsome
  · rw [if_neg he] at hsome
    cases hsome
    exact balok_zero1 _ (h inp him)

theorem balok_for (n : Int) : BalOK (flattenSegs (forSegs n)) := by
  rw [forSegs]
  simp only [flattenSegs_append, flattenSegs_cons, flattenSegs_nil,
    flattenSegs_numSegs, List.append_nil, List.append_assoc]
  constructor
  · refine bal0_proj ?_
    simp only [List.filter_append, projP_intStr, List.nil_append, List.append_nil]
    decide
  · refine bal0_proj ?_
    simp only [List.filter_append, projB_intStr, List.nil_append, List.append_nil]
    decide

theorem balok_rand1 (inp : PPort) (hn : ∀ c ∈ inp.name, wordChar c = true) :
    BalOK (flattenSegs (randSegs1 inp)) := by
  rw [randSegs1]
  by_cases h : 1 < inp.width
  · rw [if_pos h]
    simp only [flattenSegs_append, flattenSegs_cons, flattenSegs_nil,
      flattenSegs_numSegs, List.append_nil, List.append_assoc]
    constructor
    · refine bal0_proj ?_
      simp only [List.filter_append, projP_word hn, projP_intStr,
        List.nil_append, List.append_nil]
      decide
    · refine bal0_proj ?_
      simp only [List.filter_append, projB_word hn, projB_intStr,
        List.nil_append, List.append_nil]
      decide
  · rw [if_neg h]
    simp only [flattenSegs_append, flattenSegs_cons, flattenSegs_nil,
      List.append_nil, List.append_assoc]
    constructor
    · refine bal0_proj ?_
      simp only [List.filter_append, projP_word hn, List.nil_append, List.append_nil]
      decide
    · refine bal0_proj ?_
      simp only [List.filter_append, projB_word hn, List.nil_append, List.append_nil]
      decide

theorem balok_randL (inputs : List PPort)
    (h : ∀ p ∈ inputs, ∀ c ∈ p.name, wordChar c = true) :
    BalOK (flattenSegs (randSegsL inputs)) := by
  rw [randSegsL]
  refine balok_flatten ?_
  intro x hx
  obtain ⟨inp, him, hsome⟩ := List.mem_filterMap.mp hx
  by_cases he : inp.name ∈ excludedNames inputs
  · rw [if_pos he] at hsome
    cases hsome
  · rw [if_neg he] at hsome
    cases hsome
    exact balok_rand1 inp (h inp him)

theorem balok_mon (nm : Str) (hn : ∀ c ∈ nm, wordChar c = true) :
    BalOK (flattenSegs (monSegs nm)) := by
  rw [monSegs]
  simp only [flattenSegs_cons, flattenSegs_nil, List.append_nil, List.append_assoc]
  constructor
  · refine bal0_proj ?_
    simp only [List.filter_append, projP_word hn, List.nil_append, List.append_nil]
    decide
  · refine bal0_proj ?_
    simp only [List.filter_append, projB_word hn, List.nil_append, List.append_nil]
    decide

theorem balok_monflat (l : List PPort)
    (h : ∀ p ∈ l, ∀ c ∈ p.name, wordChar c = true) :
    BalOK (flattenSegs ((l.map (fun p => monSegs p.name)).flatten)) := by
  refine balok_flatten ?_
  intro x hx
  obtain ⟨p, hpm, rfl⟩ := List.mem_map.mp hx
  exact balok_mon _ (h p hpm)

theorem balok_inst (info : ModuleInfo) (hm : ∀ c ∈ info.name, wordChar c = true)
    (hpn : ∀ p ∈ info.parameters, ∀ c ∈ p.name, wordChar c = true)
    (hports : ∀ p ∈ info.inputs ++ info.outputs ++ info.inouts,
      ∀ c ∈ p.name, wordChar c = true) :
    BalOK (flattenSegs (instSegs info)) := by
  have hJC : BalOK (flattenSegs (joinSegs ",\n".data
      ((info.inputs ++ info.outputs ++ info.inouts).map (fun p => connSegs p.name)))) := by
    refine balok_joinSegs ⟨by decide, by decide⟩ ?_
    intro x hx
    obtain ⟨p, hpm, rfl⟩ := List.mem_map.mp hx
    exact balok_conn _ (hports p hpm)
  rw [List.append_assoc] at hJC
  rw [instSegs]
  by_cases h : info.parameters ≠ []
  · rw [if_pos h]
    have hJP : BalOK (flattenSegs (joinSegs ",\n".data
        (info.parameters.map (fun p => connSegs p.name)))) := by
      refine balok_joinSegs ⟨by decide, by decide⟩ ?_
      intro x hx
      obtain ⟨p, hpm, rfl⟩ := List.mem_map.mp hx
      exact balok_conn _ (hpn p hpm)
    have hmw := balok_word hm
    simp only [flattenSegs_append, flattenSegs_cons, flattenSegs_nil,
      List.append_nil, List.append_assoc]
    constructor
    · refine ⟨?_, ?_⟩ <;>
        simp only [charBal_append, pminBal_append, hmw.1.1, hmw.1.2,
          hJP.1.1, hJP.1.2, hJC.1.1, hJC.1.2,
          (by decide : charBal '(' ')' "\n    \n    ".data = 0),
          (by decide : pminBal '(' ')' "\n    \n    ".data = 0),
          (by decide : charBal '(' ')' " #(\n".data = 1),
          (by decide : pminBal '(' ')' " #(\n".data = 0),
          (by decide : charBal '(' ')' "\n    ) ".data = -1),
          (by decide : pminBal '(' ')' "\n    ) ".data = -1),
          (by decide : charBal '(' ')' "uut".data = 0),
          (by decide : pminBal '(' ')' "uut".data = 0),
          (by decide : charBal '(' ')' " (\n".data = 1),
          (by decide : pminBal '(' ')' " (\n".data = 0),
          (by decide : charBal '(' ')' "\n    );\n\n".data = -1),
          (by decide : pminBal '(' ')' "\n    );\n\n".data = -1)] <;>
        omega
    · refine ⟨?_, ?_⟩ <;>
        simp only [charBal_append, pminBal_append, hmw.2.1, hmw.2.2,
          hJP.2.1, hJP.2.2, hJC.2.1, hJC.2.2,
          (by decide : charBal '[' ']' "\n    \n    ".data = 0),
          (by decide : pminBal '[' ']' "\n    \n    ".data = 0),
          (by decide : charBal '[' ']' " #(\n".data = 0),
          (by decide : pminBal '[' ']' " #(\n".data = 0),
          (by decide : charBal '[' ']' "\n    ) ".data = 0),
          (by decide : pminBal '[' ']' "\n    ) ".data = 0),
          (by decide : charBal '[' ']' "uut".data = 0),
          (by decide : pminBal '[' ']' "uut".data = 0),
          (by decide : charBal '[' ']' " (\n".data = 0),
          (by decide : pminBal '[' ']' " (\n".data = 0),
          (by decide : charBal '[' ']' "\n    );\n\n".data = 0),
          (by decide : pminBal '[' ']' "\n    );\n\n".data = 0)] <;>
        omega
  · rw [if_neg h]
    have hmw := balok_word hm
    simp only [flattenSegs_append, flattenSegs_cons, flattenSegs_nil,
      List.append_nil, List.append_assoc]
    constructor
    · refine ⟨?_, ?_⟩ <;>
        simp only [charBal_append, pminBal_append, hmw.1.1, hmw.1.2,
          hJC.1.1, hJC.1.2,
          (by decide : charBal '(' ')' "\n    \n    ".data = 0),
          (by decide : pminBal '(' ')' "\n    \n    ".data = 0),
          (by decide : charBal '(' ')' " ".data = 0),
          (by decide : pminBal '(' ')' " ".data = 0),
          (by decide : charBal '(' ')' "uut".data = 0),
          (by decide : pminBal '(' ')' "uut".data = 0),
          (by decide : charBal '(' ')' " (\n".data = 1),
          (by decide : pminBal '(' ')' " (\n".data = 0),
          (by decide : charBal '(' ')' "\n    );\n\n".data = -1),
          (by decide : pminBal '(' ')' "\n    );\n\n".data = -1)] <;>
        omega
    · refine ⟨?_, ?_⟩ <;>
        simp only [charBal_append, pminBal_append, hmw.2.1, hmw.2.2,
          hJC.2.1, hJC.2.2,
          (by decide : charBal '[' ']' "\n    \n    ".data = 0),
          (by decide : pminBal '[' ']' "\n    \n    ".data = 0),
          (by decide : charBal '[' ']' " ".data = 0),
          (by decide : pminBal '[' ']' " ".data = 0),
          (by decide : charBal '[' ']' "uut".data = 0),
          (by decide : pminBal '[' ']' "uut".data = 0),
          (by decide : charBal '[' ']' " (\n".data = 0),
          (by decide : pminBal '[' ']' " (\n".data = 0),
          (by decide : charBal '[' ']' "\n    );\n\n".data = 0),
          (by decide : pminBal '[' ']' "\n    );\n\n".data = 0)] <;>
        omega

set_option maxRecDepth 16000 in
theorem balok_lit1 : BalOK (flattenSegs stimLit1Segs) := ⟨by decide, by decide⟩

set_option maxRecDepth 16000 in
theorem balok_lit2 : BalOK (flattenSegs stimLit2Segs) := ⟨by decide, by decide⟩

set_option maxRecDepth 16000 in
theorem balP_lit3 : charBal '(' ')' (flattenSegs stimLit3Segs) = 1 ∧
    pminBal '(' ')' (flattenSegs stimLit3Segs) = 0 := by decide

set_option maxRecDepth 16000 in
theorem balB_lit3 : Bal0 '[' ']' (flattenSegs stimLit3Segs) := by decide

theorem balP_stim (inputs : List PPort) (n : Int)
    (h : ∀ p ∈ inputs, ∀ c ∈ p.name, wordChar c = true) :
    charBal '(' ')' (flattenSegs (stimSegs inputs n)) = 1 ∧
    pminBal '(' ')' (flattenSegs (stimSegs inputs n)) = 0 := by
  have hz := (balok_zero inputs h).1
  have hr := (balok_randL inputs h).1
  have hfor := (balok_for n).1
  rw [stimSegs]
  simp only [flattenSegs_append, List.append_assoc]
  refine ⟨?_, ?_⟩ <;>
    simp only [charBal_append, pminBal_append, hz.1, hz.2, hr.1, hr.2,
      hfor.1, hfor.2, balok_lit1.1.1, balok_lit1.1.2, balok_lit2.1.1,
      balok_lit2.1.2, balP_lit3.1, balP_lit3.2] <;>
    omega

theorem balB_stim (inputs : List PPort) (n : Int)
    (h : ∀ p ∈ inputs, ∀ c ∈ p.name, wordChar c = true) :
    Bal0 '[' ']' (flattenSegs (stimSegs inputs n)) := by
  have hz := (balok_zero inputs h).2
  have hr := (balok_randL inputs h).2
  have hfor := (balok_for n).2
  rw [stimSegs]
  simp only [flattenSegs_append, List.append_assoc]
  refine ⟨?_, ?_⟩ <;>
    simp only [charBal_append, pminBal_append, hz.1, hz.2, hr.1, hr.2,
      hfor.1, hfor.2, balok_lit1.2.1, balok_lit1.2.2, balok_lit2.2.1,
      balok_lit2.2.2, balB_lit3.1, balB_lit3.2] <;>
    omega

theorem balP_dump (info : ModuleInfo) (hm : ∀ c ∈ info.name, wordChar c = true)
    (hin : ∀ p ∈ info.inputs, ∀ c ∈ p.name, wordChar c = true)
    (hout : ∀ p ∈ info.outputs, ∀ c ∈ p.name, wordChar c = true) :
    charBal '(' ')' (flattenSegs (dumpSegs info)) = -1 ∧
    pminBal '(' ')' (flattenSegs (dumpSegs info)) = -1 := by
  have hA := (balok_monflat info.inputs hin).1
  have hB := (balok_monflat info.outputs hout).1
  rw [dumpSegs]
  simp only [flattenSegs_append, List.append_assoc]
  refine ⟨?_, ?_⟩
  · rw [charBal_append, charBal_append, hA.1, hB.1, charBal_eq_proj]
    simp only [flattenSegs_cons, flattenSegs_nil, List.append_nil,
      List.append_assoc, List.filter_append, projP_word hm, List.nil_append]
    decide
  · rw [pminBal_append, pminBal_append, hA.1, hA.2, hB.1, hB.2, pminBal_eq_proj]
    simp only [flattenSegs_cons, flattenSegs_nil, List.append_nil,
      List.append_assoc, List.filter_append, projP_word hm, List.nil_append]
    decide

theorem balB_dump (info : ModuleInfo) (hm : ∀ c ∈ info.name, wordChar c = true)
    (hin : ∀ p ∈ info.inputs, ∀ c ∈ p.name, wordChar c = true)
    (hout : ∀ p ∈ info.outputs, ∀ c ∈ p.name, wordChar c = true) :
    Bal0 '[' ']' (flattenSegs (dumpSegs info)) := by
  have hA := (balok_monflat info.inputs hin).2
  have hB := (balok_monflat info.outputs hout).2
  rw [dumpSegs]
  simp only [flattenSegs_append, List.append_assoc]
  refine ⟨?_, ?_⟩
  · rw [charBal_append, charBal_append, hA.1, hB.1, charBal_eq_proj]
    simp only [flattenSegs_cons, flattenSegs_nil, List.append_nil,
      List.append_assoc, List.filter_append, projB_word hm, List.nil_append]
    decide
  · rw [pminBal_append, pminBal_append, hA.1, hA.2, hB.1, hB.2, pminBal_eq_proj]
    simp only [flattenSegs_cons, flattenSegs_nil, List.append_nil,
      List.append_assoc, List.filter_append, projB_word hm, List.nil_append]
    decide

theorem balP_rd (info : ModuleInfo) (n : Int)
    (hm : ∀ c ∈ info.name, wordChar c = true)
    (hin : ∀ p ∈ info.inputs, ∀ c ∈ p.name, wordChar c = true)
    (hout : ∀ p ∈ info.outputs, ∀ c ∈ p.name, wordChar c = true)
    (hio : ∀ p ∈ info.inouts, ∀ c ∈ p.name, wordChar c = true)
    (hpar : ∀ p ∈ info.parameters,
      (∀ c ∈ p.name, wordChar c = true) ∧ (∀ c ∈ p.value, wordChar c = true)) :
    Bal0 '(' ')' (flattenSegs (rdSegs info n)) := by
  have hports : ∀ p ∈ info.inputs ++ info.outputs ++ info.inouts,
      ∀ c ∈ p.name, wordChar c = true := by
    intro p hp
    rcases List.mem_append.mp hp with h2 | h2
    · rcases List.mem_append.mp h2 with h3 | h3
      · exact hin p h3
      · exact hout p h3
    · exact hio p h2
  have h1 := (balok_hdr info.name hm).1
  have h2 := (balok_flatten (fun x hx => by
    obtain ⟨p, hpm, rfl⟩ := List.mem_map.mp hx
    exact balok_param p (hpar p hpm).1 (hpar p hpm).2)).1
  have h3 := (balok_inDecl info.inputs hin).1
  have h4 := (balok_outDecl info.outputs hout).1
  have h5 := (balok_ioDecl info.inouts hio).1
  have h6 := (balok_inst info hm (fun p hp => (hpar p hp).1) hports).1
  have h7 := (balok_clock info.inputs hin).1
  have h8 := (balok_reset info.inputs hin).1
  have h9 := balP_stim info.inputs n hin
  have h10 := balP_dump info hm hin hout
  rw [rdSegs]
  simp only [flattenSegs_append, List.append_assoc]
  refine ⟨?_, ?_⟩ <;>
    simp only [charBal_append, pminBal_append, h1.1, h1.2, h2.1, h2.2, h3.1, h3.2,
      h4.1, h4.2, h5.1, h5.2, h6.1, h6.2, h7.1, h7.2, h8.1, h8.2, h9.1, h9.2,
      h10.1, h10.2] <;>
    omega

theorem balB_rd (info : ModuleInfo) (n : Int)
    (hm : ∀ c ∈ info.name, wordChar c = true)
    (hin : ∀ p ∈ info.inputs, ∀ c ∈ p.name, wordChar c = true)
    (hout : ∀ p ∈ info.outputs, ∀ c ∈ p.name, wordChar c = true)
    (hio : ∀ p ∈ info.inouts, ∀ c ∈ p.name, wordChar c = true)
    (hpar : ∀ p ∈ info.parameters,
      (∀ c ∈ p.name, wordChar c = true) ∧ (∀ c ∈ p.value, wordChar c = true)) :
    Bal0 '[' ']' (flattenSegs (rdSegs info n)) := by
  have hports : ∀ p ∈ info.inputs ++ info.outputs ++ info.inouts,
      ∀ c ∈ p.name, wordChar c = true := by
    intro p hp
    rcases List.mem_append.mp hp with h2 | h2
    · rcases List.mem_append.mp h2 with h3 | h3
      · exact hin p h3
      · exact hout p h3
    · exact hio p h2
  have h1 := (balok_hdr info.name hm).2
  have h2 := (balok_flatten (fun x hx => by
    obtain ⟨p, hpm, rfl⟩ := List.mem_map.mp hx
    exact balok_param p (hpar p hpm).1 (hpar p hpm).2)).2
  have h3 := (balok_inDecl info.inputs hin).2
  have h4 := (balok_outDecl info.outputs hout).2
  have h5 := (balok_ioDecl info.inouts hio).2
  have h6 := (balok_inst info hm (fun p hp => (hpar p hp).1) hports).2
  have h7 := (balok_clock info.inputs hin).2
  have h8 := (balok_reset info.inputs hin).2
  have h9 := balB_stim info.inputs n hin
  have h10 := balB_dump info hm hin hout
  rw [rdSegs]
  simp only [flattenSegs_append, List.append_assoc]
  refine ⟨?_, ?_⟩ <;>
    simp only [charBal_append, pminBal_append, h1.1, h1.2, h2.1, h2.2, h3.1, h3.2,
      h4.1, h4.2, h5.1, h5.2, h6.1, h6.2, h7.1, h7.2, h8.1, h8.2, h9.1, h9.2,
      h10.1, h10.2] <;>
    omega

theorem hmi_rd (info : ModuleInfo) (n : Int) :
    hasModuleIdent (segPairs (rdSegs info n)) = true := by
  rw [rdSegs, hdrSegs]
  simp only [List.cons_append, List.nil_append, List.append_assoc]
  simp only [segPairs_gap, segPairs_word, collectGap_gap, collectGap_word,
    List.append_nil]
  exact hmi_skip _ _ _ (hmi_skip _ _ _ (hmi_skip _ _ _
    (hmi_here _ _ _ (by decide) (by decide))))

theorem mod_pair_mem (info : ModuleInfo) (n : Int) :
    ("module".data, " ".data) ∈ segPairs (rdSegs info n) := by
  rw [rdSegs, hdrSegs]
  simp only [List.cons_append, List.nil_append, List.append_assoc]
  simp only [segPairs_gap, segPairs_word, collectGap_gap, collectGap_word,
    List.append_nil]
  simp

theorem mspc_rd (info : ModuleInfo) (n : Int)
    (hok : segsOkC (rdSegs info n) false)
    (hone : wordSegCount "module".data (rdSegs info n) = 1) :
    moduleSpCount (flattenSegs (rdSegs info n)) = 1 := by
  rw [moduleSpCount, alt_flattenSegs _ hok]
  refine le_antisymm ?_ ?_
  · rw [← hone, ← segPairs_count]
    refine filter_len_mono _ _ ?_ _
    intro a ha
    simp only [decide_eq_true_eq] at ha ⊢
    exact ha.1
  · exact List.length_pos.mpr (List.ne_nil_of_mem (List.mem_filter.mpr
      ⟨mod_pair_mem info n, by decide⟩))

theorem caseCount_rd (info : ModuleInfo) (n : Int)
    (hok : segsOkC (rdSegs info n) false) (h4 : Words4 (rdSegs info n)) :
    caseCount (flattenSegs (rdSegs info n)) = 0 := by
  rw [caseCount, alt_flattenSegs _ hok, List.length_eq_zero, List.filter_eq_nil]
  intro e he
  have hw := segPairs_word_mem _ e he
  simp only [Bool.not_eq_true, decide_eq_false_iff_not, not_or]
  rcases h4 _ hw rfl with h2 | h2
  · simp only [fourKws, List.mem_cons, List.not_mem_nil, or_false] at h2
    rcases h2 with h2 | h2 | h2 | h2 <;> rw [h2] <;>
      exact ⟨by decide, by decide, by decide⟩
  · refine ⟨?_, ?_, ?_⟩ <;> intro h3 <;> exact h2 (by rw [h3]; decide)

theorem checkErrors_rd (info : ModuleInfo) (n : Int)
    (hmne : info.name ≠ []) (hm : ∀ c ∈ info.name, wordChar c = true)
    (hmk : info.name ∉ kwNames)
    (hin : ∀ p ∈ info.inputs, p.name ≠ [] ∧ ∀ c ∈ p.name, wordChar c = true)
    (hink : ∀ p ∈ info.inputs, p.name ∉ kwNames)
    (hout : ∀ p ∈ info.outputs, p.name ≠ [] ∧ ∀ c ∈ p.name, wordChar c = true)
    (houtk : ∀ p ∈ info.outputs, p.name ∉ kwNames)
    (hio : ∀ p ∈ info.inouts, p.name ≠ [] ∧ ∀ c ∈ p.name, wordChar c = true)
    (hiok : ∀ p ∈ info.inouts, p.name ∉ kwNames)
    (hpar : ∀ p ∈ info.parameters, (p.name ≠ [] ∧ ∀ c ∈ p.name, wordChar c = true) ∧
      (p.value ≠ [] ∧ ∀ c ∈ p.value, wordChar c = true))
    (hpark : ∀ p ∈ info.parameters, p.name ∉ kwNames ∧ p.value ∉ kwNames) :
    checkErrors (flattenSegs (rdSegs info n)) = [] := by
  have hok := rdSegs_ok info n hmne hm hin hout hio hpar
  have hw4 := words4_rdSegs info n hmk hink houtk hiok hpark
  have hcounts := rdSegs_counts info n hmk hink houtk hiok hpark
  have hinw : ∀ p ∈ info.inputs, ∀ c ∈ p.name, wordChar c = true :=
    fun p hp => (hin p hp).2
  have houtw : ∀ p ∈ info.outputs, ∀ c ∈ p.name, wordChar c = true :=
    fun p hp => (hout p hp).2
  have hiow : ∀ p ∈ info.inouts, ∀ c ∈ p.name, wordChar c = true :=
    fun p hp => (hio p hp).2
  have hparw : ∀ p ∈ info.parameters,
      (∀ c ∈ p.name, wordChar c = true) ∧ (∀ c ∈ p.value, wordChar c = true) :=
    fun p hp => ⟨(hpar p hp).1.2, (hpar p hp).2.2⟩
  have hhmi : hasModuleIdent (alt (flattenSegs (rdSegs info n))).2 = true := by
    rw [alt_flattenSegs _ hok]
    exact hmi_rd info n
  have hmsp := mspc_rd info n hok hcounts.1
  have hMend : countKw "endmodule".data (flattenSegs (rdSegs info n)) = 1 := by
    rw [countKw_flatten _ _ hok]
    exact hcounts.2.1
  have hcase := caseCount_rd info n hok hw4
  have hendcase : countKw "endcase".data (flattenSegs (rdSegs info n)) = 0 := by
    rw [countKw_flatten _ _ hok]
    exact count_zero_kw (by decide) (by decide) hw4
  have hfun : countKw "function".data (flattenSegs (rdSegs info n)) = 0 := by
    rw [countKw_flatten _ _ hok]
    exact count_zero_kw (by decide) (by decide) hw4
  have hendfun : countKw "endfunction".data (flattenSegs (rdSegs info n)) = 0 := by
    rw [countKw_flatten _ _ hok]
    exact count_zero_kw (by decide) (by decide) hw4
  have htask : countKw "task".data (flattenSegs (rdSegs info n)) = 0 := by
    rw [countKw_flatten _ _ hok]
    exact count_zero_kw (by decide) (by decide) hw4
  have hendtask : countKw "endtask".data (flattenSegs (rdSegs info n)) = 0 := by
    rw [countKw_flatten _ _ hok]
    exact count_zero_kw (by decide) (by decide) hw4
  have hP := balP_rd info n hm hinw houtw hiow hparw
  have hB := balB_rd info n hm hinw houtw hiow hparw
  have hscanP := scanPairs_clean '(' ')'
    (fun k => "ERROR: Unmatched closing parenthesis at line ".data ++ natStr k)
    (fun b => "ERROR: ".data ++ intStr b ++ " unclosed parenthesis/parentheses".data)
    (flattenSegs (rdSegs info n)) (by decide) (by decide) hP.1 hP.2
  have hscanB := scanPairs_clean '[' ']'
    (fun k => "ERROR: Unmatched closing bracket at line ".data ++ natStr k)
    (fun b => "ERROR: ".data ++ intStr b ++ " unclosed bracket(s)".data)
    (flattenSegs (rdSegs info n)) (by decide) (by decide) hB.1 hB.2
  rw [checkErrors, hhmi, hmsp, hMend, hcase, hendcase, hfun, hendfun, htask,
    hendtask, hscanP, hscanB]
  simp

theorem stripped_rd (info : ModuleInfo) (n : Int)
    (hmne : info.name ≠ []) (hm : ∀ c ∈ info.name, wordChar c = true)
    (hin : ∀ p ∈ info.inputs, p.name ≠ [] ∧ ∀ c ∈ p.name, wordChar c = true)
    (hout : ∀ p ∈ info.outputs, p.name ≠ [] ∧ ∀ c ∈ p.name, wordChar c = true)
    (hio : ∀ p ∈ info.inouts, p.name ≠ [] ∧ ∀ c ∈ p.name, wordChar c = true)
    (hpar : ∀ p ∈ info.parameters, (p.name ≠ [] ∧ ∀ c ∈ p.name, wordChar c = true) ∧
      (p.value ≠ [] ∧ ∀ c ∈ p.value, wordChar c = true)) :
    removeComments (generate_testbench info n) = flattenSegs (rdSegs info n) := by
  have hok := rdSegs_ok info n hmne hm hin hout hio hpar
  rw [removeComments, stripLineComments,
    strip_render info n hm (fun p hp => (hin p hp).2) (fun p hp => (hout p hp).2)
      (fun p hp => (hio p hp).2)
      (fun p hp => ⟨(hpar p hp).1.2, (hpar p hp).2.2⟩),
    stripBlockComments, sbc_id _ (segs_no_star _ hok)]

/-- C3: corrected form.  For every `ModuleInfo` whose module name, port
names and parameter names/values are nonempty word-character identifiers
that are not among the keywords counted by the checker, the emitted
testbench, after comment stripping, has exactly one `module` and one
`endmodule` keyword occurrence, equal numbers of `begin` and `end`
keyword occurrences, and `check_syntax` on the testbench returns
`is_valid = true`.  (The data-model invariants alone do not suffice: see
the counterexample with an input port named `case`.) -/
theorem c3_tb_counts_valid (info : ModuleInfo) (n : Int)
    (hm : info.name ≠ [] ∧ (∀ c ∈ info.name, wordChar c = true) ∧
      info.name ∉ kwNames)
    (hin : ∀ p ∈ info.inputs, p.name ≠ [] ∧ (∀ c ∈ p.name, wordChar c = true) ∧
      p.name ∉ kwNames)
    (hout : ∀ p ∈ info.outputs, p.name ≠ [] ∧ (∀ c ∈ p.name, wordChar c = true) ∧
      p.name ∉ kwNames)
    (hio : ∀ p ∈ info.inouts, p.name ≠ [] ∧ (∀ c ∈ p.name, wordChar c = true) ∧
      p.name ∉ kwNames)
    (hpar : ∀ p ∈ info.parameters,
      (p.name ≠ [] ∧ (∀ c ∈ p.name, wordChar c = true) ∧ p.name ∉ kwNames) ∧
      (p.value ≠ [] ∧ (∀ c ∈ p.value, wordChar c = true) ∧ p.value ∉ kwNames)) :
    countKw "module".data (removeComments (generate_testbench info n)) =
      countKw "endmodule".data (removeComments (generate_testbench info n)) ∧
    countKw "begin".data (removeComments (generate_testbench info n)) =
      countKw "end".data (removeComments (generate_testbench info n)) ∧
    (checkCode (generate_testbench info n)).1 = true := by
  have hin2 : ∀ p ∈ info.inputs, p.name ≠ [] ∧ ∀ c ∈ p.name, wordChar c = true :=
    fun p hp => ⟨(hin p hp).1, (hin p hp).2.1⟩
  have hout2 : ∀ p ∈ info.outputs, p.name ≠ [] ∧ ∀ c ∈ p.name, wordChar c = true :=
    fun p hp => ⟨(hout p hp).1, (hout p hp).2.1⟩
  have hio2 : ∀ p ∈ info.inouts, p.name ≠ [] ∧ ∀ c ∈ p.name, wordChar c = true :=
    fun p hp => ⟨(hio p hp).1, (hio p hp).2.1⟩
  have hpar2 : ∀ p ∈ info.parameters,
      (p.name ≠ [] ∧ ∀ c ∈ p.name, wordChar c = true) ∧
      (p.value ≠ [] ∧ ∀ c ∈ p.value, wordChar c = true) :=
    fun p hp => ⟨⟨(hpar p hp).1.1, (hpar p hp).1.2.1⟩,
      ⟨(hpar p hp).2.1, (hpar p hp).2.2.1⟩⟩
  have hok := rdSegs_ok info n hm.1 hm.2.1 hin2 hout2 hio2 hpar2
  have hcounts := rdSegs_counts info n hm.2.2 (fun p hp => (hin p hp).2.2)
    (fun p hp => (hout p hp).2.2) (fun p hp => (hio p hp).2.2)
    (fun p hp => ⟨(hpar p hp).1.2.2, (hpar p hp).2.2.2⟩)
  have hsr := stripped_rd info n hm.1 hm.2.1 hin2 hout2 hio2 hpar2
  refine ⟨?_, ?_, ?_⟩
  · rw [hsr, countKw_flatten _ _ hok, countKw_flatten _ _ hok, hcounts.1,
      hcounts.2.1]
  · rw [hsr, countKw_flatten _ _ hok, countKw_flatten _ _ hok, hcounts.2.2]
  · have hce : checkErrors (removeComments (generate_testbench info n)) = [] := by
      rw [hsr]
      exact checkErrors_rd info n hm.1 hm.2.1 hm.2.2 hin2
        (fun p hp => (hin p hp).2.2) hout2 (fun p hp => (hout p hp).2.2)
        hio2 (fun p hp => (hio p hp).2.2) hpar2
        (fun p hp => ⟨(hpar p hp).1.2.2, (hpar p hp).2.2.2⟩)
    rw [checkCode, hce]
    rfl

def cexC3 : ModuleInfo :=
  { name := "top".data, inputs := [⟨"case".data, 1, 0, 0⟩],
    outputs := [⟨"q".data, 1, 0, 0⟩], inouts := [], parameters := [],
    regs := [], wires := [] }

set_option maxRecDepth 100000 in
set_option maxHeartbeats 2000000 in
/-- C3, refutation of the original claim: a module whose input is named
`case` satisfies the data-model invariants (nonempty distinct names,
widths consistent with msb/lsb), yet the generated testbench is rejected
by the checker (one `case` keyword, zero `endcase`). -/
theorem c3_refutes :
    cexC3.name ≠ [] ∧
    (∀ p ∈ cexC3.inputs ++ cexC3.outputs ++ cexC3.inouts, p.name ≠ []) ∧
    ((cexC3.inputs ++ cexC3.outputs ++ cexC3.inouts).map PPort.name).Nodup ∧
    (∀ p ∈ cexC3.inputs ++ cexC3.outputs ++ cexC3.inouts,
      p.width = p.msb - p.lsb + 1) ∧
    (checkCode (generate_testbench cexC3 10)).1 = false := by decide

def wtC3 : ModuleInfo :=
  { name := "top".data,
    inputs := [⟨"clk".data, 1, 0, 0⟩, ⟨"rst".data, 1, 0, 0⟩, ⟨"d".data, 8, 7, 0⟩],
    outputs := [⟨"q".data, 8, 7, 0⟩], inouts := [⟨"io".data, 1, 0, 0⟩],
    parameters := [⟨"W".data, "8".data⟩], regs := [], wires := [] }

/-- C3 witness: the corrected theorem applied to a concrete module with
clock, reset, wide data input, wide output, an inout and a parameter. -/
theorem c3_witness :
    ((wtC3.name ≠ [] ∧ (∀ c ∈ wtC3.name, wordChar c = true) ∧
        wtC3.name ∉ kwNames) ∧
     (∀ p ∈ wtC3.inputs, p.name ≠ [] ∧ (∀ c ∈ p.name, wordChar c = true) ∧
        p.name ∉ kwNames) ∧
     (∀ p ∈ wtC3.outputs, p.name ≠ [] ∧ (∀ c ∈ p.name, wordChar c = true) ∧
        p.name ∉ kwNames) ∧
     (∀ p ∈ wtC3.inouts, p.name ≠ [] ∧ (∀ c ∈ p.name, wordChar c = true) ∧
        p.name ∉ kwNames) ∧
     (∀ p ∈ wtC3.parameters,
        (p.name ≠ [] ∧ (∀ c ∈ p.name, wordChar c = true) ∧ p.name ∉ kwNames) ∧
        (p.value ≠ [] ∧ (∀ c ∈ p.value, wordChar c = true) ∧
          p.value ∉ kwNames))) ∧
    (countKw "module".data (removeComments (generate_testbench wtC3 5)) =
      countKw "endmodule".data (removeComments (generate_testbench wtC3 5)) ∧
    countKw "begin".data (removeComments (generate_testbench wtC3 5)) =
      countKw "end".data (removeComments (generate_testbench wtC3 5)) ∧
    (checkCode (generate_testbench wtC3 5)).1 = true) :=
  ⟨⟨by decide, by decide, by decide, by decide, by decide⟩,
   c3_tb_counts_valid wtC3 5 (by decide) (by decide) (by decide) (by decide) (by decide)⟩

end AWave
